import Mathlib

/-!
# metroaag32: the assembler pipeline of `assemble.cpp` and `transforms.cpp`

A shallow embedding of the label resolver, the operand converters and the
instruction encoder, followed by theorems about them.

Conventions of the embedding

* `std::string` is a Lean `String`; one `char` is one `Char` (ASCII input).
* `long long`, `unsigned long long` and `size_t` are 64 bits wide (LP64);
  signed values are `Int`, unsigned values are `Nat`, and every conversion
  between them is written out (`u64_of_ll`, `ll_of_u64`, `u32_of_int`).
* `metronome32::register_value` and `metronome32::memory_value` are 32-bit
  unsigned words (`word_mod`).
* A `std::map` is an association list that is only read through `map_find`;
  `map_insert` is `insert`/`emplace` (keeps an existing binding) and
  `map_assign` is `operator[]` followed by assignment.
* A function that can throw returns an `Except asm_error _`; a function that
  throws while it holds a reference to mutable state returns the state next
  to the outcome, so that what was written before the throw stays visible.
* The `head` of an exception is the source line of its `EXCEPT_HEAD`.
* The sample programs are directive vectors as `parse_source` produces them:
  `original` is the whole matched line with its newline, the mnemonic keeps
  the case of the source, and an absent operand is the empty string.
-/

namespace metroaag32

/-! ## Machine integers -/

/-- Modelled from the spec: `metronome32::register_value` and
`metronome32::memory_value` are declared in `metronome32/src`, which is not
part of the sources; the spec describes a 32-bit CPU with 32-bit cells. -/
def word_mod : Nat := 2 ^ 32

/-- Conversion of a signed value to a 32-bit unsigned word. -/
def u32_of_int (i : Int) : Nat := (i % (2 ^ 32 : Int)).toNat

/-- Conversion of a `long long` to `unsigned long long`. -/
def u64_of_ll (i : Int) : Nat := (i % (2 ^ 64 : Int)).toNat

/-- Conversion of an `unsigned long long` to `long long` (two's complement). -/
def ll_of_u64 (n : Nat) : Int :=
  if n % 2 ^ 64 < 2 ^ 63 then ((n % 2 ^ 64 : Nat) : Int) else ((n % 2 ^ 64 : Nat) : Int) - 2 ^ 64

/-! ## Maps -/

/-- Lookup in a `std::map`: `count(k) != 0` is `isSome`, `at(k)` is the value. -/
def map_find {K V : Type} [DecidableEq K] : List (K × V) → K → Option V
  | [], _ => none
  | (k, v) :: m, key => if k = key then some v else map_find m key

/-- The members `insert` and `emplace` of `std::map`: an existing binding is kept. -/
def map_insert {K V : Type} [DecidableEq K] (m : List (K × V)) (k : K) (v : V) : List (K × V) :=
  match map_find m k with
  | some _ => m
  | none => m ++ [(k, v)]

/-- The statement `m[k] = v` on a `std::map`: the binding is created or overwritten. -/
def map_assign {K V : Type} [DecidableEq K] (m : List (K × V)) (k : K) (v : V) : List (K × V) :=
  (k, v) :: m.filter (fun p => decide (p.1 ≠ k))

/-! ## transforms.h / transforms.cpp -/

/-- The type `directive_data`: a pair of operand texts. -/
abbrev directive_data := String × String

/-- The struct `directive` of transforms.h. -/
structure directive where
  original : String := ""
  label : String := ""
  instr : String := ""
  data : directive_data := ("", "")
  address : Nat := 0
deriving DecidableEq, Repr

/-- The type `parse_results`: a vector of directives. -/
abbrev parse_results := List directive

/-- The table `unescape` of transforms.cpp, keyed by the two characters of the pair. -/
def unescape (c d : Char) : Option Char :=
  if c ≠ Char.ofNat 92 then none
  else if d = 'a' then some (Char.ofNat 7)
  else if d = 'b' then some (Char.ofNat 8)
  else if d = '?' then some '?'
  else if d = 'f' then some (Char.ofNat 12)
  else if d = 'n' then some (Char.ofNat 10)
  else if d = 'r' then some (Char.ofNat 13)
  else if d = 't' then some (Char.ofNat 9)
  else if d = 'v' then some (Char.ofNat 11)
  else if d = Char.ofNat 92 then some (Char.ofNat 92)
  else none

/-- The loop of `unescape_chars` over the characters of the string. -/
def unescape_list : List Char → List Char
  | [] => []
  | [c] => [c]
  | c :: d :: rest =>
    match unescape c d with
    | some r => r :: unescape_list rest
    | none => c :: unescape_list (d :: rest)

/-- The function `unescape_chars` of transforms.cpp. -/
def unescape_chars (str : String) : String := String.mk (unescape_list str.data)

/-- The C function `isspace` in the C locale. -/
def isspace (c : Char) : Bool := c.toNat = 32 || (9 ≤ c.toNat && c.toNat ≤ 13)

/-- The value of a character as a digit of the given base, as `strtoll` reads it. -/
def digit_of (base : Nat) (c : Char) : Option Nat :=
  let n := c.toNat
  let v : Option Nat :=
    if 48 ≤ n ∧ n ≤ 57 then some (n - 48)
    else if 97 ≤ n ∧ n ≤ 122 then some (n - 87)
    else if 65 ≤ n ∧ n ≤ 90 then some (n - 55)
    else none
  match v with
  | some d => if d < base then some d else none
  | none => none

/-- The longest run of digits of the given base at the start of the text. -/
def read_digits (base : Nat) : List Char → List Nat
  | [] => []
  | c :: cs =>
    match digit_of base c with
    | some d => d :: read_digits base cs
    | none => []

/-- The number written by a run of digits. -/
def digits_value (base : Nat) (ds : List Nat) : Nat :=
  ds.foldl (fun acc d => acc * base + d) 0

/-- The sign that `strtoll` reads, and the text after it. -/
def read_sign : List Char → Bool × List Char
  | [] => (false, [])
  | c :: r => if c = '-' then (true, r) else if c = '+' then (false, r) else (false, c :: r)

/-- The base that `strtoll` detects with base argument 0, and the text of the
digits: `0x` or `0X` before a hexadecimal digit selects base 16 and is skipped,
another leading `0` selects base 8, anything else base 10. -/
def read_base : List Char → Nat × List Char
  | [] => (10, [])
  | c :: r =>
    if c = '0' then
      match r with
      | x :: h :: r2 =>
        if (x = 'x' ∨ x = 'X') ∧ (digit_of 16 h).isSome then (16, h :: r2) else (8, c :: r)
      | _ => (8, c :: r)
    else (10, c :: r)

/-- The call `std::stoll(str, nullptr, 0)`: `none` when it throws (no conversion
could be performed, or the value is out of the range of `long long`). Leading
white space is skipped and text after the digits is ignored. -/
def stoll (str : String) : Option Int :=
  let cs := str.data.dropWhile isspace
  let sg := read_sign cs
  let bs := read_base sg.2
  let run := read_digits bs.1 bs.2
  if run = [] then none
  else
    let v : Int := if sg.1 then - (digits_value bs.1 run : Int) else (digits_value bs.1 run : Int)
    if v < -(2 ^ 63 : Int) ∨ (2 ^ 63 : Int) - 1 < v then none else some v

/-- The function `tonumber` of transforms.cpp: the value and the flag `success`. -/
def tonumber (str : String) : Int × Bool :=
  match stoll str with
  | some v => (v, true)
  | none => (0, false)

/-- The character class of `.` in an ECMAScript `std::regex`: no line terminator. -/
def regex_dot (c : Char) : Bool := c.toNat ≠ 10 && c.toNat ≠ 13

/-- The call `std::regex_match(s, regex_str)` for `patterns::str`, which is
`"(?:\"|\\|.)*?"` or the same with single quotes: an opening quote, any
characters that `.` accepts (the other two alternatives are special cases of
it), and the same quote at the end. -/
def regex_match_str (s : String) : Bool :=
  match s.data with
  | q :: rest =>
    (q = Char.ofNat 34 || q = Char.ofNat 39) && rest.getLast? = some q
      && rest.dropLast.all regex_dot
  | [] => false

/-- The class `\d` of `std::regex`. -/
def regex_digit (c : Char) : Bool := 48 ≤ c.toNat && c.toNat ≤ 57

/-- The call `std::regex_match(s, regex_reg)` for `patterns::reg`, which is
`%r\d{1,2}` and is compiled with `icase`. -/
def regex_match_reg (s : String) : Bool :=
  match s.data with
  | [p, r, d1] => p = '%' && (r = 'r' || r = 'R') && regex_digit d1
  | [p, r, d1, d2] => p = '%' && (r = 'r' || r = 'R') && regex_digit d1 && regex_digit d2
  | _ => false

/-- The call `std::stoull(str.substr(2))` on a text that `regex_reg` matched:
the decimal value of the digits after `%r`. -/
def stoull_substr2 (s : String) : Nat :=
  digits_value 10 (read_digits 10 (s.data.drop 2))

/-- The first character of a segment of `patterns::name`: `[_a-z]` under `icase`. -/
def name_start (c : Char) : Bool :=
  c.toNat = 95 || (97 ≤ c.toNat && c.toNat ≤ 122) || (65 ≤ c.toNat && c.toNat ≤ 90)

/-- A later character of a segment of `patterns::name`: `[_a-z0-9]` under `icase`. -/
def name_char (c : Char) : Bool := name_start c || regex_digit c

/-- The text after the first character of a segment of `patterns::name`: the
rest of the segment, then any number of segments that each follow a dot. -/
def name_tail : List Char → Bool
  | [] => true
  | c :: cs =>
    if name_char c then name_tail cs
    else if c = '.' then
      match cs with
      | d :: ds => name_start d && name_tail ds
      | [] => false
    else false

/-- The call `std::regex_match(s, r)` for a regex `r` built from
`patterns::name`, which is `[_a-z][_a-z0-9]*(?:\.[_a-z][_a-z0-9]*)*`, with `icase`. -/
def regex_match_name (s : String) : Bool :=
  match s.data with
  | c :: cs => name_start c && name_tail cs
  | [] => false

/-! ## except.h -/

/-- The exception classes of except.h with what their constructors put into
the message; `underflow_except` derives from `invalid_argument`. The last two
constructors are failures that are no `metroaag32::exception`: `std::out_of_range`
(thrown by `substr` and `map::at`) and an integer division by zero. -/
inductive asm_error where
  | invalid_argument (head : Nat) (line : String) (why : String)
  | underflow_except (head : Nat) (line : String) (why : String)
  | unknown_instruction (head : Nat) (dir_original : String)
  | duplicate_label (head : Nat) (dup1_original : String) (dup2_original : String)
  | incorrect_arg_num (head : Nat) (dir_original : String) (correct_num : Nat)
  | std_out_of_range
  | division_by_zero
deriving DecidableEq, Repr

deriving instance DecidableEq for Except

/-- Whether a handler for `invalid_argument` catches the exception. -/
def asm_error.is_invalid_argument : asm_error → Bool
  | .invalid_argument _ _ _ => true
  | .underflow_except _ _ _ => true
  | _ => false

/-- Whether a handler for `unknown_instruction` catches the exception. -/
def asm_error.is_unknown_instruction : asm_error → Bool
  | .unknown_instruction _ _ => true
  | _ => false

/-- Whether a handler for `duplicate_label` catches the exception. -/
def asm_error.is_duplicate_label : asm_error → Bool
  | .duplicate_label _ _ _ => true
  | _ => false

/-! ## assemble.cpp: the label resolver -/

/-- The inner loop of `has_no_duplicate_labels`: the first directive after
`dir1` that carries the label of `dir1`, when that label is not empty. -/
def first_duplicate_of (dir1 : directive) : parse_results → Option directive
  | [] => none
  | j :: rest =>
    if dir1.label ≠ "" ∧ dir1.label = j.label then some j else first_duplicate_of dir1 rest

/-- The outer loop of `has_no_duplicate_labels`, with the two output
parameters `dup1` and `dup2` as they are at the return. The source stops the
outer loop before the last directive, whose inner loop would be empty. -/
def has_no_duplicate_labels_from : parse_results → directive → directive →
    Bool × directive × directive
  | [], dup1, dup2 => (true, dup1, dup2)
  | dir1 :: rest, dup1, dup2 =>
    match first_duplicate_of dir1 rest with
    | some j => (false, dir1, j)
    | none => has_no_duplicate_labels_from rest dup1 dup2

/-- The function `has_no_duplicate_labels`: the returned flag and the values
of `dup1` and `dup2` after the call. -/
def has_no_duplicate_labels (results : parse_results) (dup1 dup2 : directive) :
    Bool × directive × directive :=
  if results.length < 2 then (true, dup1, dup2)
  else has_no_duplicate_labels_from results dup1 dup2

/-- The set `valid_realops`. -/
def valid_realops : List String :=
  ["add", "addi", "and", "andi", "beq", "bgez", "bgezal", "bgtz", "blez",
   "bltz", "bltzal", "bne", "cf", "exchange", "j", "jal", "jalr", "jr",
   "nor", "neg", "or", "ori", "rl", "rlv", "rr", "rrv", "sll", "sllv",
   "slt", "slti", "sra", "srav", "srl", "srlv", "sub", "xor", "xori", "exch"]

/-- The set `valid_pseudops`. -/
def valid_pseudops : List String := ["resw", "ress", "ressz", "dw", "ds", "dsz"]

/-- The function `pseudop_addrdelta_dw`. -/
def pseudop_addrdelta_dw (dir : directive) : Except asm_error Int :=
  let arg2 := tonumber dir.data.2
  if dir.data.1 = "" ∨ dir.data.2 = "" then .ok 1
  else if ¬ arg2.2 then
    .error (.invalid_argument 121 dir.original "Argument two is not a number.")
  else if arg2.1 < 0 then
    .error (.underflow_except 127 dir.original "Argument two must be at least 0.")
  else .ok arg2.1

/-- The function `pseudop_addrdelta_resw`. -/
def pseudop_addrdelta_resw (dir : directive) : Except asm_error Int :=
  let arg1 := tonumber dir.data.1
  if dir.data.1 = "" then .ok 1
  else if ¬ arg1.2 then
    .error (.invalid_argument 147 dir.original "Argument one is not a number.")
  else if arg1.1 < 0 then
    .error (.underflow_except 153 dir.original "Argument one must be at least 0.")
  else .ok arg1.1

/-- The function `pseudop_addrdelta_s`. The length `arg1len` is a `size_t`, so
the product `arg1len * arg2` is computed modulo 2^64 and converted back to
`long long` at the return. -/
def pseudop_addrdelta_s (dir : directive) : Except asm_error Int :=
  let success1 := regex_match_str dir.data.1
  let arg1 := unescape_chars dir.data.1
  let arg2 := tonumber dir.data.2
  if ¬ success1 then
    .error (.invalid_argument 183 dir.original "Argument one is not a string.")
  else
    let arg1len : Nat := arg1.length - 2
    if dir.data.2 = "" then .ok (ll_of_u64 arg1len)
    else if ¬ arg2.2 then
      .error (.invalid_argument 193 dir.original "Argument two is not a number.")
    else if arg2.1 < 0 then
      .error (.underflow_except 199 dir.original "Argument two must be at least 0.")
    else .ok (ll_of_u64 (arg1len * u64_of_ll arg2.1))

/-- The function `pseudop_addrdelta_sz` (the addition wraps in two's complement). -/
def pseudop_addrdelta_sz (dir : directive) : Except asm_error Int :=
  match pseudop_addrdelta_s dir with
  | .ok n => .ok (ll_of_u64 (u64_of_ll (n + 1)))
  | .error e => .error e

/-- The type `label_addr_map`. -/
abbrev label_addr_map := List (String × Nat)

/-- The chain of conditions in the loop body of `resolve_labels`: the value of
`current_addr` after the directive, or the exception. -/
def resolve_advance (dir : directive) (current_addr : Nat) : Except asm_error Nat :=
  if dir.instr = "" then .ok current_addr
  else if dir.instr = "resw" then
    match pseudop_addrdelta_resw dir with
    | .ok n => .ok (u32_of_int (current_addr + n))
    | .error e => .error e
  else if dir.instr = "dw" then
    match pseudop_addrdelta_dw dir with
    | .ok n => .ok (u32_of_int (current_addr + n))
    | .error e => .error e
  else if dir.instr = "ress" ∨ dir.instr = "ds" then
    match pseudop_addrdelta_s dir with
    | .ok n => .ok (u32_of_int (current_addr + n))
    | .error e => .error e
  else if dir.instr = "ressz" ∨ dir.instr = "dsz" then
    match pseudop_addrdelta_sz dir with
    | .ok n => .ok (u32_of_int (current_addr + n))
    | .error e => .error e
  else if ¬ (dir.instr ∈ valid_realops) then
    .error (.unknown_instruction 255 dir.original)
  else .ok ((current_addr + 1) % word_mod)

/-- The loop of `resolve_labels` over the directives. The first component is
the directive vector as the loop leaves it (it is updated in place), the
second is the label table or the exception. -/
def resolve_loop : parse_results → label_addr_map → Nat →
    parse_results × Except asm_error label_addr_map
  | [], resolutions, _ => ([], .ok resolutions)
  | dir :: rest, resolutions, current_addr =>
    let resolutions1 :=
      if dir.label ≠ "" then map_insert resolutions dir.label current_addr else resolutions
    let dir1 : directive := { dir with address := current_addr }
    match resolve_advance dir1 current_addr with
    | .error e => (dir1 :: rest, .error e)
    | .ok next_addr =>
      let r := resolve_loop rest resolutions1 next_addr
      (dir1 :: r.1, r.2)

/-- The function `resolve_labels`: the directive vector after the call and the
returned label table, or the exception. -/
def resolve_labels (results : parse_results) :
    parse_results × Except asm_error label_addr_map :=
  let dup := has_no_duplicate_labels results {} {}
  if ¬ dup.1 then
    (results, .error (.duplicate_label 230 dup.2.1.original dup.2.2.original))
  else resolve_loop results [] 0

/-- The body of the loop of `lowercase_instr_names`: `::tolower` on every
character of the mnemonic. -/
def lowercase_instr (dir : directive) : directive :=
  { dir with instr := String.mk (dir.instr.data.map Char.toLower) }

/-- The function `lowercase_instr_names`. -/
def lowercase_instr_names (results : parse_results) : parse_results :=
  results.map lowercase_instr

/-- The constant `entry_label`. -/
def entry_label : String := "_ENTRY"

/-- The function `get_entry_point`. -/
def get_entry_point (labels : label_addr_map) : Nat :=
  match map_find labels entry_label with
  | none => 0
  | some a => a

/-! ## assemble.cpp: the operand converters -/

/-- The encoding functions of `metronome32/src/instruction.h`, which is not
part of the sources: they are parameters of the development. Operands are
passed as the `unsigned long long` values the assembler computed. -/
structure metronome32 where
  new_add : Nat → Nat → Nat
  new_and : Nat → Nat → Nat
  new_exchange : Nat → Nat → Nat
  new_jalr : Nat → Nat → Nat
  new_or : Nat → Nat → Nat
  new_rlv : Nat → Nat → Nat
  new_rrv : Nat → Nat → Nat
  new_sllv : Nat → Nat → Nat
  new_slt : Nat → Nat → Nat
  new_srav : Nat → Nat → Nat
  new_srlv : Nat → Nat → Nat
  new_sub : Nat → Nat → Nat
  new_xor : Nat → Nat → Nat
  new_rl : Nat → Nat → Nat
  new_rr : Nat → Nat → Nat
  new_sll : Nat → Nat → Nat
  new_sra : Nat → Nat → Nat
  new_srl : Nat → Nat → Nat
  new_addi : Nat → Nat → Nat
  new_andi : Nat → Nat → Nat
  new_ori : Nat → Nat → Nat
  new_slti : Nat → Nat → Nat
  new_xori : Nat → Nat → Nat
  new_bgez : Nat → Nat → Nat
  new_bgtz : Nat → Nat → Nat
  new_blez : Nat → Nat → Nat
  new_bltz : Nat → Nat → Nat
  new_jal : Nat → Nat → Nat
  new_beq : Nat → Nat → Nat → Nat
  new_bgezal : Nat → Nat → Nat → Nat
  new_bltzal : Nat → Nat → Nat → Nat
  new_blne : Nat → Nat → Nat → Nat
  new_cf : Nat
  new_j : Nat → Nat

/-- The table `r1_new_instr`. -/
def r1_new_instr (M : metronome32) : List (String × (Nat → Nat → Nat)) :=
  [("add", M.new_add), ("and", M.new_and), ("exchange", M.new_exchange),
   ("exch", M.new_exchange), ("jalr", M.new_jalr), ("or", M.new_or),
   ("rlv", M.new_rlv), ("rrv", M.new_rrv), ("sllv", M.new_sllv),
   ("slt", M.new_slt), ("srav", M.new_srav), ("srlv", M.new_srlv),
   ("sub", M.new_sub), ("xor", M.new_xor)]

/-- The table `r2_new_instr`. -/
def r2_new_instr (M : metronome32) : List (String × (Nat → Nat → Nat)) :=
  [("rl", M.new_rl), ("rr", M.new_rr), ("sll", M.new_sll), ("slt", M.new_slt),
   ("sra", M.new_sra), ("srl", M.new_srl)]

/-- The table `i_new_instr`. -/
def i_new_instr (M : metronome32) : List (String × (Nat → Nat → Nat)) :=
  [("addi", M.new_addi), ("andi", M.new_andi), ("ori", M.new_ori),
   ("slti", M.new_slti), ("xori", M.new_xori)]

/-- The table `b1_new_instr`. -/
def b1_new_instr (M : metronome32) : List (String × (Nat → Nat → Nat)) :=
  [("bgez", M.new_bgez), ("bgtz", M.new_bgtz), ("blez", M.new_blez),
   ("bltz", M.new_bltz), ("jal", M.new_jal)]

/-- The table `b2_new_instr`. -/
def b2_new_instr (M : metronome32) : List (String × (Nat → Nat → Nat → Nat)) :=
  [("beq", M.new_beq), ("bgezal", M.new_bgezal), ("bltzal", M.new_bltzal),
   ("blne", M.new_blne)]

/-- The constant `regmaxval`. -/
def regmaxval : Nat := 2 ^ 6 - 1
/-- The constant `immmaxval`. -/
def immmaxval : Int := 2 ^ 21 - 1
/-- The constant `immminval`. -/
def immminval : Int := -(2 ^ 21)
/-- The constant `shrotmaxval`. -/
def shrotmaxval : Nat := 2 ^ 6 - 1
/-- The constant `tarmaxval`. -/
def tarmaxval : Nat := 2 ^ 27 - 1
/-- The constant `offmaxval`. -/
def offmaxval : Int := 2 ^ 16 - 1
/-- The constant `offminval`. -/
def offminval : Int := -(2 ^ 16)

/-- The function `get_register_num`: the returned number and the flag `success`. -/
def get_register_num (dir : directive) (str : String) : Except asm_error (Nat × Bool) :=
  let success := regex_match_reg str
  if success then
    let num := stoull_substr2 str
    if num > regmaxval then
      .error (.invalid_argument 369 dir.original "Register number must be between 0 and 63.")
    else .ok (num, true)
  else .ok (0, false)

/-- The function `get_label_addr`: the returned word and the flag `success`. -/
def get_label_addr (dir : directive) (labels : label_addr_map) (label : String) : Nat × Bool :=
  match map_find labels label with
  | some a => (a, true)
  | none => if label = "_HERE" then (dir.address, true) else (0, false)

/-- The function `get_shrot_num`. -/
def get_shrot_num (dir : directive) (str : String) : Except asm_error (Nat × Bool) :=
  let r := tonumber str
  let num : Nat := u64_of_ll r.1
  if r.2 then
    if num > shrotmaxval then
      .error (.invalid_argument 407 dir.original "Shift/rotate amount must be between 0 and 63.")
    else .ok (num, true)
  else .ok (0, false)

/-- The function `get_imm_num`. -/
def get_imm_num (dir : directive) (labels : label_addr_map) (str : String) :
    Except asm_error (Nat × Bool) :=
  let r := tonumber str
  if r.2 then
    if r.1 > immmaxval ∨ r.1 < immminval then
      .error (.invalid_argument 428 dir.original
        "Immediate must be between -2097152 and 2097151.")
    else .ok (u64_of_ll r.1, true)
  else
    let l := get_label_addr dir labels str
    let num : Int := (l.1 : Int)
    if l.2 then
      if num > immmaxval ∨ num < immminval then
        .error (.invalid_argument 442 dir.original
          "Immediate must be between -2097152 and 2097151.")
      else .ok (u64_of_ll num, true)
    else .ok (0, false)

/-- The function `get_offset_num`. -/
def get_offset_num (dir : directive) (labels : label_addr_map) (str : String) :
    Except asm_error (Nat × Bool) :=
  let r := tonumber str
  if r.2 then
    if r.1 > offmaxval ∨ r.1 < offminval then
      .error (.invalid_argument 464 dir.original "Offset must be between -65536 and 65535.")
    else .ok (u64_of_ll r.1, true)
  else
    let addr : Int := (dir.address : Int)
    let l := get_label_addr dir labels str
    let num : Int := (l.1 : Int) - addr
    if l.2 then
      if num > offmaxval ∨ num < offminval then
        .error (.invalid_argument 479 dir.original "Offset must be between -65536 and 65535.")
      else .ok (u64_of_ll num, true)
    else .ok (0, false)

/-- The function `get_tar_num`. -/
def get_tar_num (dir : directive) (labels : label_addr_map) (str : String) :
    Except asm_error (Nat × Bool) :=
  let r := tonumber str
  let num : Nat := u64_of_ll r.1
  if r.2 then
    if num > tarmaxval then
      .error (.invalid_argument 501 dir.original "Target must be between 0 and 134217727.")
    else .ok (num, true)
  else
    let l := get_label_addr dir labels str
    let num : Nat := (l.1 + 1) % word_mod
    if l.2 then
      if num > tarmaxval then
        .error (.invalid_argument 514 dir.original "Target must be between 0 and 134217727.")
      else .ok (num, true)
    else .ok (0, false)

/-- The function `get_dw_num`. -/
def get_dw_num (dir : directive) (labels : label_addr_map) (str : String) : Nat × Bool :=
  let r := tonumber str
  if r.2 then (u64_of_ll r.1, true)
  else
    let l := get_label_addr dir labels str
    let num : Nat := u32_of_int ((l.1 : Int) - (dir.address : Int))
    if l.2 then (num, true) else (0, false)

/-- The function `assert_is_reg`. -/
def assert_is_reg (dir : directive) (arg : String) (success : Bool) : Except asm_error Unit :=
  if ¬ success then
    .error (.invalid_argument 547 dir.original ("Expected '" ++ arg ++ "' to be a register."))
  else .ok ()

/-- The function `assert_is_shrot`. -/
def assert_is_shrot (dir : directive) (arg : String) (success : Bool) : Except asm_error Unit :=
  if ¬ success then
    .error (.invalid_argument 560 dir.original
      ("Expected '" ++ arg ++ "' to be a shift/rotate amount."))
  else .ok ()

/-- The function `assert_is_imm`. -/
def assert_is_imm (dir : directive) (arg : String) (success : Bool) : Except asm_error Unit :=
  if ¬ success then
    .error (.invalid_argument 573 dir.original
      ("Expected '" ++ arg ++ "' to be an immediate or label."))
  else .ok ()

/-- The function `assert_is_offset`. -/
def assert_is_offset (dir : directive) (arg : String) (success : Bool) : Except asm_error Unit :=
  if ¬ success then
    .error (.invalid_argument 586 dir.original
      ("Expected '" ++ arg ++ "' to be an offset or label."))
  else .ok ()

/-- The function `assert_is_tar`. -/
def assert_is_tar (dir : directive) (arg : String) (success : Bool) : Except asm_error Unit :=
  if ¬ success then
    .error (.invalid_argument 599 dir.original
      ("Expected '" ++ arg ++ "' to be a target or label."))
  else .ok ()

/-- The function `assert_regs_unequal`. -/
def assert_regs_unequal (dir : directive) (reg1 reg2 : Nat) : Except asm_error Unit :=
  if reg1 = reg2 then
    .error (.invalid_argument 612 dir.original "The two provided registers cannot be equal.")
  else .ok ()

/-! ## assemble.cpp: the encoder -/

/-- Modelled from the spec: `metronome32::context_data` is declared in
`metronome32/src`, which is not part of the sources. Of its members the
assembler uses the memory map `sys_mem` (address to 32-bit cell, empty when
the context is created) and the program counter `counter`. -/
structure context_data where
  sys_mem : List (Nat × Nat) := []
  counter : Nat := 0
deriving DecidableEq, Repr

/-- Modelled from the spec: the class `metroaag32::vm` is declared in
`assemble.h`, which is not part of the sources; `set_context` stores the
context it is given. -/
structure vm where
  context : context_data
deriving DecidableEq, Repr

/-- The two statements that end every real instruction:
`context.sys_mem[context.counter] = word; context.counter++;`. -/
def emit_word (context : context_data) (word : Nat) : context_data :=
  { sys_mem := map_assign context.sys_mem context.counter word,
    counter := (context.counter + 1) % word_mod }

/-- The end of a function that evaluates its operands and the instruction
word before it touches the context: an exception leaves the context as it was. -/
def emit_or_throw (context : context_data) (word : Except asm_error Nat) :
    context_data × Option asm_error :=
  match word with
  | .ok w => (emit_word context w, none)
  | .error e => (context, some e)

/-- The call `table.at(key)(a, b)`: `at` throws `std::out_of_range` for a missing key. -/
def table_at (table : List (String × (Nat → Nat → Nat))) (key : String) (a b : Nat) :
    Except asm_error Nat :=
  match map_find table key with
  | some f => .ok (f a b)
  | none => .error .std_out_of_range

/-- The function `r1_create_instr`. -/
def r1_create_instr (M : metronome32) (dir : directive) (context : context_data) :
    context_data × Option asm_error :=
  emit_or_throw context (do
    let reg1 ← get_register_num dir dir.data.1
    assert_is_reg dir dir.data.1 reg1.2
    let reg2 ← get_register_num dir dir.data.2
    assert_is_reg dir dir.data.2 reg2.2
    assert_regs_unequal dir reg1.1 reg2.1
    table_at (r1_new_instr M) dir.instr reg1.1 reg2.1)

/-- The function `r2_create_instr`. -/
def r2_create_instr (M : metronome32) (dir : directive) (context : context_data) :
    context_data × Option asm_error :=
  emit_or_throw context (do
    let reg ← get_register_num dir dir.data.1
    assert_is_reg dir dir.data.1 reg.2
    let shrot ← get_shrot_num dir dir.data.2
    assert_is_shrot dir dir.data.2 shrot.2
    table_at (r2_new_instr M) dir.instr reg.1 shrot.1)

/-- The function `i_create_instr`. -/
def i_create_instr (M : metronome32) (dir : directive) (labels : label_addr_map)
    (context : context_data) : context_data × Option asm_error :=
  emit_or_throw context (do
    let reg ← get_register_num dir dir.data.1
    assert_is_reg dir dir.data.1 reg.2
    let imm ← get_imm_num dir labels dir.data.2
    assert_is_imm dir dir.data.2 imm.2
    table_at (i_new_instr M) dir.instr reg.1 imm.1)

/-- The function `b1_create_instr`. -/
def b1_create_instr (M : metronome32) (dir : directive) (labels : label_addr_map)
    (context : context_data) : context_data × Option asm_error :=
  emit_or_throw context (do
    let reg ← get_register_num dir dir.data.1
    assert_is_reg dir dir.data.1 reg.2
    let offset ← get_offset_num dir labels dir.data.2
    assert_is_offset dir dir.data.2 offset.2
    table_at (b1_new_instr M) dir.instr reg.1 offset.1)

/-- The loop `for (; start < end; start++)` of the `dw` branch, which inserts
`val` at `start`, run for the `n = end - start` cells it visits. -/
def dw_fill (val : Nat) : Nat → List (Nat × Nat) → Nat → List (Nat × Nat)
  | 0, mem, _ => mem
  | n + 1, mem, start => dw_fill val n (map_insert mem start val) (start + 1)

/-- The inner loop of the `ds` and `dsz` branches: one cell for each character
of the string, at `start + si`. -/
def ds_copy (start : Nat) : List Char → Nat → List (Nat × Nat) → List (Nat × Nat)
  | [], _, mem => mem
  | c :: cs, si, mem => ds_copy start cs (si + 1) (map_insert mem ((start + si) % word_mod) c.toNat)

/-- The outer loop of the `ds` and `dsz` branches, run `times` times: the
memory map and the value of `start` after it. -/
def ds_fill (str : List Char) : Nat → List (Nat × Nat) → Nat → List (Nat × Nat) × Nat
  | 0, mem, start => (mem, start)
  | n + 1, mem, start =>
    ds_fill str n (ds_copy start str 0 mem) ((start + str.length) % word_mod)

/-- The first statements of the `ds` and `dsz` branches: the string without
its quotes and the number `times`. `substr(1, size - 2)` throws
`std::out_of_range` on an empty text, and the division is by `str.size()`. -/
def ds_times (dir : directive) : Except asm_error (List Char × Nat) :=
  let str := unescape_chars dir.data.1
  if str.length < 1 then .error .std_out_of_range
  else
    let str1 := (str.data.drop 1).take (str.length - 2)
    match pseudop_addrdelta_s dir with
    | .error e => .error e
    | .ok n =>
      if str1.length = 0 then .error .division_by_zero
      else .ok (str1, (u64_of_ll n / str1.length) % word_mod)

/-- The function `pseudop_create_instr`. -/
def pseudop_create_instr (dir : directive) (labels : label_addr_map)
    (context : context_data) : context_data × Option asm_error :=
  if dir.instr = "dw" then
    let start := context.counter
    match pseudop_addrdelta_dw dir with
    | .error e => (context, some e)
    | .ok n =>
      let end_addr := u32_of_int (start + n)
      let val := get_dw_num dir labels dir.data.1
      if ¬ val.2 then
        (context, some (.invalid_argument 749 dir.original
          "Argument one is not a label or number."))
      else
        ({ sys_mem := dw_fill (val.1 % word_mod) (end_addr - start) context.sys_mem start,
           counter := end_addr }, none)
  else if dir.instr = "ds" then
    match ds_times dir with
    | .error e => (context, some e)
    | .ok (str, times) =>
      let r := ds_fill str times context.sys_mem context.counter
      ({ sys_mem := r.1, counter := r.2 }, none)
  else if dir.instr = "dsz" then
    match ds_times dir with
    | .error e => (context, some e)
    | .ok (str, times) =>
      let r := ds_fill str times context.sys_mem context.counter
      ({ sys_mem := map_insert r.1 r.2 0, counter := (r.2 + 1) % word_mod }, none)
  else if dir.instr = "resw" then
    match pseudop_addrdelta_resw dir with
    | .error e => (context, some e)
    | .ok n => ({ context with counter := u32_of_int (context.counter + n) }, none)
  else if dir.instr = "ress" then
    match pseudop_addrdelta_s dir with
    | .error e => (context, some e)
    | .ok n => ({ context with counter := u32_of_int (context.counter + n) }, none)
  else if dir.instr = "ressz" then
    match pseudop_addrdelta_sz dir with
    | .error e => (context, some e)
    | .ok n => ({ context with counter := u32_of_int (context.counter + n) }, none)
  else (context, none)

/-- The function `assemble_instruction`. -/
def assemble_instruction (M : metronome32) (dir : directive) (labels : label_addr_map)
    (context : context_data) : context_data × Option asm_error :=
  if dir.instr.length = 0 then (context, none)
  else if (map_find (r1_new_instr M) dir.instr).isSome then r1_create_instr M dir context
  else if (map_find (r2_new_instr M) dir.instr).isSome then r2_create_instr M dir context
  else if (map_find (i_new_instr M) dir.instr).isSome then i_create_instr M dir labels context
  else if (map_find (b1_new_instr M) dir.instr).isSome then b1_create_instr M dir labels context
  else if dir.instr ∈ valid_pseudops then pseudop_create_instr dir labels context
  else if dir.instr = "cf" then (emit_word context M.new_cf, none)
  else if dir.instr = "j" then
    emit_or_throw context (do
      let target ← get_tar_num dir labels dir.data.1
      assert_is_tar dir dir.data.1 target.2
      pure (M.new_j target.1))
  else (context, some (.unknown_instruction 843 dir.original))

/-- The loop `for (const auto& dir : pr) assemble_instruction(dir, labels, context)`
of `assemble`: the context when the loop ends or an exception leaves it. -/
def assemble_loop (M : metronome32) (labels : label_addr_map) :
    parse_results → context_data → context_data × Option asm_error
  | [], context => (context, none)
  | dir :: rest, context =>
    match assemble_instruction M dir labels context with
    | (context1, none) => assemble_loop M labels rest context1
    | (context1, some e) => (context1, some e)

/-- The function `assemble`. -/
def assemble (M : metronome32) (pr : parse_results) : Except asm_error vm :=
  let pr1 := lowercase_instr_names pr
  match resolve_labels pr1 with
  | (_, .error e) => .error e
  | (pr2, .ok labels) =>
    match assemble_loop M labels pr2 { sys_mem := [], counter := 0 } with
    | (_, some e) => .error e
    | (context, none) => .ok { context := { context with counter := get_entry_point labels } }

/-! ## Vocabulary of the statements and sample programs -/

/-- What `resolve_labels` does not change in a directive: everything but the address. -/
def erase_address (d : directive) : directive := { d with address := 0 }

/-- One step of the address counter: the address of the next directive is what
`resolve_advance` computes from the directive and its own address. -/
def addr_step (d e : directive) : Prop := resolve_advance d d.address = .ok e.address

/-- The size rules of the resolver, read off one successful step. -/
def size_rules (d : directive) (next : Nat) : Prop :=
  (d.instr = "" → next = d.address) ∧
  (d.instr = "resw" →
    ∃ n, pseudop_addrdelta_resw d = .ok n ∧ next = u32_of_int (d.address + n)) ∧
  (d.instr = "dw" →
    ∃ n, pseudop_addrdelta_dw d = .ok n ∧ next = u32_of_int (d.address + n)) ∧
  (d.instr = "ress" ∨ d.instr = "ds" →
    ∃ n, pseudop_addrdelta_s d = .ok n ∧ next = u32_of_int (d.address + n)) ∧
  (d.instr = "ressz" ∨ d.instr = "dsz" →
    ∃ n, pseudop_addrdelta_sz d = .ok n ∧ next = u32_of_int (d.address + n)) ∧
  (d.instr ∈ valid_realops → next = (d.address + 1) % word_mod)

/-- A program with a label on a reserve pseudo-op, a label-only line, two
define pseudo-ops and the entry label on a real instruction. -/
def sample_program : parse_results :=
  [{ original := "buf: resw 3\n", label := "buf", instr := "resw", data := ("3", "") },
   { original := "msg:\n", label := "msg" },
   { original := "ds \"abc\", 2\n", instr := "ds", data := ("\"abc\"", "2") },
   { original := "dw 7, 3\n", instr := "dw", data := ("7", "3") },
   { original := "_ENTRY: CF\n", label := "_ENTRY", instr := "CF" },
   { original := "j buf\n", instr := "j", data := ("buf", "") }]

/-- The directives of `sample_program` as `resolve_labels` leaves them. -/
def sample_resolved : parse_results :=
  [{ original := "buf: resw 3\n", label := "buf", instr := "resw", data := ("3", ""), address := 0 },
   { original := "msg:\n", label := "msg", address := 3 },
   { original := "ds \"abc\", 2\n", instr := "ds", data := ("\"abc\"", "2"), address := 3 },
   { original := "dw 7, 3\n", instr := "dw", data := ("7", "3"), address := 9 },
   { original := "_ENTRY: CF\n", label := "_ENTRY", instr := "cf", address := 12 },
   { original := "j buf\n", instr := "j", data := ("buf", ""), address := 13 }]

/-- The label table of `sample_program`. -/
def sample_labels : label_addr_map := [("buf", 0), ("msg", 3), ("_ENTRY", 12)]

/-- A program whose `ds` directive has a repeat count for which the product
`arg1len * arg2` of `pseudop_addrdelta_s` exceeds 2^64:
3 * 6148914691236517206 = 2^64 + 2. -/
def overflow_program : parse_results :=
  [{ original := "ds \"abc\", 6148914691236517206\n", instr := "ds",
     data := ("\"abc\"", "6148914691236517206") },
   { original := "cf\n", instr := "cf" }]

/-- A program of one directive whose mnemonic is in `valid_realops` and in the
table `b2_new_instr`. -/
def beq_program : parse_results :=
  [{ original := "beq %r1, %r2\n", instr := "beq", data := ("%r1", "%r2") }]

/-- Two directives, the first before the second, that do not carry the same
non-empty label. -/
def no_dup_pair (a b : directive) : Prop := a.label = "" ∨ a.label ≠ b.label

/-- An arbitrary choice of encoding functions, used where a statement is
evaluated on a concrete program. -/
def sample_encoders : metronome32 :=
  { new_add := fun a b => 1 + 64 * (a + 64 * b),
    new_and := fun a b => 2 + 64 * (a + 64 * b),
    new_exchange := fun a b => 3 + 64 * (a + 64 * b),
    new_jalr := fun a b => 4 + 64 * (a + 64 * b),
    new_or := fun a b => 5 + 64 * (a + 64 * b),
    new_rlv := fun a b => 6 + 64 * (a + 64 * b),
    new_rrv := fun a b => 7 + 64 * (a + 64 * b),
    new_sllv := fun a b => 8 + 64 * (a + 64 * b),
    new_slt := fun a b => 9 + 64 * (a + 64 * b),
    new_srav := fun a b => 10 + 64 * (a + 64 * b),
    new_srlv := fun a b => 11 + 64 * (a + 64 * b),
    new_sub := fun a b => 12 + 64 * (a + 64 * b),
    new_xor := fun a b => 13 + 64 * (a + 64 * b),
    new_rl := fun a b => 14 + 64 * (a + 64 * b),
    new_rr := fun a b => 15 + 64 * (a + 64 * b),
    new_sll := fun a b => 16 + 64 * (a + 64 * b),
    new_sra := fun a b => 17 + 64 * (a + 64 * b),
    new_srl := fun a b => 18 + 64 * (a + 64 * b),
    new_addi := fun a b => 19 + 64 * (a + 64 * b),
    new_andi := fun a b => 20 + 64 * (a + 64 * b),
    new_ori := fun a b => 21 + 64 * (a + 64 * b),
    new_slti := fun a b => 22 + 64 * (a + 64 * b),
    new_xori := fun a b => 23 + 64 * (a + 64 * b),
    new_bgez := fun a b => 24 + 64 * (a + 64 * b),
    new_bgtz := fun a b => 25 + 64 * (a + 64 * b),
    new_blez := fun a b => 26 + 64 * (a + 64 * b),
    new_bltz := fun a b => 27 + 64 * (a + 64 * b),
    new_jal := fun a b => 28 + 64 * (a + 64 * b),
    new_beq := fun a b c => 29 + 64 * (a + 64 * (b + 64 * c)),
    new_bgezal := fun a b c => 30 + 64 * (a + 64 * (b + 64 * c)),
    new_bltzal := fun a b c => 31 + 64 * (a + 64 * (b + 64 * c)),
    new_blne := fun a b c => 32 + 64 * (a + 64 * (b + 64 * c)),
    new_cf := 33,
    new_j := fun t => 34 + 64 * t }

/-- A program in which the second and the fourth directive carry the label
`x`, with an unknown mnemonic and a negative count before the duplicate. -/
def duplicate_program : parse_results :=
  [{ original := "frobnicate %r1\n", instr := "frobnicate", data := ("%r1", "") },
   { original := "x: resw -1\n", label := "x", instr := "resw", data := ("-1", "") },
   { original := "y: cf\n", label := "y", instr := "cf" },
   { original := "x: cf\n", label := "x", instr := "cf" },
   { original := "y: cf\n", label := "y", instr := "cf" }]

/-- A directive whose mnemonic is not empty and is neither in `valid_realops`
nor in `valid_pseudops`. -/
def is_unknown_mnemonic (d : directive) : Bool :=
  decide (d.instr ≠ "") && !decide (d.instr ∈ valid_realops) &&
    !decide (d.instr ∈ valid_pseudops)

/-- A directive whose size arguments are valid if it is a pseudo-op: the
function that computes its size does not throw. -/
def pseudo_sizes_valid (d : directive) : Prop :=
  (d.instr = "resw" → ∃ n, pseudop_addrdelta_resw d = .ok n) ∧
  (d.instr = "dw" → ∃ n, pseudop_addrdelta_dw d = .ok n) ∧
  (d.instr = "ress" ∨ d.instr = "ds" → ∃ n, pseudop_addrdelta_s d = .ok n) ∧
  (d.instr = "ressz" ∨ d.instr = "dsz" → ∃ n, pseudop_addrdelta_sz d = .ok n)

/-- A program with a mnemonic in upper case, valid pseudo-ops and two unknown
mnemonics. -/
def unknown_program : parse_results :=
  [{ original := "start: ADD %r1, %r2\n", label := "start", instr := "ADD", data := ("%r1", "%r2") },
   { original := "resw 4\n", instr := "resw", data := ("4", "") },
   { original := "Mul %r1, %r2\n", instr := "Mul", data := ("%r1", "%r2") },
   { original := "div %r1, %r2\n", instr := "div", data := ("%r1", "%r2") }]

/-- The image that `assemble` returns for `sample_program` with `sample_encoders`. -/
def sample_image : vm :=
  { context :=
    { sys_mem := [(13, 98), (12, 33), (3, 97), (4, 98), (5, 99), (6, 97), (7, 98), (8, 99),
        (9, 7), (10, 7), (11, 7)],
      counter := 12 } }

/-- A program in which the label `label` is on a `dw 5` directive at address 2
and is the immediate operand of an `addi` directive. -/
def imm_program : parse_results :=
  [{ original := "cf\n", instr := "cf" },
   { original := "cf\n", instr := "cf" },
   { original := "label: dw 5\n", label := "label", instr := "dw", data := ("5", "") },
   { original := "addi %r1, label\n", instr := "addi", data := ("%r1", "label") }]

/-- A program that defines a label named `_HERE` on its first directive and
uses `_HERE` as the immediate operand of its second directive. -/
def here_program : parse_results :=
  [{ original := "_HERE: cf\n", label := "_HERE", instr := "cf" },
   { original := "addi %r1, _HERE\n", instr := "addi", data := ("%r1", "_HERE") }]

/-- The mnemonics of the register-pair family: the keys of `r1_new_instr`. -/
def r1_mnemonics : List String :=
  ["add", "and", "exchange", "exch", "jalr", "or", "rlv", "rrv", "sllv", "slt", "srav",
   "srlv", "sub", "xor"]

/-- A `ds` or `dsz` directive whose string length is a `size_t` value and whose
repeat count keeps the product `arg1len * arg2` of `pseudop_addrdelta_s`
below 2^64. -/
def ds_no_wrap (d : directive) : Prop :=
  (d.instr = "ds" ∨ d.instr = "dsz") →
    (unescape_chars d.data.1).length < 2 ^ 64 ∧
    (d.data.2 ≠ "" →
      ((unescape_chars d.data.1).length - 2) * u64_of_ll (tonumber d.data.2).1 < 2 ^ 64)

/-- The mnemonics of `valid_realops` that are a key of none of the four
tables `assemble_instruction` looks at and are neither `cf` nor `j`. -/
def undispatched_realops : List String :=
  ["beq", "bgezal", "bltzal", "bne", "jr", "nor", "neg"]

/-- The directive that `parse_source` produces for the line
`instr a, b` (no label), before the resolver assigns its address. -/
def line2 (instr a b : String) : directive :=
  { original := instr ++ " " ++ a ++ ", " ++ b ++ "\n", instr := instr, data := (a, b) }

/-- The directive that `parse_source` produces for the line `instr a` (no label). -/
def line1 (instr a : String) : directive :=
  { original := instr ++ " " ++ a ++ "\n", instr := instr, data := (a, "") }

/-- A program whose label `x` is at the last address, 2^32 - 1, and is the
target of a jump. -/
def jump_wrap_program : parse_results :=
  [line1 "resw" "4294967295",
   { original := "x: j x\n", label := "x", instr := "j", data := ("x", "") }]

/-- The mnemonics whose first operand is read by `get_register_num`: the keys
of the four tables that `assemble_instruction` dispatches. -/
def register_mnemonics : List String :=
  ["add", "and", "exchange", "exch", "jalr", "or", "rlv", "rrv", "sllv", "slt", "srav",
   "srlv", "sub", "xor", "rl", "rr", "sll", "sra", "srl", "addi", "andi", "ori", "slti",
   "xori", "bgez", "bgtz", "blez", "bltz", "jal"]

/-- A program that reserves 2^32 - 1 words, so that the instruction after the
reservation is encoded with the emission counter at its largest value. -/
def counter_wrap_program : parse_results :=
  [line1 "resw" "4294967295", { original := "cf\n", instr := "cf" }]

/-- A program that reserves 2^32 words before an instruction. -/
def reserve_wrap_program : parse_results :=
  [line1 "resw" "4294967296", { original := "cf\n", instr := "cf" }]

/-- A memory map without a cell at or above the bound. -/
def mem_below (mem : List (Nat × Nat)) (bound : Nat) : Prop :=
  ∀ a, bound ≤ a → map_find mem a = none

/-- The size that the loop body of `resolve_labels` adds to `current_addr` for
a directive, before the reduction modulo 2^32: `none` where the body throws. -/
def directive_size (d : directive) : Option Int :=
  if d.instr = "" then some 0
  else if d.instr = "resw" then
    match pseudop_addrdelta_resw d with
    | .ok n => some n
    | .error _ => none
  else if d.instr = "dw" then
    match pseudop_addrdelta_dw d with
    | .ok n => some n
    | .error _ => none
  else if d.instr = "ress" ∨ d.instr = "ds" then
    match pseudop_addrdelta_s d with
    | .ok n => some n
    | .error _ => none
  else if d.instr = "ressz" ∨ d.instr = "dsz" then
    match pseudop_addrdelta_sz d with
    | .ok n => some n
    | .error _ => none
  else if d.instr ∈ valid_realops then some 1
  else none

/-- A `ds` or `dsz` directive whose size is computed exactly: the length of the
string and its product with the repeat count stay below 2^63, so that
`arg1len * arg2` is the product of the two numbers as a `long long`. -/
def ds_size_exact (d : directive) : Prop :=
  (d.instr = "ds" ∨ d.instr = "dsz") →
    (unescape_chars d.data.1).length < 2 ^ 63 ∧
    (d.data.2 ≠ "" →
      ((unescape_chars d.data.1).length - 2) * u64_of_ll (tonumber d.data.2).1 < 2 ^ 63)

/-- A resolved program whose addresses do not wrap around: the size of every
`ds` and `dsz` directive is computed exactly, and the address of every
directive plus its size stays below 2^32. -/
def no_wrap (rs : parse_results) : Prop :=
  ∀ d ∈ rs, ds_size_exact d ∧
    ∃ n : Nat, directive_size d = some (n : Int) ∧ d.address + n < 2 ^ 32

/-- The cell that the loops of a `ds` or `dsz` directive define at the address
`a`, for the string `str` repeated `times` times from `start`. -/
def ds_cell (str : List Char) (start times a : Nat) : Option Nat :=
  if start ≤ a ∧ a < start + times * str.length then
    (str[(a - start) % str.length]?).map Char.toNat
  else none

/-- A program with a `dw` directive that defines three words with the value 7
between two instructions, and a `dw` directive whose value is a label. -/
def dw_program : parse_results :=
  [{ original := "top: cf\n", label := "top", instr := "cf" },
   line2 "dw" "7" "3",
   line1 "dw" "top",
   { original := "cf\n", instr := "cf" }]

/-- The directives of `dw_program` as `resolve_labels` leaves them. -/
def dw_resolved : parse_results :=
  [{ original := "top: cf\n", label := "top", instr := "cf", address := 0 },
   { line2 "dw" "7" "3" with address := 1 },
   { line1 "dw" "top" with address := 4 },
   { original := "cf\n", instr := "cf", address := 5 }]

/-- The image that `assemble` returns for `dw_program` with `sample_encoders`. -/
def dw_image : vm :=
  { context :=
    { sys_mem := [(5, 33), (0, 33), (1, 7), (2, 7), (3, 7), (4, 4294967292)], counter := 0 } }

/-- A program with the directives `ds "ab", 2` and `dsz "ab"` after one
instruction. -/
def ds_program : parse_results :=
  [{ original := "cf\n", instr := "cf" },
   line2 "ds" "\"ab\"" "2",
   line1 "dsz" "\"ab\""]

/-- The directives of `ds_program` as `resolve_labels` leaves them. -/
def ds_resolved : parse_results :=
  [{ original := "cf\n", instr := "cf", address := 0 },
   { line2 "ds" "\"ab\"" "2" with address := 1 },
   { line1 "dsz" "\"ab\"" with address := 5 }]

/-- The image that `assemble` returns for `ds_program` with `sample_encoders`. -/
def ds_image : vm :=
  { context :=
    { sys_mem := [(0, 33), (1, 97), (2, 98), (3, 97), (4, 98), (5, 97), (6, 98), (7, 0)],
      counter := 0 } }

/-- Whether a handler for `underflow_except` catches the exception. -/
def asm_error.is_underflow_except : asm_error → Bool
  | .underflow_except _ _ _ => true
  | _ => false

/-- A program whose third directive has a negative repeat count. -/
def negative_count_program : parse_results :=
  [{ original := "cf\n", instr := "cf" },
   line1 "resw" "2",
   line2 "DS" "\"ab\"" "-3",
   line1 "resw" "x"]

/-- A program whose first directive is `dw` without operands. -/
def dw_bare_program : parse_results :=
  [{ original := "dw\n", instr := "dw" }, { original := "cf\n", instr := "cf" }]

/-- The number of the five mnemonic tables that have the mnemonic as a key. -/
def family_count (M : metronome32) (s : String) : Nat :=
  (if (map_find (r1_new_instr M) s).isSome then 1 else 0) +
  (if (map_find (r2_new_instr M) s).isSome then 1 else 0) +
  (if (map_find (i_new_instr M) s).isSome then 1 else 0) +
  (if (map_find (b1_new_instr M) s).isSome then 1 else 0) +
  (if (map_find (b2_new_instr M) s).isSome then 1 else 0)

/-- The keys of the five mnemonic tables, table after table. -/
def family_keys : List (List String) :=
  [r1_mnemonics, ["rl", "rr", "sll", "slt", "sra", "srl"],
   ["addi", "andi", "ori", "slti", "xori"], ["bgez", "bgtz", "blez", "bltz", "jal"],
   ["beq", "bgezal", "bltzal", "blne"]]

/-- What the decoding of escapes is to produce, read off the description of
`unescape_chars`: the text is cut from left to right into recognised pairs,
each replaced by its character, and single characters that start no
recognised pair where they stand, each kept. -/
inductive decodes : List Char → List Char → Prop
  | done : decodes [] []
  | pair (c d r : Char) (rest out : List Char) :
      unescape c d = some r → decodes rest out → decodes (c :: d :: rest) (r :: out)
  | single (c : Char) (rest out : List Char) :
      (∀ d rest1, rest = d :: rest1 → unescape c d = none) → decodes rest out →
      decodes (c :: rest) (c :: out)

/-- Two directives that differ at most in the letter case of the mnemonic. -/
def same_up_to_case (a b : directive) : Prop :=
  b = { a with instr := b.instr } ∧
    b.instr.data.map Char.toLower = a.instr.data.map Char.toLower
/-- A program whose third directive has an unknown mnemonic, as the parser
produces it: every address is 0. -/
def half_resolved_program : parse_results :=
  [line1 "resw" "3", { original := "cf\n", instr := "cf" }, line1 "frob" "%r1"]

/-! ## The regular expressions of transforms.h -/

/-- The regular expressions that `patterns` builds: a character
class, sequence, alternative (the left one is tried first), the quantifier `*`
(greedy) or `*?` (lazy), and a capture group with its number. -/
inductive regex where
  | eps : regex
  | chr : (Char → Bool) → regex
  | seq : regex → regex → regex
  | alt : regex → regex → regex
  | star : Bool → regex → regex
  | group : Nat → regex → regex

/-- The text captured by the groups, latest capture first. -/
abbrev captures := List (Nat × List Char)

/-- The continuation of a match: what follows, given the rest of the input and
the captures so far; `none` makes the matcher backtrack. -/
abbrev regex_cont (R : Type) := List Char → captures → Option R

/-- The iterations of a quantifier `*` or `*?`: an iteration has to consume
input, so at most `n` iterations fit into an input of length `n`. -/
def star_loop {R : Type} (step : List Char → captures → regex_cont R → Option R)
    (greedy : Bool) : Nat → List Char → captures → regex_cont R → Option R
  | 0, s, c, k => k s c
  | n + 1, s, c, k =>
    if greedy then
      match step s c (fun s1 c1 =>
          if s1.length < s.length then star_loop step greedy n s1 c1 k else none) with
      | some r => some r
      | none => k s c
    else
      match k s c with
      | some r => some r
      | none => step s c (fun s1 c1 =>
          if s1.length < s.length then star_loop step greedy n s1 c1 k else none)

/-- The backtracking matcher of an ECMAScript `std::regex`: the first way to
match the expression at the start of the input, in the order of priority, for
which the continuation succeeds. -/
def regex.run {R : Type} : regex → List Char → captures → regex_cont R → Option R
  | .eps, s, c, k => k s c
  | .chr p, s, c, k =>
    match s with
    | [] => none
    | x :: xs => if p x then k xs c else none
  | .seq a b, s, c, k => a.run s c (fun s1 c1 => b.run s1 c1 k)
  | .alt a b, s, c, k =>
    match a.run s c k with
    | some r => some r
    | none => b.run s c k
  | .star g a, s, c, k => star_loop (fun s1 c1 k1 => a.run s1 c1 k1) g s.length s c k
  | .group i a, s, c, k =>
    a.run s c (fun s1 c1 => k s1 ((i, s.take (s.length - s1.length)) :: c1))

/-- The value of `results[i]`: the text of the group, empty when it did not
take part in the match. -/
def capture (c : captures) (i : Nat) : List Char :=
  match c.find? (fun p => p.1 = i) with
  | some p => p.2
  | none => []

/-- What a successful `std::regex_search` leaves in `results`: `prefix()`,
`results[0]`, the groups and `suffix()`. -/
structure smatch where
  before : List Char
  whole : List Char
  groups : captures
  after : List Char
deriving DecidableEq, Repr

/-- The call `std::regex_search(s, results, r)`: the match at the leftmost
position of the input at which the expression matches; `skipped` is the input
before the position that is tried. -/
def regex_search_from (r : regex) : List Char → List Char → Option smatch
  | skipped, [] =>
    match r.run [] [] (fun s1 c1 => some (s1, c1)) with
    | some (s1, c1) => some { before := skipped, whole := [], groups := c1, after := s1 }
    | none => none
  | skipped, x :: xs =>
    match r.run (x :: xs) [] (fun s1 c1 => some (s1, c1)) with
    | some (s1, c1) =>
      some { before := skipped, whole := (x :: xs).take ((x :: xs).length - s1.length),
             groups := c1, after := s1 }
    | none => regex_search_from r (skipped ++ [x]) xs

/-- The call `std::regex_search(s, results, r)`. -/
def regex_search (r : regex) (s : List Char) : Option smatch := regex_search_from r [] s

/-- The call `std::regex_match(s, r)`: the expression matches the whole input. -/
def regex_match (r : regex) (s : List Char) : Bool :=
  (r.run s [] (fun s1 _ => if s1 = [] then some () else none)).isSome

/-- The quantifier `?`. -/
def regex.opt (a : regex) : regex := .alt a .eps

/-- The quantifier `+`. -/
def regex.plus (a : regex) : regex := .seq a (.star true a)

/-- A literal character that is no letter. -/
def regex.lit (x : Char) : regex := .chr (fun c => c = x)

/-- A literal lower-case letter under `icase`. -/
def regex.letter (x : Char) : regex := .chr (fun c => c = x || c = x.toUpper)

/-- The pattern `patterns::hws`. -/
def pat_hws : regex := .star true (.chr (fun c => c = '\t' || c = ' '))

/-- The pattern `patterns::rhws`. -/
def pat_rhws : regex := regex.plus (.chr (fun c => c = '\t' || c = ' '))

/-- The class `[+-]`. -/
def pat_sign : regex := .chr (fun c => c = '+' || c = '-')

/-- The class `[0-9a-f]` under `icase`. -/
def hex_digit (c : Char) : Bool :=
  regex_digit c || (97 ≤ c.toNat && c.toNat ≤ 102) || (65 ≤ c.toNat && c.toNat ≤ 70)

/-- The pattern `patterns::decnum`. -/
def pat_decnum : regex := .seq pat_sign.opt (regex.plus (.chr regex_digit))

/-- The pattern `patterns::hexnum`. -/
def pat_hexnum : regex :=
  .seq pat_sign.opt (.seq (.lit '0') (.seq (.letter 'x') (regex.plus (.chr hex_digit))))

/-- The pattern `patterns::octnum`. -/
def pat_octnum : regex :=
  .seq pat_sign.opt (.seq (.lit '0') (.star true (.chr (fun c => 48 ≤ c.toNat && c.toNat ≤ 55))))

/-- The pattern `patterns::anynum`. -/
def pat_anynum : regex := .alt pat_hexnum (.alt pat_octnum pat_decnum)

/-- The pattern `patterns::name`. -/
def pat_name : regex :=
  .seq (.chr name_start) (.seq (.star true (.chr name_char))
    (.star true (.seq (.lit '.') (.seq (.chr name_start) (.star true (.chr name_char))))))

/-- The pattern `patterns::reg`. -/
def pat_reg : regex :=
  .seq (.lit '%') (.seq (.letter 'r') (.seq (.chr regex_digit) (regex.opt (.chr regex_digit))))

/-- The patterns `patterns::str1` and `patterns::str2` for the quote `q`. -/
def pat_str_of (q : Char) : regex :=
  .seq (.lit q)
    (.seq (.star false (.alt (.lit q) (.alt (.lit (Char.ofNat 92)) (.chr regex_dot))))
      (.lit q))

/-- The pattern `patterns::str`. -/
def pat_str : regex := .alt (pat_str_of (Char.ofNat 34)) (pat_str_of (Char.ofNat 39))

/-- The pattern `patterns::datum`, whose group has the number `i`. -/
def pat_datum (i : Nat) : regex :=
  .seq pat_hws (.seq (.group i (.alt pat_anynum (.alt pat_name (.alt pat_str pat_reg)))) pat_hws)

/-- The pattern `patterns::data` inside `patterns::directive`, where its
groups are the fourth and the fifth. -/
def pat_data : regex :=
  .seq (regex.opt (.seq (pat_datum 4) (.seq pat_hws (.seq (.lit ',') pat_hws)))) (pat_datum 5)

/-- The pattern `patterns::label`. -/
def pat_label : regex :=
  .seq (.group 1 pat_name) (.seq pat_hws (.seq (.lit ':') pat_hws))

/-- The pattern `patterns::instr`. -/
def pat_instr : regex :=
  .seq (.group 2 pat_name) (regex.opt (.seq pat_rhws (.group 3 pat_data)))

/-- The pattern `patterns::comment`. -/
def pat_comment : regex :=
  .seq pat_hws (.seq (.lit ';') (.star true (.chr (fun c => c ≠ '\n'))))

/-- The part of `patterns::directive` before the line ends. -/
def pat_line : regex :=
  .seq pat_hws (.seq pat_label.opt (.seq pat_instr.opt pat_comment.opt))

/-- The pattern `patterns::directive`, the expression of `directive_pat`. -/
def pat_directive : regex := .seq pat_line (regex.plus (.lit '\n'))

/-- The expression of `directive_consists`: `patterns::directive` followed by `*`. -/
def pat_directive_consists : regex := .star true pat_directive

/-- The expression of `data_pat`: `patterns::datum`. -/
def pat_data_pat : regex := pat_datum 1

/-! ## transforms.cpp: the parser -/

/-- The function `consists_of_directives`. -/
def consists_of_directives (str : String) : Bool :=
  regex_match pat_directive_consists str.data

/-- A `std::string::const_iterator` that `find_first_nondirective` returns: the
string object it points into and the offset in it. The object is named by the
depth of the call that owns it: 0 is the argument `str` of the call that
returns the iterator, and `d + 1` is the local string `leftovers` of the call
at depth `d`, which is destroyed when that call returns. -/
structure const_iterator where
  depth : Nat
  offset : Nat
deriving DecidableEq, Repr

/-- The function `find_first_nondirective`, with the recursion depth bounded
by `n`; `none` when the bound is reached. -/
def find_first_nondirective_depth : Nat → List Char → Option const_iterator
  | 0, _ => none
  | n + 1, str =>
    match regex_search pat_directive str with
    | none => some { depth := 0, offset := 0 }
    | some results =>
      if results.before ≠ [] then some { depth := 0, offset := 0 }
      else
        match find_first_nondirective_depth n results.after with
        | none => none
        | some scit =>
          if scit ≠ { depth := 0, offset := results.after.length } then
            some { depth := scit.depth + 1, offset := scit.offset }
          else some { depth := 0, offset := str.length }

/-- The function `find_first_nondirective`: every call below the first has a
shorter argument, so the depth is at most the length of the text plus one. -/
def find_first_nondirective (str : String) : Option const_iterator :=
  find_first_nondirective_depth (str.length + 1) str.data

/-- The function `parse_directive`. -/
def parse_directive (str : String) : directive_data :=
  if str = "" then ("", "")
  else
    match regex_search pat_data_pat str.data with
    | none => ("", "")
    | some results =>
      if results.whole = [] then ("", "")
      else
        match regex_search pat_data_pat results.after with
        | none => (String.mk (capture results.groups 1), "")
        | some results2 =>
          if results2.whole = [] then (String.mk (capture results.groups 1), "")
          else (String.mk (capture results.groups 1), String.mk (capture results2.groups 1))

/-- The function `is_empty_directive`. -/
def is_empty_directive (dir : directive) : Bool := dir.label = "" && dir.instr = ""

/-- The four assignments at the start of the loop body of `parse_source`. -/
def directive_of_match (results : smatch) : directive :=
  { original := String.mk results.whole,
    label := String.mk (capture results.groups 1),
    instr := String.mk (capture results.groups 2),
    data := parse_directive (String.mk (capture results.groups 3)) }

/-- The loop `while (matched and results[0] != "")` of `parse_source`, run for
at most `n` iterations: an iteration takes a non-empty match off the text. -/
def parse_loop : Nat → Option smatch → parse_results → parse_results
  | 0, _, parsed => parsed
  | _ + 1, none, parsed => parsed
  | n + 1, some results, parsed =>
    if results.whole = [] then parsed
    else
      let dir := directive_of_match results
      parse_loop n (regex_search pat_directive results.after)
        (if ¬ is_empty_directive dir then parsed ++ [dir] else parsed)

/-- The function `parse_source`. -/
def parse_source (str : String) : parse_results :=
  if ¬ consists_of_directives str then []
  else parse_loop (str.length + 1) (regex_search pat_directive str.data) []

/-- An expression all of whose character classes lie within the class `P`. -/
def regex.within (P : Char → Prop) : regex → Prop
  | .eps => True
  | .chr p => ∀ ch, p ch = true → P ch
  | .seq a b => a.within P ∧ b.within P
  | .alt a b => a.within P ∧ b.within P
  | .star _ a => a.within P
  | .group _ a => a.within P

/-- The directive lines of a text, in source order: each is the match that
`regex_search` finds for `directive_pat` at the start of what is left of the
text, it is not empty, and the next line is searched behind it, until nothing
is left. -/
inductive directive_lines : List Char → List smatch → Prop
  | done : directive_lines [] []
  | line (s : List Char) (m : smatch) (rest : List smatch) :
      regex_search pat_directive s = some m → m.before = [] → m.whole ≠ [] →
      s = m.whole ++ m.after → directive_lines m.after rest → directive_lines s (m :: rest)

/-! # Theorems -/

/-! ## The address chain of the resolver -/

theorem resolve_loop_cons (dir : directive) (rest : parse_results) (res : label_addr_map)
    (cur : Nat) (rs1 : parse_results) (labels : label_addr_map)
    (h : resolve_loop (dir :: rest) res cur = (rs1, .ok labels)) :
    ∃ next rest1,
      resolve_advance { dir with address := cur } cur = .ok next ∧
      resolve_loop rest
        (if dir.label ≠ "" then map_insert res dir.label cur else res) next
        = (rest1, .ok labels) ∧
      rs1 = { dir with address := cur } :: rest1 := by
  simp only [resolve_loop] at h
  split at h
  · simp at h
  · rename_i next hadv
    simp only [Prod.mk.injEq] at h
    exact ⟨next, _, hadv, Prod.ext rfl h.2, h.1.symm⟩

theorem resolve_loop_chain (rs : parse_results) :
    ∀ (res : label_addr_map) (cur : Nat) (rs1 : parse_results) (labels : label_addr_map),
      resolve_loop rs res cur = (rs1, .ok labels) →
      rs1.map erase_address = rs.map erase_address ∧
      (∀ d, rs1.head? = some d → d.address = cur) ∧
      List.Chain' addr_step rs1 := by
  induction rs with
  | nil =>
    intro res cur rs1 labels h
    simp [resolve_loop] at h
    simp [h.1]
  | cons dir rest ih =>
    intro res cur rs1 labels h
    obtain ⟨next, rest1, hadv, hrest, hrs1⟩ := resolve_loop_cons dir rest res cur rs1 labels h
    obtain ⟨h1, h2, h3⟩ := ih _ _ _ _ hrest
    subst hrs1
    refine ⟨?_, ?_, ?_⟩
    · simp [h1, erase_address]
    · simp
    · rw [List.chain'_cons']
      refine ⟨?_, h3⟩
      intro e he
      have := h2 e (by simpa using he)
      simp [addr_step, this, hadv]

theorem valid_realops_not_pseudo :
    ∀ s ∈ valid_realops, s ≠ "" ∧ s ≠ "resw" ∧ s ≠ "dw" ∧ s ≠ "ress" ∧ s ≠ "ds" ∧
      s ≠ "ressz" ∧ s ≠ "dsz" := by
  decide

theorem resolve_labels_ok (rs rs1 : parse_results) (labels : label_addr_map)
    (h : resolve_labels rs = (rs1, .ok labels)) :
    (has_no_duplicate_labels rs {} {}).1 = true ∧ resolve_loop rs [] 0 = (rs1, .ok labels) := by
  unfold resolve_labels at h
  by_cases hd : (has_no_duplicate_labels rs {} {}).1 = true
  · simp [hd] at h
    exact ⟨hd, h⟩
  · simp [hd] at h

theorem resolve_advance_size_rules (d : directive) (next : Nat)
    (h : resolve_advance d d.address = .ok next) : size_rules d next := by
  unfold size_rules
  refine ⟨?_, ?_, ?_, ?_, ?_, ?_⟩
  · intro h0
    simp [resolve_advance, h0] at h
    exact h.symm
  · intro h0
    simp [resolve_advance, h0] at h
    cases hn : pseudop_addrdelta_resw d with
    | error e => simp [hn] at h
    | ok n => simp [hn] at h; exact ⟨n, rfl, h.symm⟩
  · intro h0
    simp [resolve_advance, h0] at h
    cases hn : pseudop_addrdelta_dw d with
    | error e => simp [hn] at h
    | ok n => simp [hn] at h; exact ⟨n, rfl, h.symm⟩
  · intro h0
    have h1 : resolve_advance d d.address =
        (match pseudop_addrdelta_s d with
          | .ok n => .ok (u32_of_int (d.address + n))
          | .error e => .error e) := by
      rcases h0 with h0 | h0 <;> simp [resolve_advance, h0]
    rw [h1] at h
    cases hn : pseudop_addrdelta_s d with
    | error e => simp [hn] at h
    | ok n => simp [hn] at h; exact ⟨n, rfl, h.symm⟩
  · intro h0
    have h1 : resolve_advance d d.address =
        (match pseudop_addrdelta_sz d with
          | .ok n => .ok (u32_of_int (d.address + n))
          | .error e => .error e) := by
      rcases h0 with h0 | h0 <;> simp [resolve_advance, h0]
    rw [h1] at h
    cases hn : pseudop_addrdelta_sz d with
    | error e => simp [hn] at h
    | ok n => simp [hn] at h; exact ⟨n, rfl, h.symm⟩
  · intro h0
    obtain ⟨n0, n1, n2, n3, n4, n5, n6⟩ := valid_realops_not_pseudo _ h0
    simp [resolve_advance, n0, n1, n2, n3, n4, n5, n6, h0] at h
    exact h.symm

/-- C1: whenever `resolve_labels` succeeds, it leaves every directive as it
was apart from its address, the first directive has address 0, and the address
of every later directive is the address of the directive before it plus that
directive's size: 0 for an empty mnemonic, the delta that the matching
`pseudop_addrdelta` function computes for the six pseudo-ops, and 1 for every
mnemonic of `valid_realops`, all modulo 2^32. -/
theorem C1_resolve_labels_addresses (results results1 : parse_results)
    (labels : label_addr_map)
    (h : resolve_labels results = (results1, .ok labels)) :
    results1.map erase_address = results.map erase_address ∧
    (∀ d, results1[0]? = some d → d.address = 0) ∧
    (∀ i d e, results1[i]? = some d → results1[i + 1]? = some e →
      (d.instr = "" → e.address = d.address) ∧
      (d.instr = "resw" →
        ∃ n, pseudop_addrdelta_resw d = .ok n ∧ e.address = u32_of_int (d.address + n)) ∧
      (d.instr = "dw" →
        ∃ n, pseudop_addrdelta_dw d = .ok n ∧ e.address = u32_of_int (d.address + n)) ∧
      (d.instr = "ress" ∨ d.instr = "ds" →
        ∃ n, pseudop_addrdelta_s d = .ok n ∧ e.address = u32_of_int (d.address + n)) ∧
      (d.instr = "ressz" ∨ d.instr = "dsz" →
        ∃ n, pseudop_addrdelta_sz d = .ok n ∧ e.address = u32_of_int (d.address + n)) ∧
      (d.instr ∈ valid_realops → e.address = (d.address + 1) % word_mod)) := by
  obtain ⟨_, hloop⟩ := resolve_labels_ok results results1 labels h
  obtain ⟨h1, h2, h3⟩ := resolve_loop_chain results [] 0 results1 labels hloop
  refine ⟨h1, ?_, ?_⟩
  · intro d hd
    apply h2
    rw [List.head?_eq_getElem?]
    exact hd
  · intro i d e hd he
    have hi : i + 1 < results1.length := by
      rcases Nat.lt_or_ge (i + 1) results1.length with h | h
      · exact h
      · rw [List.getElem?_eq_none h] at he; cases he
    rw [List.chain'_iff_get] at h3
    have hstep := h3 i (by omega)
    rw [List.getElem?_eq_getElem hi] at he
    rw [List.getElem?_eq_getElem (by omega)] at hd
    simp only [Option.some.injEq] at hd he
    subst hd he
    exact resolve_advance_size_rules _ _ hstep

/-- C1, witness: the theorem at `sample_program` after lower-casing, where the
addresses are 0, 3, 3, 9, 12 and 13. -/
theorem C1_resolve_labels_addresses_witness :
    resolve_labels (lowercase_instr_names sample_program)
      = (sample_resolved, .ok sample_labels) ∧
    (sample_resolved.map erase_address
        = (lowercase_instr_names sample_program).map erase_address ∧
      (∀ d, sample_resolved[0]? = some d → d.address = 0) ∧
      (∀ i d e, sample_resolved[i]? = some d → sample_resolved[i + 1]? = some e →
        (d.instr = "" → e.address = d.address) ∧
        (d.instr = "resw" →
          ∃ n, pseudop_addrdelta_resw d = .ok n ∧ e.address = u32_of_int (d.address + n)) ∧
        (d.instr = "dw" →
          ∃ n, pseudop_addrdelta_dw d = .ok n ∧ e.address = u32_of_int (d.address + n)) ∧
        (d.instr = "ress" ∨ d.instr = "ds" →
          ∃ n, pseudop_addrdelta_s d = .ok n ∧ e.address = u32_of_int (d.address + n)) ∧
        (d.instr = "ressz" ∨ d.instr = "dsz" →
          ∃ n, pseudop_addrdelta_sz d = .ok n ∧ e.address = u32_of_int (d.address + n)) ∧
        (d.instr ∈ valid_realops → e.address = (d.address + 1) % word_mod))) :=
  ⟨by decide,
   C1_resolve_labels_addresses (lowercase_instr_names sample_program) sample_resolved
     sample_labels (by decide)⟩

/-! ## The emission counter against the resolver's addresses -/

/-- C2, at the failing input `overflow_program`: the resolver gives the
directive `cf` after `ds "abc", 6148914691236517206` the address 2 (the size
3 * 6148914691236517206 wraps to 2), the encoder computes `times = 2 / 3 = 0`
for the `ds` directive and leaves the emission counter at 0, and `assemble`
succeeds with the word of `cf` in cell 0, not in cell 2. -/
theorem C2_emission_counter_diverges (M : metronome32) :
    resolve_labels (lowercase_instr_names overflow_program)
      = ([{ original := "ds \"abc\", 6148914691236517206\n", instr := "ds",
            data := ("\"abc\"", "6148914691236517206"), address := 0 },
          { original := "cf\n", instr := "cf", address := 2 }], .ok []) ∧
    assemble_loop M []
        [{ original := "ds \"abc\", 6148914691236517206\n", instr := "ds",
           data := ("\"abc\"", "6148914691236517206"), address := 0 }]
        { sys_mem := [], counter := 0 }
      = ({ sys_mem := [], counter := 0 }, none) ∧
    assemble M overflow_program
      = .ok { context := { sys_mem := [(0, M.new_cf)], counter := 0 } } :=
  ⟨by decide, rfl, rfl⟩

/-! ## Mnemonics the resolver accepts and the encoder does not dispatch -/

/-- C5, at the failing input `beq_program`: the resolver accepts the mnemonic
`beq`, which is in `valid_realops`, and `assemble_instruction` raises
`unknown_instruction` for it, because the table `b2_new_instr` that holds it is
not among the tables the dispatch looks at. -/
theorem C5_encoder_raises_unknown_instruction (M : metronome32) :
    resolve_labels beq_program
      = ([{ original := "beq %r1, %r2\n", instr := "beq", data := ("%r1", "%r2"),
            address := 0 }], .ok []) ∧
    (map_find (b2_new_instr M) "beq").isSome = true ∧
    assemble_instruction M
        { original := "beq %r1, %r2\n", instr := "beq", data := ("%r1", "%r2"), address := 0 }
        [] { sys_mem := [], counter := 0 }
      = ({ sys_mem := [], counter := 0 }, some (.unknown_instruction 843 "beq %r1, %r2\n")) ∧
    assemble M beq_program = .error (.unknown_instruction 843 "beq %r1, %r2\n") :=
  ⟨by decide, rfl, rfl, rfl⟩

/-! ## Duplicate labels -/

theorem first_duplicate_of_none (a : directive) (rest : parse_results) :
    first_duplicate_of a rest = none ↔ ∀ y ∈ rest, no_dup_pair a y := by
  induction rest with
  | nil => simp [first_duplicate_of]
  | cons j rest ih =>
    unfold first_duplicate_of
    by_cases hc : a.label ≠ "" ∧ a.label = j.label
    · rw [if_pos hc]
      simp only [List.mem_cons, forall_eq_or_imp, false_iff, not_and, reduceCtorEq]
      intro h0
      rcases h0 with h0 | h0
      · exact absurd h0 hc.1
      · exact absurd hc.2 h0
    · rw [if_neg hc, ih]
      simp only [List.mem_cons, forall_eq_or_imp, iff_and_self]
      intro _
      by_cases h0 : a.label = ""
      · exact Or.inl h0
      · exact Or.inr (fun h1 => hc ⟨h0, h1⟩)

theorem first_duplicate_of_some (a b : directive) (rest : parse_results)
    (h : first_duplicate_of a rest = some b) :
    a.label ≠ "" ∧ a.label = b.label ∧
    ∃ k : Nat, rest[k]? = some b ∧ ∀ (k1 : Nat) (y : directive), k1 < k → rest[k1]? = some y → a.label ≠ y.label := by
  induction rest with
  | nil => simp [first_duplicate_of] at h
  | cons j rest ih =>
    unfold first_duplicate_of at h
    by_cases hc : a.label ≠ "" ∧ a.label = j.label
    · rw [if_pos hc] at h
      simp only [Option.some.injEq] at h
      subst h
      exact ⟨hc.1, hc.2, 0, by simp, by intro k1 y hk; omega⟩
    · rw [if_neg hc] at h
      obtain ⟨h1, h2, k, hk, hmin⟩ := ih h
      refine ⟨h1, h2, k + 1, by simpa using hk, ?_⟩
      intro k1 y hk1 hy
      cases k1 with
      | zero =>
        simp only [List.getElem?_cons_zero, Option.some.injEq] at hy
        subst hy
        exact fun h3 => hc ⟨h1, h3⟩
      | succ k2 =>
        simp only [List.getElem?_cons_succ] at hy
        exact hmin k2 y (by omega) hy

theorem has_no_duplicate_labels_from_spec (rs : parse_results) (d1 d2 : directive) :
    (List.Pairwise no_dup_pair rs ∧ has_no_duplicate_labels_from rs d1 d2 = (true, d1, d2)) ∨
    (∃ (i0 j0 : Nat) (a b : directive), i0 < j0 ∧ rs[i0]? = some a ∧ rs[j0]? = some b ∧
      a.label ≠ "" ∧ a.label = b.label ∧
      (∀ (i1 j1 : Nat) (x y : directive), i1 < i0 → i1 < j1 → rs[i1]? = some x → rs[j1]? = some y →
        no_dup_pair x y) ∧
      (∀ (j1 : Nat) (y : directive), i0 < j1 → j1 < j0 → rs[j1]? = some y → a.label ≠ y.label) ∧
      has_no_duplicate_labels_from rs d1 d2 = (false, a, b)) := by
  induction rs with
  | nil => exact Or.inl ⟨List.Pairwise.nil, rfl⟩
  | cons a rest ih =>
    cases hf : first_duplicate_of a rest with
    | some b =>
      obtain ⟨h1, h2, k, hk, hmin⟩ := first_duplicate_of_some a b rest hf
      refine Or.inr ⟨0, k + 1, a, b, by omega, by simp, by simpa using hk, h1, h2, ?_, ?_, ?_⟩
      · intro i1 j1 x y hi
        omega
      · intro j1 y h0 hlt hy
        cases j1 with
        | zero => omega
        | succ j2 =>
          simp only [List.getElem?_cons_succ] at hy
          exact hmin j2 y (by omega) hy
      · simp [has_no_duplicate_labels_from, hf]
    | none =>
      have hall := (first_duplicate_of_none a rest).1 hf
      have hstep : has_no_duplicate_labels_from (a :: rest) d1 d2
          = has_no_duplicate_labels_from rest d1 d2 := by
        simp [has_no_duplicate_labels_from, hf]
      rcases ih with ⟨hp, hr⟩ | ⟨i0, j0, x, y, hlt, hx, hy, hne, heq, hmin1, hmin2, hr⟩
      · exact Or.inl ⟨List.Pairwise.cons hall hp, by rw [hstep, hr]⟩
      · refine Or.inr ⟨i0 + 1, j0 + 1, x, y, by omega, by simpa using hx, by simpa using hy,
          hne, heq, ?_, ?_, by rw [hstep, hr]⟩
        · intro i1 j1 u v hi hij hu hv
          cases j1 with
          | zero => omega
          | succ j2 =>
            simp only [List.getElem?_cons_succ] at hv
            cases i1 with
            | zero =>
              simp only [List.getElem?_cons_zero, Option.some.injEq] at hu
              subst hu
              exact hall v (List.getElem?_mem hv)
            | succ i2 =>
              simp only [List.getElem?_cons_succ] at hu
              exact hmin1 i2 j2 u v (by omega) (by omega) hu hv
        · intro j1 v h0 h1 hv
          cases j1 with
          | zero => omega
          | succ j2 =>
            simp only [List.getElem?_cons_succ] at hv
            exact hmin2 j2 v (by omega) (by omega) hv

theorem has_no_duplicate_labels_eq_from (rs : parse_results) (d1 d2 : directive) :
    has_no_duplicate_labels rs d1 d2 = has_no_duplicate_labels_from rs d1 d2 := by
  unfold has_no_duplicate_labels
  split
  · rename_i hlen
    match rs, hlen with
    | [], _ => rfl
    | [a], _ => simp [has_no_duplicate_labels_from, first_duplicate_of]
    | a :: b :: rest, hlen => simp at hlen; omega
  · rfl

theorem lowercase_getElem? (pr : parse_results) (i : Nat) :
    (lowercase_instr_names pr)[i]? =
      (pr[i]?).map lowercase_instr := by
  simp [lowercase_instr_names]

theorem pairwise_no_dup_index (rs : parse_results) (h : List.Pairwise no_dup_pair rs)
    (i j : Nat) (x y : directive) (hij : i < j) (hx : rs[i]? = some x) (hy : rs[j]? = some y) :
    no_dup_pair x y := by
  rw [List.pairwise_iff_getElem] at h
  have hj : j < rs.length := by
    rcases Nat.lt_or_ge j rs.length with h | h
    · exact h
    · rw [List.getElem?_eq_none h] at hy; cases hy
  rw [List.getElem?_eq_getElem hj] at hy
  rw [List.getElem?_eq_getElem (by omega)] at hx
  simp only [Option.some.injEq] at hx hy
  subst hx hy
  exact h i j (by omega) hj hij

/-- C3: when two directives at different positions of the list carry the same
non-empty label, `assemble` fails with `duplicate_label`, whatever the
mnemonics and operands are; the exception names the first directive of the
list that has a later directive with its non-empty label (position `i0`), and
the first directive after it that carries that label (position `j0`). -/
theorem C3_duplicate_label (M : metronome32) (pr : parse_results) (i j : Nat)
    (di dj : directive) (hij : i < j) (hi : pr[i]? = some di) (hj : pr[j]? = some dj)
    (hne : di.label ≠ "") (heq : di.label = dj.label) :
    ∃ (i0 j0 : Nat) (a b : directive), i0 < j0 ∧ pr[i0]? = some a ∧ pr[j0]? = some b ∧
      a.label ≠ "" ∧ a.label = b.label ∧
      (∀ (i1 j1 : Nat) (x y : directive), i1 < i0 → i1 < j1 → pr[i1]? = some x → pr[j1]? = some y →
        x.label = "" ∨ x.label ≠ y.label) ∧
      (∀ (j1 : Nat) (y : directive), i0 < j1 → j1 < j0 → pr[j1]? = some y → a.label ≠ y.label) ∧
      assemble M pr = .error (.duplicate_label 230 a.original b.original) := by
  rcases has_no_duplicate_labels_from_spec (lowercase_instr_names pr) {} {} with
    ⟨hp, _⟩ | ⟨i0, j0, a, b, hlt, ha, hb, hane, hab, hmin1, hmin2, hr⟩
  · exfalso
    have := pairwise_no_dup_index _ hp i j (lowercase_instr di) (lowercase_instr dj) hij
      (by rw [lowercase_getElem?, hi]; rfl) (by rw [lowercase_getElem?, hj]; rfl)
    rcases this with h | h
    · exact hne h
    · exact h heq
  · rw [lowercase_getElem?] at ha hb
    cases hpa : pr[i0]? with
    | none => rw [hpa] at ha; cases ha
    | some a0 =>
      cases hpb : pr[j0]? with
      | none => rw [hpb] at hb; cases hb
      | some b0 =>
        rw [hpa] at ha
        rw [hpb] at hb
        simp only [Option.map_some', Option.some.injEq] at ha hb
        subst ha hb
        refine ⟨i0, j0, a0, b0, hlt, hpa, hpb, hane, hab, ?_, ?_, ?_⟩
        · intro i1 j1 x y h1 h2 hx hy
          exact hmin1 i1 j1 (lowercase_instr x) (lowercase_instr y) h1 h2
            (by rw [lowercase_getElem?, hx]; rfl) (by rw [lowercase_getElem?, hy]; rfl)
        · intro j1 y h1 h2 hy
          exact hmin2 j1 (lowercase_instr y) h1 h2 (by rw [lowercase_getElem?, hy]; rfl)
        · simp [assemble, resolve_labels, has_no_duplicate_labels_eq_from, hr, lowercase_instr]

/-- C3, witness: the second and the fourth directive of `duplicate_program`
carry the label `x`; the program also has an unknown mnemonic before them and
a bad operand, and the exception names the second and the fourth directive. -/
theorem C3_duplicate_label_witness :
    (1 < 3 ∧ duplicate_program[1]? = some
        { original := "x: resw -1\n", label := "x", instr := "resw", data := ("-1", "") } ∧
      duplicate_program[3]? = some { original := "x: cf\n", label := "x", instr := "cf" } ∧
      assemble sample_encoders duplicate_program
        = .error (.duplicate_label 230 "x: resw -1\n" "x: cf\n")) ∧
    ∃ (i0 j0 : Nat) (a b : directive), i0 < j0 ∧ duplicate_program[i0]? = some a ∧
      duplicate_program[j0]? = some b ∧
      a.label ≠ "" ∧ a.label = b.label ∧
      (∀ (i1 j1 : Nat) (x y : directive), i1 < i0 → i1 < j1 →
        duplicate_program[i1]? = some x → duplicate_program[j1]? = some y →
        x.label = "" ∨ x.label ≠ y.label) ∧
      (∀ (j1 : Nat) (y : directive), i0 < j1 → j1 < j0 →
        duplicate_program[j1]? = some y → a.label ≠ y.label) ∧
      assemble sample_encoders duplicate_program
        = .error (.duplicate_label 230 a.original b.original) :=
  ⟨by decide,
   C3_duplicate_label sample_encoders duplicate_program 1 3
     { original := "x: resw -1\n", label := "x", instr := "resw", data := ("-1", "") }
     { original := "x: cf\n", label := "x", instr := "cf" }
     (by decide) (by decide) (by decide) (by decide) (by decide)⟩

/-! ## Unknown mnemonics -/

theorem resolve_advance_unknown (d : directive) (cur : Nat)
    (h : is_unknown_mnemonic d = true) :
    resolve_advance d cur = .error (.unknown_instruction 255 d.original) := by
  simp only [is_unknown_mnemonic, Bool.and_eq_true, decide_eq_true_eq, Bool.not_eq_true',
    decide_eq_false_iff_not] at h
  obtain ⟨⟨h0, h1⟩, h2⟩ := h
  simp only [valid_pseudops, List.mem_cons, List.mem_singleton, not_or, List.not_mem_nil,
    or_false] at h2
  obtain ⟨p1, p2, p3, p4, p5, p6⟩ := h2
  simp [resolve_advance, h0, h1, p1, p2, p3, p4, p5, p6]

theorem resolve_advance_known (d : directive) (cur : Nat)
    (h : is_unknown_mnemonic d = false) (hs : pseudo_sizes_valid d) :
    ∃ n, resolve_advance d cur = .ok n := by
  obtain ⟨s1, s2, s3, s4⟩ := hs
  unfold resolve_advance
  split_ifs with c0 c1 c2 c3 c4 c5
  · exact ⟨_, rfl⟩
  · obtain ⟨n, hn⟩ := s1 c1
    exact ⟨_, by rw [hn]⟩
  · obtain ⟨n, hn⟩ := s2 c2
    exact ⟨_, by rw [hn]⟩
  · obtain ⟨n, hn⟩ := s3 c3
    exact ⟨_, by rw [hn]⟩
  · obtain ⟨n, hn⟩ := s4 c4
    exact ⟨_, by rw [hn]⟩
  · exact ⟨_, rfl⟩
  · exfalso
    have : is_unknown_mnemonic d = true := by
      simp only [is_unknown_mnemonic, Bool.and_eq_true, decide_eq_true_eq, Bool.not_eq_true',
        decide_eq_false_iff_not]
      refine ⟨⟨c0, c5⟩, ?_⟩
      simp only [valid_pseudops, List.mem_cons, List.mem_singleton, not_or, List.not_mem_nil,
        or_false]
      exact ⟨c1, fun h => c3 (Or.inl h), fun h => c4 (Or.inl h), c2, fun h => c3 (Or.inr h),
        fun h => c4 (Or.inr h)⟩
    rw [this] at h
    cases h

theorem resolve_loop_unknown (rs : parse_results) :
    ∀ (res : label_addr_map) (cur : Nat) (dk : directive),
      (∀ d ∈ rs, pseudo_sizes_valid d) →
      rs.find? is_unknown_mnemonic = some dk →
      (resolve_loop rs res cur).2 = .error (.unknown_instruction 255 dk.original) := by
  induction rs with
  | nil =>
    intro res cur dk _ h
    simp at h
  | cons d rest ih =>
    intro res cur dk hs hf
    cases hu : is_unknown_mnemonic d with
    | true =>
      rw [List.find?_cons_of_pos _ hu] at hf
      simp only [Option.some.injEq] at hf
      subst hf
      have := resolve_advance_unknown { d with address := cur } cur hu
      simp only [resolve_loop, this]
    | false =>
      rw [List.find?_cons_of_neg _ (by simp [hu])] at hf
      obtain ⟨n, hn⟩ := resolve_advance_known { d with address := cur } cur hu
        (hs d (List.mem_cons_self _ _))
      simp only [resolve_loop, hn]
      exact ih _ _ dk (fun e he => hs e (List.mem_cons_of_mem _ he)) hf

theorem no_duplicates_flag (rs : parse_results) (d1 d2 : directive)
    (h : ∀ (i j : Nat) (x y : directive), i < j → rs[i]? = some x → rs[j]? = some y →
      x.label = "" ∨ x.label ≠ y.label) :
    has_no_duplicate_labels rs d1 d2 = (true, d1, d2) := by
  rw [has_no_duplicate_labels_eq_from]
  rcases has_no_duplicate_labels_from_spec rs d1 d2 with
    ⟨_, hr⟩ | ⟨i0, j0, a, b, hlt, ha, hb, hane, hab, _, _, _⟩
  · exact hr
  · exfalso
    rcases h i0 j0 a b hlt ha hb with h1 | h1
    · exact hane h1
    · exact h1 hab

theorem no_duplicates_lowercase (pr : parse_results)
    (h : ∀ (i j : Nat) (x y : directive), i < j → pr[i]? = some x → pr[j]? = some y →
      x.label = "" ∨ x.label ≠ y.label) :
    ∀ (i j : Nat) (x y : directive), i < j → (lowercase_instr_names pr)[i]? = some x →
      (lowercase_instr_names pr)[j]? = some y → x.label = "" ∨ x.label ≠ y.label := by
  intro i j x y hij hx hy
  rw [lowercase_getElem?] at hx hy
  cases hpx : pr[i]? with
  | none => rw [hpx] at hx; cases hx
  | some x0 =>
    cases hpy : pr[j]? with
    | none => rw [hpy] at hy; cases hy
    | some y0 =>
      rw [hpx] at hx
      rw [hpy] at hy
      simp only [Option.map_some', Option.some.injEq] at hx hy
      subst hx hy
      exact h i j x0 y0 hij hpx hpy

theorem assemble_of_resolve_error (M : metronome32) (pr : parse_results) (e : asm_error)
    (h : (resolve_labels (lowercase_instr_names pr)).2 = .error e) :
    assemble M pr = .error e := by
  unfold assemble
  cases hr : resolve_labels (lowercase_instr_names pr) with
  | mk r1 r2 =>
    rw [hr] at h
    simp only at h
    subst h
    simp only [hr]

/-- C4: for a directive list without duplicate labels in which the size
arguments of every pseudo-op directive are valid, if some directive has, after
lower-casing, a non-empty mnemonic that is neither in `valid_realops` nor one of
the six pseudo-ops, then `resolve_labels` fails with `unknown_instruction`
(raised at line 255, in the resolver) for the first such directive, and
`assemble` fails with that exception: the encoder is not reached. -/
theorem C4_unknown_instruction (M : metronome32) (pr : parse_results)
    (hnodup : ∀ (i j : Nat) (x y : directive), i < j → pr[i]? = some x → pr[j]? = some y →
      x.label = "" ∨ x.label ≠ y.label)
    (hsizes : ∀ d ∈ lowercase_instr_names pr,
      (d.instr = "resw" → ∃ n, pseudop_addrdelta_resw d = .ok n) ∧
      (d.instr = "dw" → ∃ n, pseudop_addrdelta_dw d = .ok n) ∧
      (d.instr = "ress" ∨ d.instr = "ds" → ∃ n, pseudop_addrdelta_s d = .ok n) ∧
      (d.instr = "ressz" ∨ d.instr = "dsz" → ∃ n, pseudop_addrdelta_sz d = .ok n))
    (hunk : ∃ d ∈ lowercase_instr_names pr,
      d.instr ≠ "" ∧ d.instr ∉ valid_realops ∧ d.instr ∉ valid_pseudops) :
    ∃ dk, (lowercase_instr_names pr).find? is_unknown_mnemonic = some dk ∧
      (resolve_labels (lowercase_instr_names pr)).2
        = .error (.unknown_instruction 255 dk.original) ∧
      assemble M pr = .error (.unknown_instruction 255 dk.original) := by
  obtain ⟨d, hd, hd0, hd1, hd2⟩ := hunk
  have hsome : ((lowercase_instr_names pr).find? is_unknown_mnemonic).isSome = true := by
    rw [List.find?_isSome]
    exact ⟨d, hd, by simp [is_unknown_mnemonic, hd0, hd1, hd2]⟩
  obtain ⟨dk, hdk⟩ := Option.isSome_iff_exists.1 hsome
  have hflag := no_duplicates_flag (lowercase_instr_names pr) {} {}
    (no_duplicates_lowercase pr hnodup)
  have hloop := resolve_loop_unknown (lowercase_instr_names pr) [] 0 dk hsizes hdk
  have hres : (resolve_labels (lowercase_instr_names pr)).2
      = .error (.unknown_instruction 255 dk.original) := by
    simp only [resolve_labels, hflag]
    simpa using hloop
  exact ⟨dk, hdk, hres, assemble_of_resolve_error M pr _ hres⟩

/-- C4, witness: in `unknown_program` the first unknown mnemonic is `Mul`,
after `ADD` in upper case and a valid `resw`. -/
theorem C4_unknown_instruction_witness :
    ((lowercase_instr_names unknown_program).find? is_unknown_mnemonic
        = some { original := "Mul %r1, %r2\n", instr := "mul", data := ("%r1", "%r2") } ∧
      assemble sample_encoders unknown_program
        = .error (.unknown_instruction 255 "Mul %r1, %r2\n")) ∧
    ∃ dk, (lowercase_instr_names unknown_program).find? is_unknown_mnemonic = some dk ∧
      (resolve_labels (lowercase_instr_names unknown_program)).2
        = .error (.unknown_instruction 255 dk.original) ∧
      assemble sample_encoders unknown_program
        = .error (.unknown_instruction 255 dk.original) :=
  ⟨by decide,
   C4_unknown_instruction sample_encoders unknown_program
     (by
      intro i j x y hij hx hy
      have hj : j < 4 := by
        rcases Nat.lt_or_ge j 4 with h | h
        · exact h
        · rw [List.getElem?_eq_none (by simpa [unknown_program] using h)] at hy; cases hy
      interval_cases j <;> interval_cases i <;>
        simp [unknown_program] at hx hy <;> subst hx hy <;> decide)
     (by
      intro d hd
      simp only [lowercase_instr_names, unknown_program, List.map_cons, List.map_nil,
        List.mem_cons, List.mem_singleton, List.not_mem_nil, or_false] at hd
      rcases hd with h | h | h | h <;> subst h <;>
        refine ⟨?_, ?_, ?_, ?_⟩ <;> intro hi <;>
        first
          | exact ⟨4, by decide⟩
          | (exfalso; revert hi; decide))
     ⟨{ original := "div %r1, %r2\n", instr := "div", data := ("%r1", "%r2") },
      by decide, by decide, by decide, by decide⟩⟩

/-! ## The label table -/

theorem map_find_append_single {V : Type} (m : List (String × V)) (k l : String) (v : V) :
    map_find (m ++ [(k, v)]) l =
      match map_find m l with
      | some a => some a
      | none => if k = l then some v else none := by
  induction m with
  | nil => simp [map_find]
  | cons p m ih =>
    obtain ⟨k1, v1⟩ := p
    by_cases h : k1 = l
    · simp [map_find, h]
    · simp [map_find, h, ih]

theorem map_find_insert {V : Type} (m : List (String × V)) (k l : String) (v : V) :
    map_find (map_insert m k v) l =
      match map_find m l with
      | some a => some a
      | none => if k = l then some v else none := by
  unfold map_insert
  cases hk : map_find m k with
  | none => exact map_find_append_single m k l v
  | some a =>
    cases hl : map_find m l with
    | some b => rfl
    | none =>
      have : k ≠ l := by
        intro h
        rw [h, hl] at hk
        cases hk
      simp [hl, this]

theorem resolve_loop_labels (rs : parse_results) :
    ∀ (res : label_addr_map) (cur : Nat) (rs1 : parse_results) (labels : label_addr_map),
      resolve_loop rs res cur = (rs1, .ok labels) →
      ∀ l : String, map_find labels l =
        match map_find res l with
        | some a => some a
        | none => (rs1.find? (fun d => decide (d.label = l ∧ l ≠ ""))).map directive.address := by
  induction rs with
  | nil =>
    intro res cur rs1 labels h l
    simp [resolve_loop] at h
    obtain ⟨h1, h2⟩ := h
    subst h1 h2
    cases map_find res l <;> simp
  | cons dir rest ih =>
    intro res cur rs1 labels h l
    obtain ⟨next, rest1, _, hrest, hrs1⟩ := resolve_loop_cons dir rest res cur rs1 labels h
    subst hrs1
    rw [ih _ _ _ _ hrest l]
    by_cases hlab : dir.label ≠ ""
    · rw [if_pos hlab, map_find_insert]
      cases hres : map_find res l with
      | some a => rfl
      | none =>
        by_cases hl : dir.label = l
        · have hl2 : l ≠ "" := hl ▸ hlab
          simp [hl, hl2]
        · simp [hl]
    · rw [if_neg hlab]
      cases hres : map_find res l with
      | some a => rfl
      | none =>
        have : ¬ (dir.label = l ∧ l ≠ "") := by
          rintro ⟨h1, h2⟩
          exact hlab (h1 ▸ h2)
        simp [this]

theorem pairwise_no_dup_unique (rs : parse_results) (h : List.Pairwise no_dup_pair rs)
    (x y : directive) (hx : x ∈ rs) (hy : y ∈ rs) (hne : x.label ≠ "")
    (hxy : x.label = y.label) : x = y := by
  induction h with
  | nil => cases hx
  | cons hhead _ ih =>
    rename_i a rest
    rcases List.mem_cons.1 hx with hx1 | hx1 <;> rcases List.mem_cons.1 hy with hy1 | hy1
    · rw [hx1, hy1]
    · subst hx1
      rcases hhead y hy1 with h1 | h1
      · exact absurd h1 hne
      · exact absurd hxy h1
    · subst hy1
      rcases hhead x hx1 with h1 | h1
      · exact absurd (hxy ▸ h1) hne
      · exact absurd hxy.symm h1
    · exact ih hx1 hy1

theorem resolve_labels_pairwise (rs rs1 : parse_results) (labels : label_addr_map)
    (h : resolve_labels rs = (rs1, .ok labels)) :
    List.Pairwise no_dup_pair rs1 := by
  obtain ⟨hflag, hloop⟩ := resolve_labels_ok rs rs1 labels h
  obtain ⟨hmap, _, _⟩ := resolve_loop_chain rs [] 0 rs1 labels hloop
  have hp : List.Pairwise no_dup_pair rs := by
    rw [has_no_duplicate_labels_eq_from] at hflag
    rcases has_no_duplicate_labels_from_spec rs {} {} with
      ⟨hp, _⟩ | ⟨_, _, _, _, _, _, _, _, _, _, _, hr⟩
    · exact hp
    · rw [hr] at hflag
      cases hflag
  have h1 : List.Pairwise no_dup_pair (rs.map erase_address) :=
    List.pairwise_map.2 hp
  rw [← hmap] at h1
  have h2 := List.pairwise_map.1 h1
  exact h2

theorem resolve_labels_find (rs rs1 : parse_results) (labels : label_addr_map)
    (h : resolve_labels rs = (rs1, .ok labels)) (d : directive) (hd : d ∈ rs1)
    (hne : d.label ≠ "") : map_find labels d.label = some d.address := by
  obtain ⟨_, hloop⟩ := resolve_labels_ok rs rs1 labels h
  have hl := resolve_loop_labels rs [] 0 rs1 labels hloop d.label
  simp only [map_find] at hl
  rw [hl]
  cases hf : rs1.find? (fun e => decide (e.label = d.label ∧ d.label ≠ "")) with
  | none =>
    rw [List.find?_eq_none] at hf
    have := hf d hd
    simp [hne] at this
  | some e =>
    have he := List.mem_of_find?_eq_some hf
    have hp := List.find?_some hf
    simp only [decide_eq_true_eq] at hp
    have := pairwise_no_dup_unique rs1 (resolve_labels_pairwise rs rs1 labels h) d e hd he hne
      hp.1.symm
    simp [this]

theorem resolve_labels_chain_step (results results1 : parse_results) (labels : label_addr_map)
    (h : resolve_labels results = (results1, .ok labels)) (i : Nat) (d e : directive)
    (hd : results1[i]? = some d) (he : results1[i + 1]? = some e) :
    size_rules d e.address := by
  obtain ⟨_, hloop⟩ := resolve_labels_ok results results1 labels h
  obtain ⟨_, _, h3⟩ := resolve_loop_chain results [] 0 results1 labels hloop
  have hi : i + 1 < results1.length := by
    rcases Nat.lt_or_ge (i + 1) results1.length with h | h
    · exact h
    · rw [List.getElem?_eq_none h] at he; cases he
  rw [List.chain'_iff_get] at h3
  have hstep := h3 i (by omega)
  rw [List.getElem?_eq_getElem hi] at he
  rw [List.getElem?_eq_getElem (by omega)] at hd
  simp only [Option.some.injEq] at hd he
  subst hd he
  exact resolve_advance_size_rules _ _ hstep

/-- C6: whenever `resolve_labels` succeeds, the keys of the returned label
table are exactly the non-empty labels of the directive list, and the label of
every directive is bound to the address assigned to that directive, whatever
its mnemonic is; the label of a label-only line is therefore bound to the
address of the directive after it. -/
theorem C6_label_table (results results1 : parse_results) (labels : label_addr_map)
    (h : resolve_labels results = (results1, .ok labels)) :
    (∀ l : String, (map_find labels l).isSome = true ↔ l ≠ "" ∧ ∃ d ∈ results, d.label = l) ∧
    (∀ d ∈ results1, d.label ≠ "" → map_find labels d.label = some d.address) ∧
    (∀ (i : Nat) (d e : directive), results1[i]? = some d → results1[i + 1]? = some e →
      d.label ≠ "" → d.instr = "" → map_find labels d.label = some e.address) := by
  obtain ⟨_, hloop⟩ := resolve_labels_ok results results1 labels h
  obtain ⟨hmap, _, _⟩ := resolve_loop_chain results [] 0 results1 labels hloop
  refine ⟨?_, ?_, ?_⟩
  · intro l
    have hl := resolve_loop_labels results [] 0 results1 labels hloop l
    simp only [map_find] at hl
    rw [hl, Option.isSome_map', List.find?_isSome]
    constructor
    · rintro ⟨d, hd, hp⟩
      simp only [decide_eq_true_eq] at hp
      have : erase_address d ∈ results.map erase_address := by
        rw [← hmap]
        exact List.mem_map_of_mem _ hd
      obtain ⟨d0, hd0, he⟩ := List.mem_map.1 this
      refine ⟨hp.2, d0, hd0, ?_⟩
      have : (erase_address d0).label = (erase_address d).label := by rw [he]
      exact this.trans hp.1
    · rintro ⟨hne, d, hd, hp⟩
      have : erase_address d ∈ results1.map erase_address := by
        rw [hmap]
        exact List.mem_map_of_mem _ hd
      obtain ⟨d1, hd1, he⟩ := List.mem_map.1 this
      refine ⟨d1, hd1, ?_⟩
      have : (erase_address d1).label = (erase_address d).label := by rw [he]
      simp only [decide_eq_true_eq]
      exact ⟨this.trans hp, hne⟩
  · intro d hd hne
    exact resolve_labels_find results results1 labels h d hd hne
  · intro i d e hd he hne hinstr
    rw [resolve_labels_find results results1 labels h d (List.getElem?_mem hd) hne]
    have := (resolve_labels_chain_step results results1 labels h i d e hd he).1 hinstr
    rw [this]

/-- C6, witness: in `sample_program` the label `buf` of the pseudo-op `resw` is
bound to 0 and the label `msg` of a label-only line is bound to 3, the address
of the `ds` directive after it. -/
theorem C6_label_table_witness :
    (resolve_labels (lowercase_instr_names sample_program)
        = (sample_resolved, .ok sample_labels) ∧
      map_find sample_labels "buf" = some 0 ∧ map_find sample_labels "msg" = some 3) ∧
    ((∀ l : String, (map_find sample_labels l).isSome = true ↔
        l ≠ "" ∧ ∃ d ∈ lowercase_instr_names sample_program, d.label = l) ∧
      (∀ d ∈ sample_resolved, d.label ≠ "" → map_find sample_labels d.label = some d.address) ∧
      (∀ (i : Nat) (d e : directive), sample_resolved[i]? = some d →
        sample_resolved[i + 1]? = some e →
        d.label ≠ "" → d.instr = "" → map_find sample_labels d.label = some e.address)) :=
  ⟨by decide,
   C6_label_table (lowercase_instr_names sample_program) sample_resolved sample_labels
     (by decide)⟩

/-! ## The entry point -/

theorem assemble_ok (M : metronome32) (pr : parse_results) (v : vm)
    (h : assemble M pr = .ok v) :
    ∃ (pr2 : parse_results) (labels : label_addr_map) (context : context_data),
      resolve_labels (lowercase_instr_names pr) = (pr2, .ok labels) ∧
      assemble_loop M labels pr2 { sys_mem := [], counter := 0 } = (context, none) ∧
      v = { context := { context with counter := get_entry_point labels } } := by
  unfold assemble at h
  cases hr : resolve_labels (lowercase_instr_names pr) with
  | mk pr2 r2 =>
    cases r2 with
    | error e => simp [hr] at h
    | ok labels =>
      cases hl : assemble_loop M labels pr2 { sys_mem := [], counter := 0 } with
      | mk context o =>
        cases o with
        | some e => simp [hr, hl] at h
        | none =>
          simp [hr, hl] at h
          exact ⟨pr2, labels, context, rfl, hl, h.symm⟩

/-- C7: when `assemble` succeeds, the program counter of the returned image is
the address that the resolver assigned to the directive carrying the label
`_ENTRY`, if a directive carries it, and 0 if no directive does. -/
theorem C7_entry_point (M : metronome32) (pr : parse_results) (v : vm)
    (h : assemble M pr = .ok v) :
    ∃ (pr2 : parse_results) (labels : label_addr_map),
      resolve_labels (lowercase_instr_names pr) = (pr2, .ok labels) ∧
      (∀ d ∈ pr2, d.label = "_ENTRY" → v.context.counter = d.address) ∧
      ((∀ d ∈ pr, d.label ≠ "_ENTRY") → v.context.counter = 0) := by
  obtain ⟨pr2, labels, context, hr, _, hv⟩ := assemble_ok M pr v h
  subst hv
  refine ⟨pr2, labels, hr, ?_, ?_⟩
  · intro d hd hlab
    have := resolve_labels_find _ pr2 labels hr d hd (by rw [hlab]; decide)
    rw [hlab] at this
    simp [get_entry_point, entry_label, this]
  · intro hno
    obtain ⟨_, hloop⟩ := resolve_labels_ok _ pr2 labels hr
    have hl := resolve_loop_labels _ [] 0 pr2 labels hloop "_ENTRY"
    obtain ⟨hmap, _, _⟩ := resolve_loop_chain _ [] 0 pr2 labels hloop
    have hnone : pr2.find? (fun d => decide (d.label = "_ENTRY" ∧ "_ENTRY" ≠ "")) = none := by
      rw [List.find?_eq_none]
      intro d hd
      have : erase_address d ∈ (lowercase_instr_names pr).map erase_address := by
        rw [← hmap]
        exact List.mem_map_of_mem _ hd
      obtain ⟨d0, hd0, he⟩ := List.mem_map.1 this
      obtain ⟨d1, hd1, he1⟩ := List.mem_map.1 hd0
      have h1 : d.label = d1.label := by
        have : (erase_address d0).label = (erase_address d).label := by rw [he]
        rw [← he1] at this
        exact this.symm
      simp only [decide_eq_true_eq, not_and]
      intro h2
      exact absurd (h1 ▸ h2) (hno d1 hd1)
    simp only [map_find, hnone, Option.map_none'] at hl
    simp [get_entry_point, entry_label, hl]

/-- C7, witness: in `sample_program` the label `_ENTRY` is on the directive at
address 12, and the image has program counter 12; a program without the label
has program counter 0. -/
theorem C7_entry_point_witness :
    (assemble sample_encoders sample_program = .ok sample_image ∧
      sample_image.context.counter = 12 ∧
      assemble sample_encoders [{ original := "top: cf\n", label := "top", instr := "cf" }]
        = .ok { context := { sys_mem := [(0, 33)], counter := 0 } }) ∧
    ∃ (pr2 : parse_results) (labels : label_addr_map),
      resolve_labels (lowercase_instr_names sample_program) = (pr2, .ok labels) ∧
      (∀ d ∈ pr2, d.label = "_ENTRY" → sample_image.context.counter = d.address) ∧
      ((∀ d ∈ sample_program, d.label ≠ "_ENTRY") → sample_image.context.counter = 0) :=
  ⟨by decide, C7_entry_point sample_encoders sample_program sample_image (by decide)⟩

/-! ## Label operands -/

theorem tonumber_name (s : String) (h : regex_match_name s = true) :
    tonumber s = (0, false) := by
  unfold regex_match_name at h
  cases hs : s.data with
  | nil => rw [hs] at h; cases h
  | cons c cs =>
    rw [hs] at h
    simp only [Bool.and_eq_true] at h
    have hc := h.1
    simp only [name_start, Bool.or_eq_true, Bool.and_eq_true, decide_eq_true_eq] at hc
    have hsp : isspace c = false := by
      simp only [isspace, Bool.or_eq_false_iff, Bool.and_eq_false_iff, decide_eq_false_iff_not]
      omega
    have hminus : c ≠ '-' := by
      intro h0
      have : c.toNat = 45 := by rw [h0]; rfl
      omega
    have hplus : c ≠ '+' := by
      intro h0
      have : c.toNat = 43 := by rw [h0]; rfl
      omega
    have hzero : c ≠ '0' := by
      intro h0
      have : c.toNat = 48 := by rw [h0]; rfl
      omega
    have hdig : digit_of 10 c = none := by
      simp only [digit_of]
      split_ifs with h1 h2 h3 <;> simp <;> omega
    have hstoll : stoll s = none := by
      simp [stoll, hs, List.dropWhile, hsp, read_sign, hminus, hplus, read_base, hzero,
        read_digits, hdig]
    simp [tonumber, hstoll]

theorem u64_of_ll_small (n : Nat) (h : n < 2 ^ 64) : u64_of_ll (n : Int) = n := by
  unfold u64_of_ll
  have h1 : ((n : Int) % (2 ^ 64 : Int)) = (n : Int) := by
    apply Int.emod_eq_of_lt
    · exact Int.ofNat_nonneg n
    · exact_mod_cast h
  rw [h1]
  exact Int.toNat_ofNat n

/-- C8: for every label table and every operand that is a name (it matches
`patterns::name`) bound in the table, `get_imm_num` yields the address the name
is bound to when that address is at most 2^21 - 1, and fails with
`invalid_argument` otherwise; the memory map is no argument of `get_imm_num`,
so what is defined at the address plays no part. -/
theorem C8_imm_label_address (dir : directive) (labels : label_addr_map) (str : String)
    (addr : Nat) (hname : regex_match_name str = true)
    (hbound : map_find labels str = some addr) :
    (addr ≤ 2 ^ 21 - 1 → get_imm_num dir labels str = .ok (addr, true)) ∧
    (2 ^ 21 - 1 < addr → ∃ e, get_imm_num dir labels str = .error e ∧
      e.is_invalid_argument = true) := by
  have hnum := tonumber_name str hname
  constructor
  · intro hle
    have h1 : ¬ ((addr : Int) > immmaxval ∨ (addr : Int) < immminval) := by
      simp only [immmaxval, immminval]
      omega
    have h2 : u64_of_ll (addr : Int) = addr := u64_of_ll_small addr (by omega)
    simp only [get_imm_num, hnum, get_label_addr, hbound]
    simp [h1, h2]
  · intro hgt
    have h1 : (addr : Int) > immmaxval ∨ (addr : Int) < immminval := by
      simp only [immmaxval, immminval]
      omega
    refine ⟨.invalid_argument 442 dir.original
      "Immediate must be between -2097152 and 2097151.", ?_, rfl⟩
    simp only [get_imm_num, hnum, get_label_addr, hbound]
    simp [h1]

/-- C8, witness: in `imm_program` the label `label` is on `dw 5` at address 2;
the immediate operand `label` yields 2, and the word of the `addi` directive
is `new_addi 1 2`, while the cell at address 2 holds 5. -/
theorem C8_imm_label_address_witness :
    (resolve_labels (lowercase_instr_names imm_program)).2 = .ok [("label", 2)] ∧
    assemble sample_encoders imm_program
      = .ok { context := { sys_mem := [(3, sample_encoders.new_addi 1 2), (1, 33), (0, 33), (2, 5)],
                           counter := 0 } } ∧
    ((2 ≤ 2 ^ 21 - 1 →
        get_imm_num { original := "addi %r1, label\n", instr := "addi", data := ("%r1", "label"),
                      address := 3 } [("label", 2)] "label" = .ok (2, true)) ∧
      (2 ^ 21 - 1 < 2 → ∃ e,
        get_imm_num { original := "addi %r1, label\n", instr := "addi", data := ("%r1", "label"),
                      address := 3 } [("label", 2)] "label" = .error e ∧
        e.is_invalid_argument = true)) :=
  ⟨by decide, by decide,
   C8_imm_label_address
     { original := "addi %r1, label\n", instr := "addi", data := ("%r1", "label"), address := 3 }
     [("label", 2)] "label" 2 (by decide) (by decide)⟩

/-! ## The pseudo-label `_HERE` -/

/-- C9, counterexample: `here_program` puts the label `_HERE` on its first
directive, so the label table binds `_HERE` to 0; for the second directive,
at address 1, the lookup of `_HERE` yields 0 and not 1, and the word of
`addi %r1, _HERE` is `new_addi 1 0`. -/
theorem C9_here_shadowed :
    resolve_labels (lowercase_instr_names here_program)
      = ([{ original := "_HERE: cf\n", label := "_HERE", instr := "cf", address := 0 },
          { original := "addi %r1, _HERE\n", instr := "addi", data := ("%r1", "_HERE"),
            address := 1 }], .ok [("_HERE", 0)]) ∧
    get_label_addr
        { original := "addi %r1, _HERE\n", instr := "addi", data := ("%r1", "_HERE"), address := 1 }
        [("_HERE", 0)] "_HERE" = (0, true) ∧
    get_label_addr
        { original := "addi %r1, _HERE\n", instr := "addi", data := ("%r1", "_HERE"), address := 1 }
        [("_HERE", 0)] "_HERE" ≠ (1, true) ∧
    assemble sample_encoders here_program
      = .ok { context := { sys_mem := [(1, sample_encoders.new_addi 1 0), (0, 33)],
                           counter := 0 } } := by
  decide

/-- C9, amended: for every label table that does not bind `_HERE` and every
directive, the lookup of `_HERE` succeeds and yields the address of the
directive. -/
theorem C9_here_lookup (dir : directive) (labels : label_addr_map)
    (h : map_find labels "_HERE" = none) :
    get_label_addr dir labels "_HERE" = (dir.address, true) := by
  simp [get_label_addr, h]

/-- C9, witness: a directive at address 7 and a table that binds only `loop`. -/
theorem C9_here_lookup_witness :
    map_find [("loop", 4)] "_HERE" = none ∧
    get_label_addr { original := "addi %r1, _HERE\n", instr := "addi", data := ("%r1", "_HERE"),
                     address := 7 } [("loop", 4)] "_HERE" = (7, true) :=
  ⟨by decide,
   C9_here_lookup { original := "addi %r1, _HERE\n", instr := "addi", data := ("%r1", "_HERE"),
                    address := 7 } [("loop", 4)] (by decide)⟩

/-! ## Equal registers -/

theorem r1_mnemonics_keys (M : metronome32) :
    (r1_new_instr M).map Prod.fst = r1_mnemonics := rfl

theorem r1_mnemonics_dispatch (M : metronome32) (s : String) (h : s ∈ r1_mnemonics) :
    s.length ≠ 0 ∧ (map_find (r1_new_instr M) s).isSome = true := by
  simp only [r1_mnemonics, List.mem_cons, List.mem_singleton, List.not_mem_nil, or_false] at h
  rcases h with h | h | h | h | h | h | h | h | h | h | h | h | h | h <;> rw [h] <;>
    exact ⟨by decide, rfl⟩

/-- C10: for every mnemonic of the register-pair family and every two operands
that are register tokens with the same number, whatever their spelling,
`assemble_instruction` fails with `invalid_argument` and leaves the context,
and with it the memory map, as it was; when the number is at most 63 the
exception is the one of `assert_regs_unequal`. -/
theorem C10_equal_registers (M : metronome32) (dir : directive) (labels : label_addr_map)
    (context : context_data) (hm : dir.instr ∈ r1_mnemonics)
    (h1 : regex_match_reg dir.data.1 = true) (h2 : regex_match_reg dir.data.2 = true)
    (heq : stoull_substr2 dir.data.1 = stoull_substr2 dir.data.2) :
    ∃ e, assemble_instruction M dir labels context = (context, some e) ∧
      e.is_invalid_argument = true ∧
      (stoull_substr2 dir.data.1 ≤ 63 →
        e = .invalid_argument 612 dir.original "The two provided registers cannot be equal.") := by
  obtain ⟨hlen, hkey⟩ := r1_mnemonics_dispatch M dir.instr hm
  have hdisp : assemble_instruction M dir labels context = r1_create_instr M dir context := by
    simp [assemble_instruction, hlen, hkey]
  rw [hdisp]
  by_cases hbig : stoull_substr2 dir.data.1 > regmaxval
  · refine ⟨.invalid_argument 369 dir.original "Register number must be between 0 and 63.",
      ?_, rfl, ?_⟩
    · simp [r1_create_instr, get_register_num, h1, hbig, emit_or_throw, bind, Except.bind]
    · intro hle
      simp only [regmaxval] at hbig
      omega
  · have hbig2 : ¬ stoull_substr2 dir.data.2 > regmaxval := by rw [← heq]; exact hbig
    refine ⟨.invalid_argument 612 dir.original "The two provided registers cannot be equal.",
      ?_, rfl, fun _ => rfl⟩
    simp [r1_create_instr, get_register_num, h1, h2, hbig, hbig2, heq, emit_or_throw, bind,
      Except.bind, assert_is_reg, assert_regs_unequal]

/-- C10, witness: `exchange %r1, %r01` names register 1 twice in two
spellings. -/
theorem C10_equal_registers_witness :
    assemble_instruction sample_encoders
        { original := "exchange %r1, %r01\n", instr := "exchange", data := ("%r1", "%r01") }
        [] { sys_mem := [(0, 33)], counter := 1 }
      = ({ sys_mem := [(0, 33)], counter := 1 },
         some (.invalid_argument 612 "exchange %r1, %r01\n"
           "The two provided registers cannot be equal.")) ∧
    ∃ e, assemble_instruction sample_encoders
        { original := "exchange %r1, %r01\n", instr := "exchange", data := ("%r1", "%r01") }
        [] { sys_mem := [(0, 33)], counter := 1 }
        = ({ sys_mem := [(0, 33)], counter := 1 }, some e) ∧
      e.is_invalid_argument = true ∧
      (stoull_substr2 "%r1" ≤ 63 →
        e = .invalid_argument 612 "exchange %r1, %r01\n"
          "The two provided registers cannot be equal.") :=
  ⟨by decide,
   C10_equal_registers sample_encoders
     { original := "exchange %r1, %r01\n", instr := "exchange", data := ("%r1", "%r01") }
     [] { sys_mem := [(0, 33)], counter := 1 } (by decide) (by decide) (by decide) (by decide)⟩

/-! ## The mnemonics without a dispatch -/

/-- Every mnemonic of `undispatched_realops` is accepted by the resolver as a
real instruction and makes `assemble_instruction` throw `unknown_instruction`. -/
theorem undispatched_realops_unknown (M : metronome32) (d : directive)
    (labels : label_addr_map) (c : context_data) (h : d.instr ∈ undispatched_realops) :
    d.instr ∈ valid_realops ∧
    assemble_instruction M d labels c = (c, some (.unknown_instruction 843 d.original)) := by
  simp only [undispatched_realops, List.mem_cons, List.mem_singleton, List.not_mem_nil,
    or_false] at h
  rcases h with h | h | h | h | h | h | h <;>
    exact ⟨by rw [h]; decide, by
      unfold assemble_instruction
      rw [h]
      rfl⟩

/-! ## The emission counter when no size wraps -/

theorem u32_of_int_add_ll (s x : Nat) :
    u32_of_int ((s : Int) + ll_of_u64 x) = (s + x % 2 ^ 64) % 2 ^ 32 := by
  unfold u32_of_int ll_of_u64
  split <;> omega

theorem u64_of_ll_of_u64 (x : Nat) : u64_of_ll (ll_of_u64 x) = x % 2 ^ 64 := by
  unfold u64_of_ll ll_of_u64
  split <;> omega

theorem u32_of_int_lt (i : Int) : u32_of_int i < 2 ^ 32 := by
  unfold u32_of_int
  omega

theorem resolve_advance_lt (d : directive) (cur next : Nat) (hcur : cur < 2 ^ 32)
    (h : resolve_advance d cur = .ok next) : next < 2 ^ 32 := by
  unfold resolve_advance at h
  split_ifs at h
  · simp only [Except.ok.injEq] at h; omega
  · split at h
    · simp only [Except.ok.injEq] at h; rw [← h]; exact u32_of_int_lt _
    · cases h
  · split at h
    · simp only [Except.ok.injEq] at h; rw [← h]; exact u32_of_int_lt _
    · cases h
  · split at h
    · simp only [Except.ok.injEq] at h; rw [← h]; exact u32_of_int_lt _
    · cases h
  · split at h
    · simp only [Except.ok.injEq] at h; rw [← h]; exact u32_of_int_lt _
    · cases h
  · simp only [Except.ok.injEq, word_mod] at h; omega

theorem resolve_loop_lt (rs : parse_results) :
    ∀ (res : label_addr_map) (cur : Nat) (rs1 : parse_results) (labels : label_addr_map),
      resolve_loop rs res cur = (rs1, .ok labels) → cur < 2 ^ 32 →
      ∀ d ∈ rs1, d.address < 2 ^ 32 := by
  induction rs with
  | nil =>
    intro res cur rs1 labels h _ d hd
    simp [resolve_loop] at h
    rw [h.1] at hd
    cases hd
  | cons dir rest ih =>
    intro res cur rs1 labels h hcur d hd
    obtain ⟨next, rest1, hadv, hrest, hrs1⟩ := resolve_loop_cons dir rest res cur rs1 labels h
    subst hrs1
    rcases List.mem_cons.1 hd with h1 | h1
    · rw [h1]; exact hcur
    · exact ih _ _ _ _ hrest (resolve_advance_lt _ _ _ hcur hadv) d h1

theorem ds_fill_snd (str : List Char) (times : Nat) :
    ∀ (mem : List (Nat × Nat)) (start : Nat), start < 2 ^ 32 →
      (ds_fill str times mem start).2 = (start + times * str.length) % 2 ^ 32 := by
  induction times with
  | zero =>
    intro mem start h
    simp only [ds_fill]
    omega
  | succ n ih =>
    intro mem start h
    simp only [ds_fill, word_mod]
    rw [ih _ _ (by omega), Nat.succ_mul]
    omega

theorem emit_or_throw_counter (c c1 : context_data) (w : Except asm_error Nat)
    (h : emit_or_throw c w = (c1, none)) : c1.counter = (c.counter + 1) % word_mod := by
  unfold emit_or_throw at h
  split at h
  · simp only [Prod.mk.injEq, and_true] at h
    rw [← h]
    rfl
  · simp at h

theorem map_find_isSome_keys {V : Type} (m : List (String × V)) (k : String)
    (h : (map_find m k).isSome = true) : k ∈ m.map Prod.fst := by
  induction m with
  | nil => simp [map_find] at h
  | cons p m ih =>
    obtain ⟨k1, v1⟩ := p
    by_cases hk : k1 = k
    · simp [hk]
    · simp only [map_find, hk, if_false] at h
      simp [ih h]

theorem table_keys_realops (M : metronome32) (s : String)
    (h : (map_find (r1_new_instr M) s).isSome = true ∨ (map_find (r2_new_instr M) s).isSome = true ∨
      (map_find (i_new_instr M) s).isSome = true ∨ (map_find (b1_new_instr M) s).isSome = true) :
    s ∈ valid_realops := by
  have hall : ∀ t ∈ (r1_new_instr M).map Prod.fst ++ (r2_new_instr M).map Prod.fst ++
      (i_new_instr M).map Prod.fst ++ (b1_new_instr M).map Prod.fst, t ∈ valid_realops := by
    simp only [r1_new_instr, r2_new_instr, i_new_instr, b1_new_instr, List.map_cons,
      List.map_nil]
    decide
  apply hall
  simp only [List.mem_append]
  rcases h with h | h | h | h
  · exact Or.inl (Or.inl (Or.inl (map_find_isSome_keys _ _ h)))
  · exact Or.inl (Or.inl (Or.inr (map_find_isSome_keys _ _ h)))
  · exact Or.inl (Or.inr (map_find_isSome_keys _ _ h))
  · exact Or.inr (map_find_isSome_keys _ _ h)

theorem ds_times_ok (d : directive) (str : List Char) (times : Nat)
    (h : ds_times d = .ok (str, times)) :
    ∃ n, pseudop_addrdelta_s d = .ok n ∧ str.length ≠ 0 ∧
      str.length = (unescape_chars d.data.1).length - 2 ∧
      times = (u64_of_ll n / str.length) % 2 ^ 32 := by
  unfold ds_times at h
  simp only at h
  by_cases h0 : (unescape_chars d.data.1).length < 1
  · simp [h0] at h
  · cases hn : pseudop_addrdelta_s d with
    | error e => simp [h0, hn] at h
    | ok n =>
      simp only [h0, hn, if_false] at h
      split_ifs at h with h1
      simp only [Except.ok.injEq, Prod.mk.injEq, word_mod] at h
      obtain ⟨hs, ht⟩ := h
      refine ⟨n, rfl, ?_, ?_, ?_⟩
      · rw [← hs]; exact h1
      · rw [← hs]
        simp only [List.length_take, List.length_drop, String.length]
        omega
      · rw [← ht, ← hs]

theorem pseudop_addrdelta_s_ok (d : directive) (n : Int) (h : pseudop_addrdelta_s d = .ok n) :
    (d.data.2 = "" ∧ n = ll_of_u64 ((unescape_chars d.data.1).length - 2)) ∨
    (d.data.2 ≠ "" ∧
      n = ll_of_u64 (((unescape_chars d.data.1).length - 2) * u64_of_ll (tonumber d.data.2).1)) := by
  unfold pseudop_addrdelta_s at h
  simp only at h
  split_ifs at h with h0 h1 h2 h3
  · simp only [Except.ok.injEq] at h
    exact Or.inl ⟨h1, h.symm⟩
  · simp only [Except.ok.injEq] at h
    exact Or.inr ⟨h1, h.symm⟩

theorem mod_mul_word (a len start : Nat) :
    (start + (a % 2 ^ 32) * len) % 2 ^ 32 = (start + a * len) % 2 ^ 32 := by
  have key : a * len = 2 ^ 32 * ((a / 2 ^ 32) * len) + (a % 2 ^ 32) * len := by
    have := Nat.div_add_mod a (2 ^ 32)
    calc a * len = (2 ^ 32 * (a / 2 ^ 32) + a % 2 ^ 32) * len := by rw [this]
      _ = 2 ^ 32 * ((a / 2 ^ 32) * len) + (a % 2 ^ 32) * len := by ring
  generalize (a / 2 ^ 32) * len = x at key
  generalize (a % 2 ^ 32) * len = y at key ⊢
  generalize a * len = z at key ⊢
  omega

theorem ds_counter (d : directive) (str : List Char) (times : Nat) (n : Int) (start : Nat)
    (hnw : ds_no_wrap d) (hinstr : d.instr = "ds" ∨ d.instr = "dsz")
    (hn : pseudop_addrdelta_s d = .ok n) (hlen0 : str.length ≠ 0)
    (hlen : str.length = (unescape_chars d.data.1).length - 2)
    (htimes : times = (u64_of_ll n / str.length) % 2 ^ 32) :
    (start + times * str.length) % 2 ^ 32 = u32_of_int ((start : Int) + n) := by
  obtain ⟨hsize, hprod⟩ := hnw hinstr
  rcases pseudop_addrdelta_s_ok d n hn with ⟨h2, hval⟩ | ⟨h2, hval⟩
  · rw [← hlen] at hval
    have hs : str.length < 2 ^ 64 := by omega
    have hu : u64_of_ll n = str.length := by
      rw [hval, u64_of_ll_of_u64, Nat.mod_eq_of_lt hs]
    rw [hval, u32_of_int_add_ll, htimes, hu, Nat.div_self (Nat.pos_of_ne_zero hlen0),
      Nat.mod_eq_of_lt hs]
    norm_num
  · have hw := hprod h2
    rw [← hlen] at hval hw
    generalize u64_of_ll (tonumber d.data.2).1 = a at hval hw
    have hu : u64_of_ll n = str.length * a := by
      rw [hval, u64_of_ll_of_u64, Nat.mod_eq_of_lt hw]
    have hdiv : str.length * a / str.length = a :=
      Nat.mul_div_cancel_left a (Nat.pos_of_ne_zero hlen0)
    rw [hval, u32_of_int_add_ll, htimes, hu, hdiv, Nat.mod_eq_of_lt hw, Nat.mul_comm str.length a]
    exact mod_mul_word a str.length start

theorem string_length_zero (s : String) (h : s.length = 0) : s = "" := by
  cases s with
  | mk data =>
    simp only [String.length, List.length_eq_zero] at h
    rw [h]

theorem encoder_step_counter (M : metronome32) (d : directive) (labels : label_addr_map)
    (c c1 : context_data) (next : Nat)
    (hc : c.counter = d.address) (hlt : d.address < 2 ^ 32)
    (hadv : resolve_advance d d.address = .ok next)
    (henc : assemble_instruction M d labels c = (c1, none))
    (hnw : ds_no_wrap d) : c1.counter = next := by
  obtain ⟨r0, r1, r2, r3, r4, r5⟩ := resolve_advance_size_rules d next hadv
  unfold assemble_instruction at henc
  split_ifs at henc with h0 h1 h2 h3 h4 h5 h6 h7
  · simp only [Prod.mk.injEq, and_true] at henc
    rw [← henc, r0 (string_length_zero _ h0), hc]
  · rw [emit_or_throw_counter c c1 _ henc, r5 (table_keys_realops M _ (Or.inl h1)), hc]
  · rw [emit_or_throw_counter c c1 _ henc,
      r5 (table_keys_realops M _ (Or.inr (Or.inl h2))), hc]
  · rw [emit_or_throw_counter c c1 _ henc,
      r5 (table_keys_realops M _ (Or.inr (Or.inr (Or.inl h3)))), hc]
  · rw [emit_or_throw_counter c c1 _ henc,
      r5 (table_keys_realops M _ (Or.inr (Or.inr (Or.inr h4)))), hc]
  · simp only [valid_pseudops, List.mem_cons, List.mem_singleton, List.not_mem_nil,
      or_false] at h5
    rcases h5 with h | h | h | h | h | h
    · -- resw
      obtain ⟨n, hn, hnext⟩ := r1 h
      simp [pseudop_create_instr, h, hn] at henc
      rw [← henc, hnext, hc]
    · -- ress
      obtain ⟨n, hn, hnext⟩ := r3 (Or.inl h)
      simp [pseudop_create_instr, h, hn] at henc
      rw [← henc, hnext, hc]
    · -- ressz
      obtain ⟨n, hn, hnext⟩ := r4 (Or.inl h)
      simp [pseudop_create_instr, h, hn] at henc
      rw [← henc, hnext, hc]
    · -- dw
      obtain ⟨n, hn, hnext⟩ := r2 h
      simp only [pseudop_create_instr, h, hn, if_true] at henc
      split_ifs at henc
      · simp only [Prod.mk.injEq, and_true] at henc
        rw [← henc, hnext, hc]
      · simp at henc
    · -- ds
      obtain ⟨n, hn, hnext⟩ := r3 (Or.inr h)
      cases ht : ds_times d with
      | error e => simp [pseudop_create_instr, h, ht] at henc
      | ok p =>
        obtain ⟨str, times⟩ := p
        simp [pseudop_create_instr, h, ht] at henc
        obtain ⟨n1, hn1, hlen0, hlen, htimes⟩ := ds_times_ok d str times ht
        rw [hn] at hn1
        simp only [Except.ok.injEq] at hn1
        subst hn1
        rw [← henc, hnext]
        simp only
        rw [ds_fill_snd str times _ _ (by omega), hc]
        exact ds_counter d str times n d.address hnw (Or.inl h) hn hlen0 hlen htimes
    · -- dsz
      obtain ⟨n, hn, hnext⟩ := r4 (Or.inr h)
      cases ht : ds_times d with
      | error e => simp [pseudop_create_instr, h, ht] at henc
      | ok p =>
        obtain ⟨str, times⟩ := p
        simp [pseudop_create_instr, h, ht] at henc
        obtain ⟨n1, hn1, hlen0, hlen, htimes⟩ := ds_times_ok d str times ht
        have hcount := ds_counter d str times n1 d.address hnw (Or.inr h) hn1 hlen0 hlen htimes
        simp only [pseudop_addrdelta_sz, hn1, Except.ok.injEq] at hn
        rw [← henc, hnext]
        simp only [word_mod]
        rw [ds_fill_snd str times _ _ (by omega), hc, hcount, ← hn]
        unfold u32_of_int u64_of_ll ll_of_u64
        split <;> omega
  · simp only [Prod.mk.injEq, and_true] at henc
    rw [← henc, r5 (by rw [h6]; decide)]
    simp only [emit_word, hc]
  · rw [emit_or_throw_counter c c1 _ henc, r5 (by rw [h7]; decide), hc]
  · simp at henc

theorem assemble_loop_counter (M : metronome32) (labels : label_addr_map)
    (rs : parse_results) :
    ∀ (c c1 : context_data), List.Chain' addr_step rs →
      (∀ d ∈ rs, d.address < 2 ^ 32 ∧ ds_no_wrap d) →
      (∀ d, rs.head? = some d → c.counter = d.address) →
      assemble_loop M labels rs c = (c1, none) →
      ∀ (i : Nat) (d : directive), rs[i]? = some d →
        ∃ ci, assemble_loop M labels (rs.take i) c = (ci, none) ∧ ci.counter = d.address := by
  induction rs with
  | nil =>
    intro c c1 _ _ _ _ i d hd
    simp at hd
  | cons d0 rest ih =>
    intro c c1 hchain hall hhead hloop i d hd
    cases i with
    | zero =>
      simp only [List.getElem?_cons_zero, Option.some.injEq] at hd
      subst hd
      exact ⟨c, rfl, hhead _ rfl⟩
    | succ i =>
      simp only [List.getElem?_cons_succ] at hd
      simp only [assemble_loop] at hloop
      cases hstep : assemble_instruction M d0 labels c with
      | mk c2 o =>
        cases o with
        | some e => simp [hstep] at hloop
        | none =>
          simp only [hstep] at hloop
          rw [List.chain'_cons'] at hchain
          have hc2 : ∀ e, rest.head? = some e → c2.counter = e.address := by
            intro e he
            have hadv := hchain.1 e he
            exact encoder_step_counter M d0 labels c c2 e.address (hhead _ rfl)
              (hall d0 (List.mem_cons_self _ _)).1 hadv hstep
              (hall d0 (List.mem_cons_self _ _)).2
          obtain ⟨ci, hci, hcnt⟩ := ih c2 c1 hchain.2
            (fun e he => hall e (List.mem_cons_of_mem _ he)) hc2 hloop i d hd
          refine ⟨ci, ?_, hcnt⟩
          simp only [List.take_succ_cons, assemble_loop, hstep]
          exact hci

/-- The emission counter follows the resolver when no size wraps: when
`assemble` succeeds and the size of every `ds` and `dsz` directive is computed
without wrapping, the encoder loop reaches every directive with its counter
equal to the address the resolver assigned to the directive. -/
theorem emission_counter_without_wrap (M : metronome32) (pr : parse_results) (v : vm)
    (h : assemble M pr = .ok v) :
    ∃ (pr2 : parse_results) (labels : label_addr_map),
      resolve_labels (lowercase_instr_names pr) = (pr2, .ok labels) ∧
      ((∀ d ∈ pr2, ds_no_wrap d) →
        ∀ (i : Nat) (d : directive), pr2[i]? = some d →
          ∃ ci, assemble_loop M labels (pr2.take i) { sys_mem := [], counter := 0 } = (ci, none) ∧
            ci.counter = d.address) := by
  obtain ⟨pr2, labels, context, hr, hloop, _⟩ := assemble_ok M pr v h
  refine ⟨pr2, labels, hr, ?_⟩
  intro hnw
  obtain ⟨_, hres⟩ := resolve_labels_ok _ pr2 labels hr
  obtain ⟨_, hhead, hchain⟩ := resolve_loop_chain _ [] 0 pr2 labels hres
  have hlt := resolve_loop_lt _ [] 0 pr2 labels hres (by norm_num)
  exact assemble_loop_counter M labels pr2 _ context hchain
    (fun d hd => ⟨hlt d hd, hnw d hd⟩) (fun d hd => (hhead d hd).symm) hloop

/-! ## Numeric domains of the operands -/

theorem ll_of_u64_of_ll (v : Int) (h0 : -(2 ^ 63 : Int) ≤ v) (h1 : v < 2 ^ 63) :
    ll_of_u64 (u64_of_ll v) = v := by
  unfold ll_of_u64 u64_of_ll
  split <;> omega

theorem u64_of_ll_nonneg (v : Int) (h0 : 0 ≤ v) (h1 : v < 2 ^ 64) :
    u64_of_ll v = v.toNat := by
  unfold u64_of_ll
  omega

/-- C11: for every immediate operand that `tonumber` reads as the number `v`,
`get_imm_num` succeeds exactly when -2^21 <= v <= 2^21 - 1; it then returns
`v` as an `unsigned long long` (`v` itself when `v` is not negative, and the
value that converts back to `v` otherwise), and outside the range it fails
with `invalid_argument`. -/
theorem C11_imm_literal_range (dir : directive) (labels : label_addr_map) (str : String)
    (v : Int) (h : tonumber str = (v, true)) :
    (-(2 ^ 21 : Int) ≤ v ∧ v ≤ 2 ^ 21 - 1 →
      get_imm_num dir labels str = .ok (u64_of_ll v, true) ∧
      ll_of_u64 (u64_of_ll v) = v ∧ (0 ≤ v → u64_of_ll v = v.toNat)) ∧
    (¬ (-(2 ^ 21 : Int) ≤ v ∧ v ≤ 2 ^ 21 - 1) →
      get_imm_num dir labels str = .error (.invalid_argument 428 dir.original
        "Immediate must be between -2097152 and 2097151.")) ∧
    ((∃ r, get_imm_num dir labels str = .ok r) ↔ (-(2 ^ 21 : Int) ≤ v ∧ v ≤ 2 ^ 21 - 1)) := by
  have hin : (-(2 ^ 21 : Int) ≤ v ∧ v ≤ 2 ^ 21 - 1) →
      get_imm_num dir labels str = .ok (u64_of_ll v, true) := by
    intro hr
    have hc : ¬ (v > immmaxval ∨ v < immminval) := by
      simp only [immmaxval, immminval]
      omega
    simp [get_imm_num, h, hc]
  have hout : ¬ (-(2 ^ 21 : Int) ≤ v ∧ v ≤ 2 ^ 21 - 1) →
      get_imm_num dir labels str = .error (.invalid_argument 428 dir.original
        "Immediate must be between -2097152 and 2097151.") := by
    intro hr
    have hc : v > immmaxval ∨ v < immminval := by
      simp only [immmaxval, immminval]
      omega
    simp [get_imm_num, h, hc]
  refine ⟨fun hr => ⟨hin hr, ll_of_u64_of_ll v (by omega) (by omega),
    fun h0 => u64_of_ll_nonneg v h0 (by omega)⟩, hout, ?_⟩
  constructor
  · rintro ⟨r, hr⟩
    by_contra hc
    rw [hout hc] at hr
    cases hr
  · intro hr
    exact ⟨_, hin hr⟩

/-- C11, witness: in `addi %r1, 2097151` the literal is accepted with its
value; the literals `2097152` and `-2097153` are rejected and `-2097152` is
accepted. -/
theorem C11_imm_literal_range_witness :
    (tonumber "2097151" = (2097151, true) ∧
      get_imm_num (line2 "addi" "%r1" "2097151") [] "2097151" = .ok (2097151, true) ∧
      get_imm_num (line2 "addi" "%r1" "2097152") [] "2097152"
        = .error (.invalid_argument 428 "addi %r1, 2097152\n"
            "Immediate must be between -2097152 and 2097151.") ∧
      get_imm_num (line2 "addi" "%r1" "-2097152") [] "-2097152"
        = .ok (2 ^ 64 - 2097152, true) ∧
      get_imm_num (line2 "addi" "%r1" "-2097153") [] "-2097153"
        = .error (.invalid_argument 428 "addi %r1, -2097153\n"
            "Immediate must be between -2097152 and 2097151.")) ∧
    ((-(2 ^ 21 : Int) ≤ 2097151 ∧ (2097151 : Int) ≤ 2 ^ 21 - 1 →
        get_imm_num (line2 "addi" "%r1" "2097151") [] "2097151"
          = .ok (u64_of_ll 2097151, true) ∧
        ll_of_u64 (u64_of_ll 2097151) = 2097151 ∧
        ((0 : Int) ≤ 2097151 → u64_of_ll 2097151 = (2097151 : Int).toNat)) ∧
      (¬ (-(2 ^ 21 : Int) ≤ 2097151 ∧ (2097151 : Int) ≤ 2 ^ 21 - 1) →
        get_imm_num (line2 "addi" "%r1" "2097151") [] "2097151"
          = .error (.invalid_argument 428 (line2 "addi" "%r1" "2097151").original
              "Immediate must be between -2097152 and 2097151.")) ∧
      ((∃ r, get_imm_num (line2 "addi" "%r1" "2097151") [] "2097151" = .ok r) ↔
        (-(2 ^ 21 : Int) ≤ 2097151 ∧ (2097151 : Int) ≤ 2 ^ 21 - 1))) :=
  ⟨by decide, C11_imm_literal_range (line2 "addi" "%r1" "2097151") [] "2097151" 2097151
    (by decide)⟩

/-- C12: a branch-offset operand of a directive at address `A` stands for the
number `val`, which is `v` when `tonumber` reads the operand as `v`, and the
signed difference `L - A` when the operand is a name bound to the address `L`.
`get_offset_num` succeeds exactly when -2^16 <= val <= 2^16 - 1 and then
returns `val` as an `unsigned long long` (the value that converts back to
`val`); outside the range it fails with `invalid_argument`. -/
theorem C12_offset_range (dir : directive) (labels : label_addr_map) (str : String)
    (val : Int)
    (h : tonumber str = (val, true) ∨
      (regex_match_name str = true ∧
        ∃ L : Nat, map_find labels str = some L ∧ val = (L : Int) - (dir.address : Int))) :
    (-(2 ^ 16 : Int) ≤ val ∧ val ≤ 2 ^ 16 - 1 →
      get_offset_num dir labels str = .ok (u64_of_ll val, true) ∧
      ll_of_u64 (u64_of_ll val) = val) ∧
    (¬ (-(2 ^ 16 : Int) ≤ val ∧ val ≤ 2 ^ 16 - 1) →
      ∃ e, get_offset_num dir labels str = .error e ∧ e.is_invalid_argument = true) ∧
    ((∃ r, get_offset_num dir labels str = .ok r) ↔
      (-(2 ^ 16 : Int) ≤ val ∧ val ≤ 2 ^ 16 - 1)) := by
  have hin : (-(2 ^ 16 : Int) ≤ val ∧ val ≤ 2 ^ 16 - 1) →
      get_offset_num dir labels str = .ok (u64_of_ll val, true) := by
    intro hr
    have hc : ¬ (val > offmaxval ∨ val < offminval) := by
      simp only [offmaxval, offminval]
      omega
    rcases h with h | ⟨hname, L, hL, hval⟩
    · simp [get_offset_num, h, hc]
    · have hnum := tonumber_name str hname
      subst hval
      simp only [get_offset_num, hnum, get_label_addr, hL]
      simp [hc]
  have hout : ¬ (-(2 ^ 16 : Int) ≤ val ∧ val ≤ 2 ^ 16 - 1) →
      ∃ e, get_offset_num dir labels str = .error e ∧ e.is_invalid_argument = true := by
    intro hr
    have hc : val > offmaxval ∨ val < offminval := by
      simp only [offmaxval, offminval]
      omega
    rcases h with h | ⟨hname, L, hL, hval⟩
    · exact ⟨.invalid_argument 464 dir.original "Offset must be between -65536 and 65535.",
        by simp [get_offset_num, h, hc], rfl⟩
    · have hnum := tonumber_name str hname
      subst hval
      refine ⟨.invalid_argument 479 dir.original "Offset must be between -65536 and 65535.",
        ?_, rfl⟩
      simp only [get_offset_num, hnum, get_label_addr, hL]
      simp [hc]
  refine ⟨fun hr => ⟨hin hr, ll_of_u64_of_ll val (by omega) (by omega)⟩, hout, ?_⟩
  constructor
  · rintro ⟨r, hr⟩
    by_contra hc
    obtain ⟨e, he, _⟩ := hout hc
    rw [he] at hr
    cases hr
  · intro hr
    exact ⟨_, hin hr⟩

/-- C12, witness: the literal `-65536` is accepted and `-65537` is rejected; for
the directive `bgez %r1, top` at address 9 the label `top`, bound to 4, gives
the offset -5. -/
theorem C12_offset_range_witness :
    (get_offset_num (line2 "bgez" "%r1" "-65536") [] "-65536" = .ok (2 ^ 64 - 65536, true) ∧
      get_offset_num (line2 "bgez" "%r1" "-65537") [] "-65537"
        = .error (.invalid_argument 464 "bgez %r1, -65537\n"
            "Offset must be between -65536 and 65535.") ∧
      get_offset_num { line2 "bgez" "%r1" "top" with address := 9 } [("top", 4)] "top"
        = .ok (2 ^ 64 - 5, true) ∧
      ll_of_u64 (2 ^ 64 - 5) = -5) ∧
    ((-(2 ^ 16 : Int) ≤ -65536 ∧ (-65536 : Int) ≤ 2 ^ 16 - 1 →
        get_offset_num (line2 "bgez" "%r1" "-65536") [] "-65536"
          = .ok (u64_of_ll (-65536), true) ∧
        ll_of_u64 (u64_of_ll (-65536)) = -65536) ∧
      (¬ (-(2 ^ 16 : Int) ≤ -65536 ∧ (-65536 : Int) ≤ 2 ^ 16 - 1) →
        ∃ e, get_offset_num (line2 "bgez" "%r1" "-65536") [] "-65536" = .error e ∧
          e.is_invalid_argument = true) ∧
      ((∃ r, get_offset_num (line2 "bgez" "%r1" "-65536") [] "-65536" = .ok r) ↔
        (-(2 ^ 16 : Int) ≤ -65536 ∧ (-65536 : Int) ≤ 2 ^ 16 - 1))) ∧
    ((-(2 ^ 16 : Int) ≤ -5 ∧ (-5 : Int) ≤ 2 ^ 16 - 1 →
        get_offset_num { line2 "bgez" "%r1" "top" with address := 9 } [("top", 4)] "top"
          = .ok (u64_of_ll (-5), true) ∧
        ll_of_u64 (u64_of_ll (-5)) = -5) ∧
      (¬ (-(2 ^ 16 : Int) ≤ -5 ∧ (-5 : Int) ≤ 2 ^ 16 - 1) →
        ∃ e, get_offset_num { line2 "bgez" "%r1" "top" with address := 9 } [("top", 4)] "top"
            = .error e ∧
          e.is_invalid_argument = true) ∧
      ((∃ r, get_offset_num { line2 "bgez" "%r1" "top" with address := 9 } [("top", 4)] "top"
          = .ok r) ↔
        (-(2 ^ 16 : Int) ≤ -5 ∧ (-5 : Int) ≤ 2 ^ 16 - 1))) :=
  ⟨by decide,
   C12_offset_range (line2 "bgez" "%r1" "-65536") [] "-65536" (-65536) (Or.inl (by decide)),
   C12_offset_range { line2 "bgez" "%r1" "top" with address := 9 } [("top", 4)] "top" (-5)
     (Or.inr ⟨by decide, 4, by decide, by decide⟩)⟩

/-- C13, at the failing input `jump_wrap_program`: the label `x` is bound to
L = 4294967295, so L + 1 = 2^32 is above 2^27 - 1, yet `get_tar_num` computes
`L + 1` in 32-bit arithmetic, obtains 0, accepts it, and `assemble` succeeds
with the word `new_j 0`. -/
theorem C13_jump_target_wraps (M : metronome32) :
    resolve_labels (lowercase_instr_names jump_wrap_program)
      = ([{ line1 "resw" "4294967295" with address := 0 },
          { original := "x: j x\n", label := "x", instr := "j", data := ("x", ""),
            address := 4294967295 }], .ok [("x", 4294967295)]) ∧
    get_tar_num
        { original := "x: j x\n", label := "x", instr := "j", data := ("x", ""),
          address := 4294967295 } [("x", 4294967295)] "x" = .ok (0, true) ∧
    ¬ (4294967295 + 1 ≤ 2 ^ 27 - 1) ∧
    assemble M jump_wrap_program
      = .ok { context := { sys_mem := [(4294967295, M.new_j 0)], counter := 0 } } :=
  ⟨by decide, by decide, by decide, rfl⟩

theorem tonumber_range (str : String) (v : Int) (h : tonumber str = (v, true)) :
    -(2 ^ 63 : Int) ≤ v ∧ v < 2 ^ 63 := by
  have hs : stoll str = some v := by
    unfold tonumber at h
    cases hst : stoll str with
    | none => simp [hst] at h
    | some w => simp [hst] at h; rw [h]
  unfold stoll at hs
  simp only at hs
  split_ifs at hs <;> simp only [Option.some.injEq] at hs <;> omega

/-- The rest of the domain of the jump target: a literal that `tonumber` reads
as `v` is accepted with value `v` exactly when 0 <= v <= 2^27 - 1, and a name
bound to an address `L` below 2^32 - 1 is accepted with value `L + 1` exactly
when L + 1 <= 2^27 - 1; every rejection is an `invalid_argument`. -/
theorem get_tar_num_domain (dir : directive) (labels : label_addr_map) (str : String) :
    (∀ v : Int, tonumber str = (v, true) →
      (0 ≤ v ∧ v ≤ 2 ^ 27 - 1 → get_tar_num dir labels str = .ok (v.toNat, true)) ∧
      (¬ (0 ≤ v ∧ v ≤ 2 ^ 27 - 1) →
        get_tar_num dir labels str = .error (.invalid_argument 501 dir.original
          "Target must be between 0 and 134217727."))) ∧
    (∀ L : Nat, regex_match_name str = true → map_find labels str = some L → L + 1 < 2 ^ 32 →
      (L + 1 ≤ 2 ^ 27 - 1 → get_tar_num dir labels str = .ok (L + 1, true)) ∧
      (¬ (L + 1 ≤ 2 ^ 27 - 1) →
        get_tar_num dir labels str = .error (.invalid_argument 514 dir.original
          "Target must be between 0 and 134217727."))) := by
  constructor
  · intro v h
    have hrange := tonumber_range str v h
    constructor
    · intro hr
      have hu : u64_of_ll v = v.toNat := u64_of_ll_nonneg v hr.1 (by omega)
      have hc : ¬ (v.toNat > tarmaxval) := by
        simp only [tarmaxval]
        omega
      simp [get_tar_num, h, hu, hc]
    · intro hr
      have hc : u64_of_ll v > tarmaxval := by
        unfold u64_of_ll
        simp only [tarmaxval]
        omega
      simp [get_tar_num, h, hc]
  · intro L hname hL hlt
    have hnum := tonumber_name str hname
    have hmod : (L + 1) % word_mod = L + 1 := Nat.mod_eq_of_lt (by simpa [word_mod] using hlt)
    constructor
    · intro hr
      have hc : ¬ (L + 1 > tarmaxval) := by
        simp only [tarmaxval]
        omega
      simp only [get_tar_num, hnum, get_label_addr, hL, hmod]
      simp [hc]
    · intro hr
      have hc : L + 1 > tarmaxval := by
        simp only [tarmaxval]
        omega
      simp only [get_tar_num, hnum, get_label_addr, hL, hmod]
      simp [hc]

/-! ## Register operands -/

theorem register_mnemonics_keys (M : metronome32) :
    (r1_new_instr M).map Prod.fst ++ (r2_new_instr M).map Prod.fst ++
      (i_new_instr M).map Prod.fst ++ (b1_new_instr M).map Prod.fst
      = r1_mnemonics ++ ["rl", "rr", "sll", "slt", "sra", "srl"] ++
        ["addi", "andi", "ori", "slti", "xori"] ++ ["bgez", "bgtz", "blez", "bltz", "jal"] :=
  rfl

theorem regex_digit_value (c : Char) (h : regex_digit c = true) :
    digit_of 10 c = some (c.toNat - 48) ∧ c.toNat - 48 ≤ 9 := by
  simp only [regex_digit, Bool.and_eq_true, decide_eq_true_eq] at h
  have h1 : c.toNat - 48 < 10 := by omega
  simp [digit_of, h.1, h.2, h1]

theorem regex_match_reg_shape (s : String) (h : regex_match_reg s = true) :
    ∃ (r d1 : Char) (rest : List Char), s.data = '%' :: r :: d1 :: rest ∧
      regex_digit d1 = true ∧ (rest = [] ∨ ∃ d2, rest = [d2] ∧ regex_digit d2 = true) := by
  unfold regex_match_reg at h
  split at h
  · rename_i p r d1 hs
    simp only [Bool.and_eq_true, decide_eq_true_eq] at h
    exact ⟨r, d1, [], by rw [hs, h.1.1], h.2, Or.inl rfl⟩
  · rename_i p r d1 d2 hs
    simp only [Bool.and_eq_true, decide_eq_true_eq] at h
    exact ⟨r, d1, [d2], by rw [hs, h.1.1.1], h.1.2, Or.inr ⟨d2, rfl, h.2⟩⟩
  · cases h

theorem stoull_substr2_le (s : String) (h : regex_match_reg s = true) :
    stoull_substr2 s ≤ 99 := by
  obtain ⟨r, d1, rest, hs, hd1, hrest⟩ := regex_match_reg_shape s h
  obtain ⟨v1, b1⟩ := regex_digit_value d1 hd1
  rcases hrest with hrest | ⟨d2, hrest, hd2⟩
  · subst hrest
    simp [stoull_substr2, hs, read_digits, v1, digits_value]
    omega
  · subst hrest
    obtain ⟨v2, b2⟩ := regex_digit_value d2 hd2
    simp [stoull_substr2, hs, read_digits, v1, v2, digits_value]
    omega

theorem regex_match_reg_not_other (s : String) (h : regex_match_reg s = true) :
    tonumber s = (0, false) ∧ regex_match_name s = false ∧ regex_match_str s = false ∧
      s ≠ "" := by
  obtain ⟨r, d1, rest, hs, _, _⟩ := regex_match_reg_shape s h
  have hc : ('%' : Char).toNat = 37 := rfl
  refine ⟨?_, ?_, ?_, ?_⟩
  · have hstoll : stoll s = none := by
      simp [stoll, hs, List.dropWhile, isspace, read_sign, read_base, read_digits, digit_of]
    simp [tonumber, hstoll]
  · simp [regex_match_name, hs, name_start]
  · simp [regex_match_str, hs]
  · intro h0
    rw [h0] at hs
    cases hs

theorem get_register_num_eq (dir : directive) (str : String) :
    get_register_num dir str =
      if regex_match_reg str = true then
        if stoull_substr2 str ≤ 63 then .ok (stoull_substr2 str, true)
        else .error (.invalid_argument 369 dir.original
          "Register number must be between 0 and 63.")
      else .ok (0, false) := by
  unfold get_register_num
  by_cases h : regex_match_reg str = true
  · by_cases h1 : stoull_substr2 str ≤ 63
    · have : ¬ stoull_substr2 str > regmaxval := by simp only [regmaxval]; omega
      simp [h, h1, this]
    · have : stoull_substr2 str > regmaxval := by simp only [regmaxval]; omega
      simp [h, h1, this]
  · simp [h]

theorem register_dispatch (M : metronome32) (dir : directive) (labels : label_addr_map)
    (c : context_data) (hm : dir.instr ∈ register_mnemonics) :
    assemble_instruction M dir labels c = r1_create_instr M dir c ∨
    assemble_instruction M dir labels c = r2_create_instr M dir c ∨
    assemble_instruction M dir labels c = i_create_instr M dir labels c ∨
    assemble_instruction M dir labels c = b1_create_instr M dir labels c := by
  simp only [register_mnemonics, List.mem_cons, List.mem_singleton, List.not_mem_nil,
    or_false] at hm
  unfold assemble_instruction
  rcases hm with hm | hm | hm | hm | hm | hm | hm | hm | hm | hm | hm | hm | hm | hm | hm |
    hm | hm | hm | hm | hm | hm | hm | hm | hm | hm | hm | hm | hm | hm <;> rw [hm] <;>
    first
      | exact Or.inl rfl
      | exact Or.inr (Or.inl rfl)
      | exact Or.inr (Or.inr (Or.inl rfl))
      | exact Or.inr (Or.inr (Or.inr rfl))

theorem first_register_rejected (M : metronome32) (dir : directive) (labels : label_addr_map)
    (c : context_data) (hm : dir.instr ∈ register_mnemonics)
    (h : regex_match_reg dir.data.1 = false) :
    assemble_instruction M dir labels c = (c, some (.invalid_argument 547 dir.original
      ("Expected '" ++ dir.data.1 ++ "' to be a register."))) := by
  rcases register_dispatch M dir labels c hm with hd | hd | hd | hd <;> rw [hd]
  · simp [r1_create_instr, emit_or_throw, get_register_num, h, assert_is_reg, bind, Except.bind]
  · simp [r2_create_instr, emit_or_throw, get_register_num, h, assert_is_reg, bind, Except.bind]
  · simp [i_create_instr, emit_or_throw, get_register_num, h, assert_is_reg, bind, Except.bind]
  · simp [b1_create_instr, emit_or_throw, get_register_num, h, assert_is_reg, bind, Except.bind]
theorem r1_dispatch (M : metronome32) (dir : directive) (labels : label_addr_map)
    (c : context_data) (hm : dir.instr ∈ r1_mnemonics) :
    assemble_instruction M dir labels c = r1_create_instr M dir c := by
  obtain ⟨hlen, hkey⟩ := r1_mnemonics_dispatch M dir.instr hm
  simp [assemble_instruction, hlen, hkey]

/-- C14: `get_register_num` accepts an operand exactly when it is a register
token (`%r` or `%R` and one or two decimal digits) whose number is at most 63,
and returns that number; a token with a number from 64 to 99 fails with
`invalid_argument`. A register token is no number, no name, no string and not
empty, and an instruction whose register operand is not a register token
fails with `invalid_argument` and leaves the context as it was. -/
theorem C14_register_operand (M : metronome32) (dir : directive) (labels : label_addr_map)
    (c : context_data) (hm : dir.instr ∈ register_mnemonics) :
    (∀ str : String, get_register_num dir str =
      if regex_match_reg str = true then
        if stoull_substr2 str ≤ 63 then .ok (stoull_substr2 str, true)
        else .error (.invalid_argument 369 dir.original
          "Register number must be between 0 and 63.")
      else .ok (0, false)) ∧
    (∀ str : String, regex_match_reg str = true →
      stoull_substr2 str ≤ 99 ∧ tonumber str = (0, false) ∧ regex_match_name str = false ∧
        regex_match_str str = false ∧ str ≠ "") ∧
    (regex_match_reg dir.data.1 = false →
      assemble_instruction M dir labels c = (c, some (.invalid_argument 547 dir.original
        ("Expected '" ++ dir.data.1 ++ "' to be a register.")))) ∧
    (regex_match_reg dir.data.1 = true → 64 ≤ stoull_substr2 dir.data.1 →
      assemble_instruction M dir labels c = (c, some (.invalid_argument 369 dir.original
        "Register number must be between 0 and 63."))) ∧
    (dir.instr ∈ r1_mnemonics → regex_match_reg dir.data.1 = true →
      stoull_substr2 dir.data.1 ≤ 63 →
      (regex_match_reg dir.data.2 = false →
        assemble_instruction M dir labels c = (c, some (.invalid_argument 547 dir.original
          ("Expected '" ++ dir.data.2 ++ "' to be a register.")))) ∧
      (regex_match_reg dir.data.2 = true → 64 ≤ stoull_substr2 dir.data.2 →
        assemble_instruction M dir labels c = (c, some (.invalid_argument 369 dir.original
          "Register number must be between 0 and 63.")))) := by
  refine ⟨get_register_num_eq dir, ?_, first_register_rejected M dir labels c hm, ?_, ?_⟩
  · intro str h
    exact ⟨stoull_substr2_le str h, regex_match_reg_not_other str h⟩
  · intro h hbig
    have hn : ¬ stoull_substr2 dir.data.1 ≤ 63 := by omega
    rcases register_dispatch M dir labels c hm with hd | hd | hd | hd <;> rw [hd]
    · simp [r1_create_instr, emit_or_throw, get_register_num_eq, h, hn, bind, Except.bind]
    · simp [r2_create_instr, emit_or_throw, get_register_num_eq, h, hn, bind, Except.bind]
    · simp [i_create_instr, emit_or_throw, get_register_num_eq, h, hn, bind, Except.bind]
    · simp [b1_create_instr, emit_or_throw, get_register_num_eq, h, hn, bind, Except.bind]
  · intro hr1 h hle
    rw [r1_dispatch M dir labels c hr1]
    constructor
    · intro h2
      simp [r1_create_instr, emit_or_throw, get_register_num_eq, h, hle, h2, assert_is_reg,
        bind, Except.bind]
    · intro h2 hbig
      have hn : ¬ stoull_substr2 dir.data.2 ≤ 63 := by omega
      simp [r1_create_instr, emit_or_throw, get_register_num_eq, h, hle, h2, hn, assert_is_reg,
        bind, Except.bind]

/-- C14, witness: in `add %R7, %r64` the first operand is accepted as register
7 and the second is a token with a number above 63; in `add 7, %r1` the first
operand is a number and no register token. -/
theorem C14_register_operand_witness :
    (get_register_num (line2 "add" "%R7" "%r64") "%R7" = .ok (7, true) ∧
      get_register_num (line2 "add" "%R7" "%r64") "%r063" = .ok (0, false) ∧
      assemble_instruction sample_encoders (line2 "add" "7" "%r1") [] {}
        = ({}, some (.invalid_argument 547 "add 7, %r1\n" "Expected '7' to be a register."))) ∧
    assemble_instruction sample_encoders (line2 "add" "%R7" "%r64") [] {}
      = ({}, some (.invalid_argument 369 "add %R7, %r64\n"
          "Register number must be between 0 and 63.")) :=
  ⟨by decide,
   ((C14_register_operand sample_encoders (line2 "add" "%R7" "%r64") [] {}
      (by decide)).2.2.2.2 (by decide) (by decide) (by decide)).2 (by decide) (by decide)⟩

/-! ## Shift amounts -/

theorem r2_dispatch (M : metronome32) (dir : directive) (labels : label_addr_map)
    (c : context_data) (hm : dir.instr ∈ ["rl", "rr", "sll", "sra", "srl"]) :
    assemble_instruction M dir labels c = r2_create_instr M dir c := by
  simp only [List.mem_cons, List.mem_singleton, List.not_mem_nil, or_false] at hm
  unfold assemble_instruction
  rcases hm with hm | hm | hm | hm | hm <;> rw [hm] <;> rfl

theorem get_shrot_num_eq (dir : directive) (str : String) :
    get_shrot_num dir str =
      if (tonumber str).2 = true then
        if 0 ≤ (tonumber str).1 ∧ (tonumber str).1 ≤ 63 then .ok ((tonumber str).1.toNat, true)
        else .error (.invalid_argument 407 dir.original
          "Shift/rotate amount must be between 0 and 63.")
      else .ok (0, false) := by
  unfold get_shrot_num
  by_cases h : (tonumber str).2 = true
  · have hr := tonumber_range str (tonumber str).1 (by rw [← h])
    by_cases h1 : 0 ≤ (tonumber str).1 ∧ (tonumber str).1 ≤ 63
    · have hu : u64_of_ll (tonumber str).1 = (tonumber str).1.toNat :=
        u64_of_ll_nonneg _ h1.1 (by omega)
      have hc : ¬ (tonumber str).1.toNat > shrotmaxval := by
        simp only [shrotmaxval]
        omega
      simp [h, h1, hu, hc]
    · have hc : u64_of_ll (tonumber str).1 > shrotmaxval := by
        unfold u64_of_ll
        simp only [shrotmaxval]
        omega
      simp [h, h1, hc]
  · simp [h]

theorem second_operand_fails (c : context_data) (dir : directive)
    (w : Except asm_error (Nat × Bool)) (chk : Bool → Except asm_error Unit)
    (k : Nat → Nat → Except asm_error Nat)
    (hok : ∀ r, w = .ok r → r.2 = false)
    (herr : ∀ e, w = .error e → e.is_invalid_argument = true)
    (hchk : ∃ e, chk false = .error e ∧ e.is_invalid_argument = true) :
    ∃ e, emit_or_throw c (do
      let reg ← get_register_num dir dir.data.1
      assert_is_reg dir dir.data.1 reg.2
      let x ← w
      chk x.2
      k reg.1 x.1) = (c, some e) ∧ e.is_invalid_argument = true := by
  obtain ⟨e1, hchk1, hchk2⟩ := hchk
  rw [get_register_num_eq]
  by_cases h1 : regex_match_reg dir.data.1 = true
  · by_cases h2 : stoull_substr2 dir.data.1 ≤ 63
    · cases hw : w with
      | error e0 =>
        exact ⟨e0, by simp [h1, h2, emit_or_throw, assert_is_reg, bind, Except.bind],
          herr e0 hw⟩
      | ok r =>
        have hr := hok r hw
        exact ⟨e1, by simp [h1, h2, emit_or_throw, assert_is_reg, hr, hchk1, bind, Except.bind],
          hchk2⟩
    · exact ⟨.invalid_argument 369 dir.original "Register number must be between 0 and 63.",
        by simp [h1, h2, emit_or_throw, bind, Except.bind], rfl⟩
  · exact ⟨.invalid_argument 547 dir.original ("Expected '" ++ dir.data.1 ++ "' to be a register."),
      by simp [h1, emit_or_throw, assert_is_reg, bind, Except.bind], rfl⟩

/-- C15: for a register-shift instruction (`rl`, `rr`, `sll`, `sra`, `srl`)
`get_shrot_num` accepts an operand that `tonumber` reads as `v` exactly when
0 <= v <= 63, with value `v`, and fails with `invalid_argument` for every
other number; an operand that is a name is never accepted: the instruction
fails with `invalid_argument` and leaves the context as it was. -/
theorem C15_shift_amount (M : metronome32) (dir : directive) (labels : label_addr_map)
    (c : context_data) (hm : dir.instr ∈ ["rl", "rr", "sll", "sra", "srl"]) :
    (∀ v : Int, tonumber dir.data.2 = (v, true) →
      (0 ≤ v ∧ v ≤ 63 → get_shrot_num dir dir.data.2 = .ok (v.toNat, true)) ∧
      (¬ (0 ≤ v ∧ v ≤ 63) →
        get_shrot_num dir dir.data.2 = .error (.invalid_argument 407 dir.original
          "Shift/rotate amount must be between 0 and 63.") ∧
        ∃ e, assemble_instruction M dir labels c = (c, some e) ∧
          e.is_invalid_argument = true)) ∧
    (regex_match_name dir.data.2 = true →
      get_shrot_num dir dir.data.2 = .ok (0, false) ∧
      ∃ e, assemble_instruction M dir labels c = (c, some e) ∧ e.is_invalid_argument = true) := by
  rw [r2_dispatch M dir labels c hm]
  have hchk : ∃ e, assert_is_shrot dir dir.data.2 false = .error e ∧
      e.is_invalid_argument = true := ⟨_, rfl, rfl⟩
  constructor
  · intro v hv
    have heq := get_shrot_num_eq dir dir.data.2
    rw [hv] at heq
    simp only [if_true] at heq
    constructor
    · intro hr
      rw [heq, if_pos hr]
    · intro hr
      rw [if_neg hr] at heq
      refine ⟨heq, ?_⟩
      exact second_operand_fails c dir _ _ _ (fun r h => by rw [heq] at h; cases h)
        (fun e h => by rw [heq] at h; cases h; rfl) hchk
  · intro hname
    have heq := get_shrot_num_eq dir dir.data.2
    rw [tonumber_name _ hname] at heq
    simp only [Bool.false_eq_true, if_false] at heq
    refine ⟨heq, ?_⟩
    exact second_operand_fails c dir _ _ _ (fun r h => by rw [heq] at h; cases h; rfl)
      (fun e h => by rw [heq] at h; cases h) hchk

/-- C15, witness: in `sll %r1, 64` and `sll %r1, -1` the amount is out of
range, in `sll %r1, 63` it is accepted, and in `sll %r1, count` it is a name. -/
theorem C15_shift_amount_witness :
    (get_shrot_num (line2 "sll" "%r1" "63") "63" = .ok (63, true) ∧
      get_shrot_num (line2 "sll" "%r1" "64") "64"
        = .error (.invalid_argument 407 "sll %r1, 64\n"
            "Shift/rotate amount must be between 0 and 63.") ∧
      get_shrot_num (line2 "sll" "%r1" "-1") "-1"
        = .error (.invalid_argument 407 "sll %r1, -1\n"
            "Shift/rotate amount must be between 0 and 63.") ∧
      assemble_instruction sample_encoders (line2 "sll" "%r1" "count") [("count", 3)] {}
        = ({}, some (.invalid_argument 560 "sll %r1, count\n"
            "Expected 'count' to be a shift/rotate amount."))) ∧
    (get_shrot_num (line2 "sll" "%r1" "count") "count" = .ok (0, false) ∧
      ∃ e, assemble_instruction sample_encoders (line2 "sll" "%r1" "count") [("count", 3)] {}
          = ({}, some e) ∧ e.is_invalid_argument = true) :=
  ⟨by decide,
   (C15_shift_amount sample_encoders (line2 "sll" "%r1" "count") [("count", 3)] {}
      (by decide)).2 (by decide)⟩

/-! ## Operands that are neither a number nor a label -/

theorem i_dispatch (M : metronome32) (dir : directive) (labels : label_addr_map)
    (c : context_data) (hm : dir.instr ∈ ["addi", "andi", "ori", "slti", "xori"]) :
    assemble_instruction M dir labels c = i_create_instr M dir labels c := by
  simp only [List.mem_cons, List.mem_singleton, List.not_mem_nil, or_false] at hm
  unfold assemble_instruction
  rcases hm with hm | hm | hm | hm | hm <;> rw [hm] <;> rfl

theorem b1_dispatch (M : metronome32) (dir : directive) (labels : label_addr_map)
    (c : context_data) (hm : dir.instr ∈ ["bgez", "bgtz", "blez", "bltz", "jal"]) :
    assemble_instruction M dir labels c = b1_create_instr M dir labels c := by
  simp only [List.mem_cons, List.mem_singleton, List.not_mem_nil, or_false] at hm
  unfold assemble_instruction
  rcases hm with hm | hm | hm | hm | hm <;> rw [hm] <;> rfl

theorem dw_dispatch (M : metronome32) (dir : directive) (labels : label_addr_map)
    (c : context_data) (hm : dir.instr = "dw") :
    assemble_instruction M dir labels c = pseudop_create_instr dir labels c := by
  unfold assemble_instruction
  rw [hm]
  rfl

theorem get_label_addr_unbound (dir : directive) (labels : label_addr_map) (op : String)
    (hlab : map_find labels op = none) (hhere : op ≠ "_HERE") :
    get_label_addr dir labels op = (0, false) := by
  simp [get_label_addr, hlab, hhere]

theorem pseudop_addrdelta_dw_error (dir : directive) (e : asm_error)
    (h : pseudop_addrdelta_dw dir = .error e) : e.is_invalid_argument = true := by
  unfold pseudop_addrdelta_dw at h
  simp only at h
  split_ifs at h <;> simp only [Except.error.injEq, reduceCtorEq] at h <;> rw [← h] <;> rfl

/-- C16: `tonumber` reports a text it cannot read by the flag, with the value
0, and raises nothing. For an operand that `tonumber` cannot read, that is
not bound in the label table and is not `_HERE` (the empty operand is one),
encoding fails with `invalid_argument` and leaves the context as it was: as
the immediate of a register-immediate instruction, as the offset of a
register-offset instruction, as the target of `j`, and as the value of `dw`. -/
theorem C16_unresolvable_operand (M : metronome32) (dir : directive) (labels : label_addr_map)
    (c : context_data) (op : String) (hnum : (tonumber op).2 = false)
    (hlab : map_find labels op = none) (hhere : op ≠ "_HERE") :
    tonumber op = (0, false) ∧
    (dir.instr ∈ ["addi", "andi", "ori", "slti", "xori"] → dir.data.2 = op →
      ∃ e, assemble_instruction M dir labels c = (c, some e) ∧ e.is_invalid_argument = true) ∧
    (dir.instr ∈ ["bgez", "bgtz", "blez", "bltz", "jal"] → dir.data.2 = op →
      ∃ e, assemble_instruction M dir labels c = (c, some e) ∧ e.is_invalid_argument = true) ∧
    (dir.instr = "j" → dir.data.1 = op →
      assemble_instruction M dir labels c = (c, some (.invalid_argument 599 dir.original
        ("Expected '" ++ op ++ "' to be a target or label.")))) ∧
    (dir.instr = "dw" → dir.data.1 = op →
      ∃ e, assemble_instruction M dir labels c = (c, some e) ∧ e.is_invalid_argument = true) := by
  have htn : tonumber op = (0, false) := by
    unfold tonumber at hnum ⊢
    cases hs : stoll op with
    | none => rfl
    | some v => simp [hs] at hnum
  have hla := get_label_addr_unbound dir labels op hlab hhere
  refine ⟨htn, ?_, ?_, ?_, ?_⟩
  · intro hm hop
    rw [i_dispatch M dir labels c hm]
    have hw : get_imm_num dir labels dir.data.2 = .ok (0, false) := by
      rw [hop]
      simp [get_imm_num, htn, hla]
    exact second_operand_fails c dir _ (assert_is_imm dir dir.data.2) _
      (fun r h => by rw [hw] at h; cases h; rfl)
      (fun e h => by rw [hw] at h; cases h) ⟨_, rfl, rfl⟩
  · intro hm hop
    rw [b1_dispatch M dir labels c hm]
    have hw : get_offset_num dir labels dir.data.2 = .ok (0, false) := by
      rw [hop]
      simp [get_offset_num, htn, hla]
    exact second_operand_fails c dir _ (assert_is_offset dir dir.data.2) _
      (fun r h => by rw [hw] at h; cases h; rfl)
      (fun e h => by rw [hw] at h; cases h) ⟨_, rfl, rfl⟩
  · intro hm hop
    have hw : get_tar_num dir labels op = .ok (0, false) := by
      simp [get_tar_num, htn, hla]
    have hlen : ¬ "j".length = 0 := by decide
    unfold assemble_instruction
    rw [hm, hop]
    simp [map_find, r1_new_instr, r2_new_instr, i_new_instr, b1_new_instr, valid_pseudops,
      hw, emit_or_throw, assert_is_tar, bind, Except.bind, hlen]
  · intro hm hop
    rw [dw_dispatch M dir labels c hm]
    have hw : get_dw_num dir labels dir.data.1 = (0, false) := by
      rw [hop]
      simp [get_dw_num, htn, hla]
    cases hd : pseudop_addrdelta_dw dir with
    | error e =>
      exact ⟨e, by simp [pseudop_create_instr, hm, hd], pseudop_addrdelta_dw_error dir e hd⟩
    | ok n =>
      exact ⟨.invalid_argument 749 dir.original "Argument one is not a label or number.",
        by simp [pseudop_create_instr, hm, hd, hw], rfl⟩

/-- C16, witness: the operand `nowhere` is no number and is not bound in a
table that binds only `loop`; the operand of `j` without operand is empty. -/
theorem C16_unresolvable_operand_witness :
    (assemble_instruction sample_encoders (line2 "addi" "%r1" "nowhere") [("loop", 4)] {}
        = ({}, some (.invalid_argument 573 "addi %r1, nowhere\n"
            "Expected 'nowhere' to be an immediate or label.")) ∧
      assemble_instruction sample_encoders (line2 "bgez" "%r1" "nowhere") [("loop", 4)] {}
        = ({}, some (.invalid_argument 586 "bgez %r1, nowhere\n"
            "Expected 'nowhere' to be an offset or label.")) ∧
      assemble_instruction sample_encoders { original := "j\n", instr := "j" } [("loop", 4)] {}
        = ({}, some (.invalid_argument 599 "j\n" "Expected '' to be a target or label.")) ∧
      assemble_instruction sample_encoders (line1 "dw" "nowhere") [("loop", 4)] {}
        = ({}, some (.invalid_argument 749 "dw nowhere\n"
            "Argument one is not a label or number."))) ∧
    tonumber "nowhere" = (0, false) ∧
    ∃ e, assemble_instruction sample_encoders (line2 "addi" "%r1" "nowhere") [("loop", 4)] {}
        = ({}, some e) ∧ e.is_invalid_argument = true :=
  ⟨by decide,
   (C16_unresolvable_operand sample_encoders (line2 "addi" "%r1" "nowhere") [("loop", 4)] {}
      "nowhere" (by decide) (by decide) (by decide)).1,
   (C16_unresolvable_operand sample_encoders (line2 "addi" "%r1" "nowhere") [("loop", 4)] {}
      "nowhere" (by decide) (by decide) (by decide)).2.1 (by decide) (by decide)⟩

/-! ## The effect of a real instruction -/

theorem map_find_filter_ne {V : Type} (m : List (Nat × V)) (k a : Nat) (h : k ≠ a) :
    map_find (m.filter (fun p => decide (p.1 ≠ k))) a = map_find m a := by
  induction m with
  | nil => rfl
  | cons p m ih =>
    obtain ⟨k1, v1⟩ := p
    by_cases h1 : k1 = k
    · have h2 : k1 ≠ a := by rw [h1]; exact h
      rw [List.filter_cons_of_neg (by simp [h1]), ih]
      simp only [map_find, h2, if_false]
    · rw [List.filter_cons_of_pos (by simp [h1])]
      by_cases h2 : k1 = a
      · simp only [map_find, h2, if_true]
      · simp only [map_find, h2, if_false, ih]

theorem map_find_assign {V : Type} (m : List (Nat × V)) (k a : Nat) (v : V) :
    map_find (map_assign m k v) a = if k = a then some v else map_find m a := by
  unfold map_assign
  by_cases h : k = a
  · simp [map_find, h]
  · simp only [map_find, h, if_false]
    exact map_find_filter_ne m k a h

theorem table_at_ok (table : List (String × (Nat → Nat → Nat))) (key : String) (a b word : Nat)
    (h : table_at table key a b = .ok word) :
    ∃ f, map_find table key = some f ∧ word = f a b := by
  unfold table_at at h
  cases hf : map_find table key with
  | none => simp [hf] at h
  | some f =>
    simp only [hf, Except.ok.injEq] at h
    exact ⟨f, rfl, h.symm⟩

theorem get_register_num_flag (dir : directive) (str : String) (r : Nat × Bool)
    (h : get_register_num dir str = .ok r) (hr : r.2 = true) :
    get_register_num dir str = .ok (r.1, true) := by
  rw [h, ← hr]

theorem two_operand_ok (dir : directive) (w : Except asm_error (Nat × Bool))
    (chk : Bool → Except asm_error Unit) (k : Nat → Nat → Except asm_error Nat) (word : Nat)
    (hchk : chk false ≠ .ok ())
    (h : (do
      let reg ← get_register_num dir dir.data.1
      assert_is_reg dir dir.data.1 reg.2
      let x ← w
      chk x.2
      k reg.1 x.1) = .ok word) :
    ∃ a b, get_register_num dir dir.data.1 = .ok (a, true) ∧ w = .ok (b, true) ∧
      k a b = .ok word := by
  cases hreg : get_register_num dir dir.data.1 with
  | error e => simp [hreg, bind, Except.bind] at h
  | ok reg =>
    obtain ⟨a, fa⟩ := reg
    cases fa with
    | false => simp [hreg, bind, Except.bind, assert_is_reg] at h
    | true =>
      cases hw : w with
      | error e => simp [hreg, hw, bind, Except.bind, assert_is_reg] at h
      | ok x =>
        obtain ⟨b, fb⟩ := x
        cases fb with
        | false =>
          simp only [hreg, hw, bind, Except.bind, assert_is_reg] at h
          cases hc : chk false with
          | error e => simp [hc] at h
          | ok u => exact absurd hc hchk
        | true =>
          simp only [hreg, hw, bind, Except.bind, assert_is_reg] at h
          cases hc : chk true with
          | error e => simp [hc] at h
          | ok u =>
            simp [hc] at h
            exact ⟨a, b, rfl, rfl, h⟩

theorem emit_or_throw_ok (c c1 : context_data) (w : Except asm_error Nat)
    (h : emit_or_throw c w = (c1, none)) : ∃ word, w = .ok word ∧ c1 = emit_word c word := by
  unfold emit_or_throw at h
  cases w with
  | error e => simp at h
  | ok word =>
    simp only [Prod.mk.injEq, and_true] at h
    exact ⟨word, rfl, h.symm⟩
theorem emit_word_effect (c : context_data) (word : Nat) :
    (emit_word c word).sys_mem = map_assign c.sys_mem c.counter word ∧
    map_find (emit_word c word).sys_mem c.counter = some word ∧
    (∀ a, a ≠ c.counter → map_find (emit_word c word).sys_mem a = map_find c.sys_mem a) ∧
    (emit_word c word).counter = (c.counter + 1) % 2 ^ 32 := by
  refine ⟨rfl, ?_, ?_, rfl⟩
  · simp [emit_word, map_find_assign]
  · intro a ha
    simp only [emit_word, map_find_assign]
    rw [if_neg (fun h => ha h.symm)]

/-- C17, counterexample: in `counter_wrap_program` the instruction `cf` is
encoded with the emission counter at 4294967295; after it the counter is 0,
which is not 4294967295 + 1. -/
theorem C17_counter_wraps :
    resolve_labels (lowercase_instr_names counter_wrap_program)
      = ([{ line1 "resw" "4294967295" with address := 0 },
          { original := "cf\n", instr := "cf", address := 4294967295 }], .ok []) ∧
    assemble_loop sample_encoders [] [{ line1 "resw" "4294967295" with address := 0 }]
        { sys_mem := [], counter := 0 }
      = ({ sys_mem := [], counter := 4294967295 }, none) ∧
    assemble_instruction sample_encoders
        { original := "cf\n", instr := "cf", address := 4294967295 } []
        { sys_mem := [], counter := 4294967295 }
      = ({ sys_mem := [(4294967295, sample_encoders.new_cf)], counter := 0 }, none) ∧
    (0 : Nat) ≠ 4294967295 + 1 := by
  decide

/-- C17, amended: when a directive with a mnemonic of `valid_realops` is
encoded successfully, the cell at the emission counter is set to the word that
the encoding function of the mnemonic (the entry of its table, `new_cf` or
`new_j`) returns for the validated operand values, no other cell changes, and
the emission counter increases by 1 modulo 2^32. -/
theorem C17_real_instruction_effect (M : metronome32) (dir : directive)
    (labels : label_addr_map) (c c1 : context_data) (hreal : dir.instr ∈ valid_realops)
    (h : assemble_instruction M dir labels c = (c1, none)) :
    ∃ word : Nat,
      ((∃ f a b, map_find (r1_new_instr M) dir.instr = some f ∧
          get_register_num dir dir.data.1 = .ok (a, true) ∧
          get_register_num dir dir.data.2 = .ok (b, true) ∧ a ≠ b ∧ word = f a b) ∨
        (∃ f a b, map_find (r2_new_instr M) dir.instr = some f ∧
          get_register_num dir dir.data.1 = .ok (a, true) ∧
          get_shrot_num dir dir.data.2 = .ok (b, true) ∧ word = f a b) ∨
        (∃ f a b, map_find (i_new_instr M) dir.instr = some f ∧
          get_register_num dir dir.data.1 = .ok (a, true) ∧
          get_imm_num dir labels dir.data.2 = .ok (b, true) ∧ word = f a b) ∨
        (∃ f a b, map_find (b1_new_instr M) dir.instr = some f ∧
          get_register_num dir dir.data.1 = .ok (a, true) ∧
          get_offset_num dir labels dir.data.2 = .ok (b, true) ∧ word = f a b) ∨
        (dir.instr = "cf" ∧ word = M.new_cf) ∨
        (dir.instr = "j" ∧ ∃ t, get_tar_num dir labels dir.data.1 = .ok (t, true) ∧
          word = M.new_j t)) ∧
      c1.sys_mem = map_assign c.sys_mem c.counter word ∧
      map_find c1.sys_mem c.counter = some word ∧
      (∀ a, a ≠ c.counter → map_find c1.sys_mem a = map_find c.sys_mem a) ∧
      c1.counter = (c.counter + 1) % 2 ^ 32 := by
  unfold assemble_instruction at h
  split_ifs at h with h0 h1 h2 h3 h4 h5 h6 h7
  · exfalso
    rw [string_length_zero _ h0] at hreal
    revert hreal
    decide
  · obtain ⟨word, hw, hc1⟩ := emit_or_throw_ok c c1 _ h
    obtain ⟨a, b, ha, hb, hk⟩ := two_operand_ok dir (get_register_num dir dir.data.2)
      (assert_is_reg dir dir.data.2)
      (fun a b => do
        assert_regs_unequal dir a b
        table_at (r1_new_instr M) dir.instr a b) word (by simp [assert_is_reg]) hw
    by_cases hab : a = b
    · simp [assert_regs_unequal, hab, bind, Except.bind] at hk
    · simp only [assert_regs_unequal, hab, if_false, bind, Except.bind] at hk
      obtain ⟨f, hf, hword⟩ := table_at_ok _ _ _ _ _ hk
      subst hc1
      exact ⟨word, Or.inl ⟨f, a, b, hf, ha, hb, hab, hword⟩, emit_word_effect c word⟩
  · obtain ⟨word, hw, hc1⟩ := emit_or_throw_ok c c1 _ h
    obtain ⟨a, b, ha, hb, hk⟩ := two_operand_ok dir (get_shrot_num dir dir.data.2)
      (assert_is_shrot dir dir.data.2) (table_at (r2_new_instr M) dir.instr) word
      (by simp [assert_is_shrot]) hw
    obtain ⟨f, hf, hword⟩ := table_at_ok _ _ _ _ _ hk
    subst hc1
    exact ⟨word, Or.inr (Or.inl ⟨f, a, b, hf, ha, hb, hword⟩), emit_word_effect c word⟩
  · obtain ⟨word, hw, hc1⟩ := emit_or_throw_ok c c1 _ h
    obtain ⟨a, b, ha, hb, hk⟩ := two_operand_ok dir (get_imm_num dir labels dir.data.2)
      (assert_is_imm dir dir.data.2) (table_at (i_new_instr M) dir.instr) word
      (by simp [assert_is_imm]) hw
    obtain ⟨f, hf, hword⟩ := table_at_ok _ _ _ _ _ hk
    subst hc1
    exact ⟨word, Or.inr (Or.inr (Or.inl ⟨f, a, b, hf, ha, hb, hword⟩)),
      emit_word_effect c word⟩
  · obtain ⟨word, hw, hc1⟩ := emit_or_throw_ok c c1 _ h
    obtain ⟨a, b, ha, hb, hk⟩ := two_operand_ok dir (get_offset_num dir labels dir.data.2)
      (assert_is_offset dir dir.data.2) (table_at (b1_new_instr M) dir.instr) word
      (by simp [assert_is_offset]) hw
    obtain ⟨f, hf, hword⟩ := table_at_ok _ _ _ _ _ hk
    subst hc1
    exact ⟨word, Or.inr (Or.inr (Or.inr (Or.inl ⟨f, a, b, hf, ha, hb, hword⟩))),
      emit_word_effect c word⟩
  · exfalso
    obtain ⟨_, n1, n2, n3, n4, n5, n6⟩ := valid_realops_not_pseudo _ hreal
    simp only [valid_pseudops, List.mem_cons, List.mem_singleton, List.not_mem_nil,
      or_false] at h5
    rcases h5 with h5 | h5 | h5 | h5 | h5 | h5
    · exact n1 h5
    · exact n3 h5
    · exact n5 h5
    · exact n2 h5
    · exact n4 h5
    · exact n6 h5
  · simp only [Prod.mk.injEq, and_true] at h
    subst h
    exact ⟨M.new_cf, Or.inr (Or.inr (Or.inr (Or.inr (Or.inl ⟨h6, rfl⟩)))),
      emit_word_effect c M.new_cf⟩
  · obtain ⟨word, hw, hc1⟩ := emit_or_throw_ok c c1 _ h
    subst hc1
    refine ⟨word, Or.inr (Or.inr (Or.inr (Or.inr (Or.inr ⟨h7, ?_⟩)))), emit_word_effect c word⟩
    cases ht : get_tar_num dir labels dir.data.1 with
    | error e => simp [ht, bind, Except.bind] at hw
    | ok t =>
      obtain ⟨tv, tf⟩ := t
      cases tf with
      | false => simp [ht, bind, Except.bind, assert_is_tar] at hw
      | true =>
        simp [ht, bind, Except.bind, assert_is_tar, pure, Except.pure] at hw
        exact ⟨tv, rfl, hw.symm⟩
  · simp at h

/-- C17, witness: `addi %r3, 5` encoded at emission counter 7 writes the word
`new_addi 3 5` into cell 7 and moves the counter to 8. -/
theorem C17_real_instruction_effect_witness :
    assemble_instruction sample_encoders (line2 "addi" "%r3" "5") []
        { sys_mem := [(6, 33)], counter := 7 }
      = ({ sys_mem := [(7, sample_encoders.new_addi 3 5), (6, 33)], counter := 8 }, none) ∧
    ∃ word : Nat,
      ((∃ f a b, map_find (r1_new_instr sample_encoders) "addi" = some f ∧
          get_register_num (line2 "addi" "%r3" "5") "%r3" = .ok (a, true) ∧
          get_register_num (line2 "addi" "%r3" "5") "5" = .ok (b, true) ∧ a ≠ b ∧
          word = f a b) ∨
        (∃ f a b, map_find (r2_new_instr sample_encoders) "addi" = some f ∧
          get_register_num (line2 "addi" "%r3" "5") "%r3" = .ok (a, true) ∧
          get_shrot_num (line2 "addi" "%r3" "5") "5" = .ok (b, true) ∧ word = f a b) ∨
        (∃ f a b, map_find (i_new_instr sample_encoders) "addi" = some f ∧
          get_register_num (line2 "addi" "%r3" "5") "%r3" = .ok (a, true) ∧
          get_imm_num (line2 "addi" "%r3" "5") [] "5" = .ok (b, true) ∧ word = f a b) ∨
        (∃ f a b, map_find (b1_new_instr sample_encoders) "addi" = some f ∧
          get_register_num (line2 "addi" "%r3" "5") "%r3" = .ok (a, true) ∧
          get_offset_num (line2 "addi" "%r3" "5") [] "5" = .ok (b, true) ∧ word = f a b) ∨
        ("addi" = "cf" ∧ word = sample_encoders.new_cf) ∨
        ("addi" = "j" ∧ ∃ t, get_tar_num (line2 "addi" "%r3" "5") [] "%r3" = .ok (t, true) ∧
          word = sample_encoders.new_j t)) ∧
      ({ sys_mem := [(7, sample_encoders.new_addi 3 5), (6, 33)], counter := 8 }
          : context_data).sys_mem = map_assign [(6, 33)] 7 word ∧
      map_find [(7, sample_encoders.new_addi 3 5), (6, 33)] 7 = some word ∧
      (∀ a, a ≠ 7 → map_find [(7, sample_encoders.new_addi 3 5), (6, 33)] a
        = map_find [(6, 33)] a) ∧
      (8 : Nat) = (7 + 1) % 2 ^ 32 :=
  ⟨by decide,
   C17_real_instruction_effect sample_encoders (line2 "addi" "%r3" "5") []
     { sys_mem := [(6, 33)], counter := 7 }
     { sys_mem := [(7, sample_encoders.new_addi 3 5), (6, 33)], counter := 8 }
     (by decide) (by decide)⟩

/-! ## The reserve pseudo-ops -/

theorem reserve_dispatch (M : metronome32) (dir : directive) (labels : label_addr_map)
    (c : context_data) (hm : dir.instr ∈ ["resw", "ress", "ressz"]) :
    assemble_instruction M dir labels c = pseudop_create_instr dir labels c := by
  simp only [List.mem_cons, List.mem_singleton, List.not_mem_nil, or_false] at hm
  unfold assemble_instruction
  rcases hm with hm | hm | hm <;> rw [hm] <;> rfl

/-- C18, counterexample: `resw 4294967296` is encoded at emission counter 0
and leaves the counter at 0, so the counter does not advance by 4294967296;
the resolver gives the directive after it the address 0 as well. -/
theorem C18_reserve_wraps :
    tonumber "4294967296" = (4294967296, true) ∧
    assemble_instruction sample_encoders (line1 "resw" "4294967296") []
        { sys_mem := [], counter := 0 }
      = ({ sys_mem := [], counter := 0 }, none) ∧
    (0 : Nat) ≠ 0 + 4294967296 ∧
    resolve_labels (lowercase_instr_names reserve_wrap_program)
      = ([{ line1 "resw" "4294967296" with address := 0 },
          { original := "cf\n", instr := "cf", address := 0 }], .ok []) := by
  decide

/-- C18, amended: encoding `resw`, `ress` or `ressz` leaves the memory map
unchanged, whether it succeeds or fails; `resw N` with an operand that
`tonumber` reads as a non-negative `N` advances the emission counter by `N`
modulo 2^32, which is by exactly `N` when the counter plus `N` stays below
2^32, and `resw` without operand advances it by 1 modulo 2^32. -/
theorem C18_reserve_effect (M : metronome32) (dir : directive) (labels : label_addr_map)
    (c : context_data) (hm : dir.instr ∈ ["resw", "ress", "ressz"]) :
    (assemble_instruction M dir labels c).1.sys_mem = c.sys_mem ∧
    (dir.instr = "resw" → ∀ N : Int, tonumber dir.data.1 = (N, true) → 0 ≤ N →
      assemble_instruction M dir labels c
        = ({ c with counter := (c.counter + N.toNat) % 2 ^ 32 }, none) ∧
      (c.counter + N.toNat < 2 ^ 32 →
        (assemble_instruction M dir labels c).1.counter = c.counter + N.toNat)) ∧
    (dir.instr = "resw" → dir.data.1 = "" →
      assemble_instruction M dir labels c
        = ({ c with counter := (c.counter + 1) % 2 ^ 32 }, none)) := by
  rw [reserve_dispatch M dir labels c hm]
  refine ⟨?_, ?_, ?_⟩
  · simp only [List.mem_cons, List.mem_singleton, List.not_mem_nil, or_false] at hm
    rcases hm with hm | hm | hm
    · cases hd : pseudop_addrdelta_resw dir <;> simp [pseudop_create_instr, hm, hd]
    · cases hd : pseudop_addrdelta_s dir <;> simp [pseudop_create_instr, hm, hd]
    · cases hd : pseudop_addrdelta_sz dir <;> simp [pseudop_create_instr, hm, hd]
  · intro hi N hN h0
    have hne : dir.data.1 ≠ "" := by
      intro he
      rw [he] at hN
      have h1 : (tonumber "").2 = false := by decide
      rw [hN] at h1
      cases h1
    have hd : pseudop_addrdelta_resw dir = .ok N := by
      have hlt : ¬ N < 0 := by omega
      simp [pseudop_addrdelta_resw, hN, hne, hlt]
    have hu : u32_of_int ((c.counter : Int) + N) = (c.counter + N.toNat) % 2 ^ 32 := by
      unfold u32_of_int
      omega
    have heq : pseudop_create_instr dir labels c
        = ({ c with counter := (c.counter + N.toNat) % 2 ^ 32 }, none) := by
      simp [pseudop_create_instr, hi, hd, hu]
    refine ⟨heq, ?_⟩
    intro hlt
    rw [heq]
    exact Nat.mod_eq_of_lt hlt
  · intro hi he
    have hd : pseudop_addrdelta_resw dir = .ok 1 := by
      simp [pseudop_addrdelta_resw, he]
    have hu : u32_of_int ((c.counter : Int) + 1) = (c.counter + 1) % 2 ^ 32 := by
      unfold u32_of_int
      omega
    simp [pseudop_create_instr, hi, hd, hu]

/-- C18, witness: `resw 3` at emission counter 5 leaves the memory map as it
is and moves the counter to 8; `resw` without operand moves it to 6. -/
theorem C18_reserve_effect_witness :
    (assemble_instruction sample_encoders (line1 "resw" "3") []
        { sys_mem := [(4, 33)], counter := 5 }
        = ({ sys_mem := [(4, 33)], counter := 8 }, none) ∧
      assemble_instruction sample_encoders { original := "resw\n", instr := "resw" } []
        { sys_mem := [(4, 33)], counter := 5 }
        = ({ sys_mem := [(4, 33)], counter := 6 }, none)) ∧
    (assemble_instruction sample_encoders (line1 "resw" "3") []
        { sys_mem := [(4, 33)], counter := 5 }
        = ({ sys_mem := [(4, 33)], counter := (5 + (3 : Int).toNat) % 2 ^ 32 }, none) ∧
      (5 + (3 : Int).toNat < 2 ^ 32 →
        (assemble_instruction sample_encoders (line1 "resw" "3") []
          { sys_mem := [(4, 33)], counter := 5 }).1.counter = 5 + (3 : Int).toNat)) :=
  ⟨by decide,
   (C18_reserve_effect sample_encoders (line1 "resw" "3") []
      { sys_mem := [(4, 33)], counter := 5 } (by decide)).2.1 (by decide) 3 (by decide)
      (by decide)⟩

/-! ## The cells that the define pseudo-ops write -/

theorem map_find_insert_cell (m : List (Nat × Nat)) (k a v : Nat) :
    map_find (map_insert m k v) a = (map_find m a).or (if k = a then some v else none) := by
  unfold map_insert
  cases hk : map_find m k with
  | none =>
    simp only
    induction m with
    | nil => simp [map_find]
    | cons p m ih =>
      obtain ⟨k1, v1⟩ := p
      by_cases h1 : k1 = k
      · simp [map_find, h1] at hk
      · simp only [map_find, h1, if_false] at hk
        by_cases h2 : k1 = a
        · simp [map_find, h2]
        · simp only [List.cons_append, map_find, h2, if_false]
          exact ih hk
  | some x =>
    simp only
    cases ha : map_find m a with
    | some y => rfl
    | none =>
      have : k ≠ a := by
        intro h
        rw [h, ha] at hk
        cases hk
      simp [this]

theorem dw_fill_find (val : Nat) (n : Nat) :
    ∀ (mem : List (Nat × Nat)) (start a : Nat),
      map_find (dw_fill val n mem start) a =
        (map_find mem a).or (if start ≤ a ∧ a < start + n then some val else none) := by
  induction n with
  | zero =>
    intro mem start a
    have : ¬ (start ≤ a ∧ a < start + 0) := by omega
    rw [if_neg this, Option.or_none]
    rfl
  | succ n ih =>
    intro mem start a
    simp only [dw_fill]
    rw [ih, map_find_insert_cell]
    cases hm : map_find mem a with
    | some x => rfl
    | none =>
      simp only [Option.none_or]
      by_cases h1 : start = a
      · have h2 : start ≤ a ∧ a < start + (n + 1) := by omega
        simp [h1, h2]
      · simp only [h1, if_false, Option.none_or]
        by_cases h2 : start + 1 ≤ a ∧ a < start + 1 + n
        · have h3 : start ≤ a ∧ a < start + (n + 1) := by omega
          simp [h2, h3]
        · have h3 : ¬ (start ≤ a ∧ a < start + (n + 1)) := by omega
          simp [h2, h3]

theorem ds_copy_find (start : Nat) (cs : List Char) :
    ∀ (si : Nat) (mem : List (Nat × Nat)) (a : Nat), start + si + cs.length ≤ 2 ^ 32 →
      map_find (ds_copy start cs si mem) a =
        (map_find mem a).or
          (if start + si ≤ a ∧ a < start + si + cs.length then
            (cs[a - (start + si)]?).map Char.toNat
          else none) := by
  induction cs with
  | nil =>
    intro si mem a _
    have : ¬ (start + si ≤ a ∧ a < start + si + 0) := by omega
    simp [ds_copy, this]
  | cons c cs ih =>
    intro si mem a hle
    simp only [List.length_cons] at hle
    have hmod : (start + si) % word_mod = start + si :=
      Nat.mod_eq_of_lt (by simp only [word_mod]; omega)
    simp only [ds_copy, hmod]
    rw [ih (si + 1) _ a (by omega), map_find_insert_cell]
    cases hm : map_find mem a with
    | some x => rfl
    | none =>
      simp only [Option.none_or, List.length_cons]
      by_cases h1 : start + si = a
      · have h2 : start + si ≤ a ∧ a < start + si + (cs.length + 1) := by omega
        have h3 : a - (start + si) = 0 := by omega
        simp [h1, h2]
      · simp only [h1, if_false, Option.none_or]
        by_cases h2 : start + (si + 1) ≤ a ∧ a < start + (si + 1) + cs.length
        · have h3 : start + si ≤ a ∧ a < start + si + (cs.length + 1) := by omega
          have h4 : a - (start + si) = (a - (start + (si + 1))) + 1 := by omega
          rw [if_pos h2, if_pos h3, h4, List.getElem?_cons_succ]
        · have h3 : ¬ (start + si ≤ a ∧ a < start + si + (cs.length + 1)) := by omega
          rw [if_neg h2, if_neg h3]

theorem ds_fill_find (str : List Char) (times : Nat) :
    ∀ (mem : List (Nat × Nat)) (start a : Nat), start + times * str.length < 2 ^ 32 →
      map_find (ds_fill str times mem start).1 a
        = (map_find mem a).or (ds_cell str start times a) := by
  induction times with
  | zero =>
    intro mem start a _
    have : ¬ (start ≤ a ∧ a < start + 0 * str.length) := by omega
    rw [ds_cell, if_neg this, Option.or_none]
    rfl
  | succ n ih =>
    intro mem start a hlt
    rw [Nat.succ_mul] at hlt
    have hmod : (start + str.length) % word_mod = start + str.length :=
      Nat.mod_eq_of_lt (by simp only [word_mod]; omega)
    simp only [ds_fill, hmod]
    rw [ih _ _ a (by omega), ds_copy_find start str 0 mem a (by omega)]
    cases hm : map_find mem a with
    | some x => rfl
    | none =>
      simp only [Option.none_or, Nat.add_zero, ds_cell, Nat.succ_mul]
      by_cases h1 : start ≤ a ∧ a < start + str.length
      · have h2 : start ≤ a ∧ a < start + (n * str.length + str.length) := by omega
        have h3 : a - start < str.length := by omega
        rw [if_pos h1, if_pos h2, Nat.mod_eq_of_lt h3, List.getElem?_eq_getElem h3]
        rfl
      · rw [if_neg h1, Option.none_or]
        by_cases h2 : start + str.length ≤ a ∧ a < start + str.length + n * str.length
        · have h3 : start ≤ a ∧ a < start + (n * str.length + str.length) := by omega
          have h4 : a - start = (a - (start + str.length)) + str.length := by omega
          rw [if_pos h2, if_pos h3, h4, Nat.add_mod_right]
        · have h3 : ¬ (start ≤ a ∧ a < start + (n * str.length + str.length)) := by omega
          rw [if_neg h2, if_neg h3]
theorem resolve_advance_of_size (d : directive) (cur : Nat) (n : Int)
    (hs : directive_size d = some n) (hcur : cur < 2 ^ 32) :
    resolve_advance d cur = .ok (u32_of_int ((cur : Int) + n)) := by
  have hu : u32_of_int ((cur : Int) + 0) = cur := by
    unfold u32_of_int
    omega
  have hu1 : u32_of_int ((cur : Int) + 1) = (cur + 1) % word_mod := by
    unfold u32_of_int
    simp only [word_mod]
    omega
  unfold directive_size at hs
  unfold resolve_advance
  split_ifs at hs ⊢ with h0 h1 h2 h3 h4 h5
  · simp only [Option.some.injEq] at hs
    rw [← hs, hu]
  · cases hd : pseudop_addrdelta_resw d with
    | error e => simp [hd] at hs
    | ok m => simp [hd] at hs; rw [hs]
  · cases hd : pseudop_addrdelta_dw d with
    | error e => simp [hd] at hs
    | ok m => simp [hd] at hs; rw [hs]
  · cases hd : pseudop_addrdelta_s d with
    | error e => simp [hd] at hs
    | ok m => simp [hd] at hs; rw [hs]
  · cases hd : pseudop_addrdelta_sz d with
    | error e => simp [hd] at hs
    | ok m => simp [hd] at hs; rw [hs]
  · simp only [Option.some.injEq] at hs
    rw [← hs, hu1]

theorem dw_effect (d : directive) (labels : label_addr_map) (c c1 : context_data)
    (hi : d.instr = "dw") (henc : pseudop_create_instr d labels c = (c1, none)) :
    ∃ delta, pseudop_addrdelta_dw d = .ok delta ∧
      (get_dw_num d labels d.data.1).2 = true ∧
      c1.sys_mem = dw_fill ((get_dw_num d labels d.data.1).1 % word_mod)
        (u32_of_int ((c.counter : Int) + delta) - c.counter) c.sys_mem c.counter ∧
      c1.counter = u32_of_int ((c.counter : Int) + delta) := by
  cases hd : pseudop_addrdelta_dw d with
  | error e => simp [pseudop_create_instr, hi, hd] at henc
  | ok delta =>
    simp only [pseudop_create_instr, hi, hd, if_true] at henc
    split_ifs at henc with hv
    · simp only [Prod.mk.injEq, and_true] at henc
      refine ⟨delta, rfl, ?_, ?_, ?_⟩
      · simpa using hv
      · rw [← henc]
      · rw [← henc]
    · simp at henc

theorem ds_effect (d : directive) (labels : label_addr_map) (c c1 : context_data)
    (hi : d.instr = "ds") (henc : pseudop_create_instr d labels c = (c1, none)) :
    ∃ str times, ds_times d = .ok (str, times) ∧
      c1.sys_mem = (ds_fill str times c.sys_mem c.counter).1 ∧
      c1.counter = (ds_fill str times c.sys_mem c.counter).2 := by
  cases ht : ds_times d with
  | error e => simp [pseudop_create_instr, hi, ht] at henc
  | ok p =>
    obtain ⟨str, times⟩ := p
    simp [pseudop_create_instr, hi, ht] at henc
    exact ⟨str, times, rfl, by rw [← henc], by rw [← henc]⟩

theorem dsz_effect (d : directive) (labels : label_addr_map) (c c1 : context_data)
    (hi : d.instr = "dsz") (henc : pseudop_create_instr d labels c = (c1, none)) :
    ∃ str times, ds_times d = .ok (str, times) ∧
      c1.sys_mem = map_insert (ds_fill str times c.sys_mem c.counter).1
        (ds_fill str times c.sys_mem c.counter).2 0 ∧
      c1.counter = ((ds_fill str times c.sys_mem c.counter).2 + 1) % word_mod := by
  cases ht : ds_times d with
  | error e => simp [pseudop_create_instr, hi, ht] at henc
  | ok p =>
    obtain ⟨str, times⟩ := p
    simp [pseudop_create_instr, hi, ht] at henc
    exact ⟨str, times, rfl, by rw [← henc], by rw [← henc]⟩

theorem ds_times_str (d : directive) (str : List Char) (times : Nat)
    (h : ds_times d = .ok (str, times)) :
    str = ((unescape_chars d.data.1).data.drop 1).take ((unescape_chars d.data.1).length - 2) := by
  unfold ds_times at h
  simp only at h
  by_cases h0 : (unescape_chars d.data.1).length < 1
  · simp [h0] at h
  · cases hn : pseudop_addrdelta_s d with
    | error e => simp [h0, hn] at h
    | ok n =>
      simp only [h0, hn, if_false] at h
      split_ifs at h with h1
      simp only [Except.ok.injEq, Prod.mk.injEq] at h
      exact h.1.symm

theorem pseudop_addrdelta_s_count (d : directive) (n : Int) (h : pseudop_addrdelta_s d = .ok n)
    (h2 : d.data.2 ≠ "") : (tonumber d.data.2).2 = true ∧ 0 ≤ (tonumber d.data.2).1 := by
  unfold pseudop_addrdelta_s at h
  simp only at h
  by_cases c0 : regex_match_str d.data.1 = true
  · by_cases c2 : (tonumber d.data.2).2 = true
    · by_cases c3 : (tonumber d.data.2).1 < 0
      · simp [c0, h2, c2, c3] at h
      · exact ⟨c2, by omega⟩
    · simp [c0, h2, c2] at h
  · simp [c0] at h

theorem ds_times_exact (d : directive) (str : List Char) (times : Nat) (n : Nat)
    (hinstr : d.instr = "ds" ∨ d.instr = "dsz") (hnw : ds_no_wrap d)
    (ht : ds_times d = .ok (str, times)) (hn : pseudop_addrdelta_s d = .ok (n : Int))
    (hlt : n < 2 ^ 32) :
    times * str.length = n ∧ str.length ≠ 0 ∧
      str = ((unescape_chars d.data.1).data.drop 1).take ((unescape_chars d.data.1).length - 2) ∧
      (d.data.2 = "" → times = 1) ∧
      (d.data.2 ≠ "" → tonumber d.data.2 = ((times : Int), true)) := by
  obtain ⟨n1, hn1, hlen0, hlen, htimes⟩ := ds_times_ok d str times ht
  rw [hn] at hn1
  simp only [Except.ok.injEq] at hn1
  subst hn1
  have hun : u64_of_ll (n : Int) = n := u64_of_ll_small n (by omega)
  rw [hun] at htimes
  have hstr := ds_times_str d str times ht
  obtain ⟨hsize, hprod⟩ := hnw hinstr
  rcases pseudop_addrdelta_s_ok d n hn with ⟨h2, hval⟩ | ⟨h2, hval⟩
  · rw [← hlen] at hval
    have hs : str.length < 2 ^ 64 := by omega
    have hnl : n = str.length := by
      have := congrArg u64_of_ll hval
      rw [hun, u64_of_ll_of_u64, Nat.mod_eq_of_lt hs] at this
      exact this
    have ht1 : times = 1 := by
      rw [htimes, hnl, Nat.div_self (Nat.pos_of_ne_zero hlen0)]
      norm_num
    refine ⟨by rw [ht1, hnl]; omega, hlen0, hstr, fun _ => ht1, fun h => absurd h2 h⟩
  · have hw := hprod h2
    rw [← hlen] at hval hw
    have hnl : n = str.length * u64_of_ll (tonumber d.data.2).1 := by
      have := congrArg u64_of_ll hval
      rw [hun, u64_of_ll_of_u64, Nat.mod_eq_of_lt hw] at this
      exact this
    have hdiv : n / str.length = u64_of_ll (tonumber d.data.2).1 := by
      rw [hnl]
      exact Nat.mul_div_cancel_left _ (Nat.pos_of_ne_zero hlen0)
    have hle : n / str.length ≤ n := Nat.div_le_self _ _
    have ht1 : times = u64_of_ll (tonumber d.data.2).1 := by
      rw [htimes, Nat.mod_eq_of_lt (by omega), hdiv]
    have hok := pseudop_addrdelta_s_count d n hn h2
    have hr := tonumber_range d.data.2 (tonumber d.data.2).1 (by rw [← hok.1])
    have hcast : ((u64_of_ll (tonumber d.data.2).1 : Nat) : Int) = (tonumber d.data.2).1 := by
      unfold u64_of_ll
      omega
    refine ⟨by rw [ht1, hnl, Nat.mul_comm], hlen0, hstr, fun h => absurd h h2, fun _ => ?_⟩
    rw [ht1, hcast, ← hok.1]
theorem ds_size_exact_no_wrap (d : directive) (h : ds_size_exact d) : ds_no_wrap d := by
  intro hi
  obtain ⟨h1, h2⟩ := h hi
  exact ⟨by omega, fun hne => by have := h2 hne; omega⟩

theorem pseudop_addrdelta_s_nonneg (d : directive) (n : Int)
    (hinstr : d.instr = "ds" ∨ d.instr = "dsz") (hex : ds_size_exact d)
    (hn : pseudop_addrdelta_s d = .ok n) : 0 ≤ n := by
  obtain ⟨h1, h2⟩ := hex hinstr
  rcases pseudop_addrdelta_s_ok d n hn with ⟨hd, hval⟩ | ⟨hd, hval⟩
  · rw [hval]
    unfold ll_of_u64
    split <;> omega
  · have := h2 hd
    rw [hval]
    unfold ll_of_u64
    split <;> omega

theorem pseudop_reserve_mem (d : directive) (labels : label_addr_map) (c : context_data)
    (hm : d.instr = "resw" ∨ d.instr = "ress" ∨ d.instr = "ressz") :
    (pseudop_create_instr d labels c).1.sys_mem = c.sys_mem := by
  rcases hm with hm | hm | hm
  · cases hd : pseudop_addrdelta_resw d <;> simp [pseudop_create_instr, hm, hd]
  · cases hd : pseudop_addrdelta_s d <;> simp [pseudop_create_instr, hm, hd]
  · cases hd : pseudop_addrdelta_sz d <;> simp [pseudop_create_instr, hm, hd]

theorem directive_size_ds (d : directive) (n : Int) (hi : d.instr = "ds")
    (hs : directive_size d = some n) : pseudop_addrdelta_s d = .ok n := by
  cases hd : pseudop_addrdelta_s d with
  | error e => simp [directive_size, hi, hd] at hs
  | ok m => simp [directive_size, hi, hd] at hs; rw [hs]

theorem directive_size_dw (d : directive) (n : Int) (hi : d.instr = "dw")
    (hs : directive_size d = some n) : pseudop_addrdelta_dw d = .ok n := by
  cases hd : pseudop_addrdelta_dw d with
  | error e => simp [directive_size, hi, hd] at hs
  | ok m => simp [directive_size, hi, hd] at hs; rw [hs]

theorem directive_size_dsz (d : directive) (n : Nat) (hi : d.instr = "dsz")
    (hex : ds_size_exact d) (hs : directive_size d = some (n : Int)) :
    ∃ m : Nat, pseudop_addrdelta_s d = .ok (m : Int) ∧ n = m + 1 := by
  cases hd : pseudop_addrdelta_s d with
  | error e => simp [directive_size, hi, pseudop_addrdelta_sz, hd] at hs
  | ok m =>
    have h0 := pseudop_addrdelta_s_nonneg d m (Or.inr hi) hex hd
    have hm : m < 2 ^ 63 := by
      rcases pseudop_addrdelta_s_ok d m hd with ⟨_, hval⟩ | ⟨_, hval⟩ <;>
        (rw [hval]; unfold ll_of_u64; split <;> omega)
    simp [directive_size, hi, pseudop_addrdelta_sz, hd] at hs
    refine ⟨m.toNat, ?_, ?_⟩
    · rw [Int.toNat_of_nonneg h0]
    · unfold ll_of_u64 u64_of_ll at hs
      split at hs <;> omega

/-- One step of the encoder in a program without wrap-around: the emission
counter advances by the size of the directive, and no cell outside the range
of the directive changes. -/
theorem encoder_step_no_wrap (M : metronome32) (d : directive) (labels : label_addr_map)
    (c c1 : context_data) (n : Nat) (hc : c.counter = d.address)
    (hsize : directive_size d = some (n : Int)) (hlt : d.address + n < 2 ^ 32)
    (hex : ds_size_exact d) (henc : assemble_instruction M d labels c = (c1, none)) :
    c1.counter = d.address + n ∧
    ∀ a, (a < d.address ∨ d.address + n ≤ a) → map_find c1.sys_mem a = map_find c.sys_mem a := by
  have hA : d.address < 2 ^ 32 := by omega
  have hcount : c1.counter = d.address + n := by
    have := encoder_step_counter M d labels c c1 _ hc hA
      (resolve_advance_of_size d d.address n hsize hA) henc (ds_size_exact_no_wrap d hex)
    rw [this]
    unfold u32_of_int
    omega
  refine ⟨hcount, ?_⟩
  have hemit : ∀ word, c1 = emit_word c word →
      ∀ a, (a < d.address ∨ d.address + n ≤ a) → map_find c1.sys_mem a = map_find c.sys_mem a := by
    intro word hw a ha
    have hcnt : c1.counter = (c.counter + 1) % 2 ^ 32 := by rw [hw]; rfl
    rw [hw]
    apply (emit_word_effect c word).2.2.1
    omega
  unfold assemble_instruction at henc
  split_ifs at henc with h0 h1 h2 h3 h4 h5 h6 h7
  · simp only [Prod.mk.injEq, and_true] at henc
    intro a _
    rw [← henc]
  · obtain ⟨word, _, hw⟩ := emit_or_throw_ok c c1 _ henc
    exact hemit word hw
  · obtain ⟨word, _, hw⟩ := emit_or_throw_ok c c1 _ henc
    exact hemit word hw
  · obtain ⟨word, _, hw⟩ := emit_or_throw_ok c c1 _ henc
    exact hemit word hw
  · obtain ⟨word, _, hw⟩ := emit_or_throw_ok c c1 _ henc
    exact hemit word hw
  · simp only [valid_pseudops, List.mem_cons, List.mem_singleton, List.not_mem_nil,
      or_false] at h5
    have hres : (d.instr = "resw" ∨ d.instr = "ress" ∨ d.instr = "ressz") →
        ∀ a, (a < d.address ∨ d.address + n ≤ a) →
          map_find c1.sys_mem a = map_find c.sys_mem a := by
      intro hm a _
      have := pseudop_reserve_mem d labels c hm
      rw [henc] at this
      simp only at this
      rw [this]
    rcases h5 with h | h | h | h | h | h
    · exact hres (Or.inl h)
    · exact hres (Or.inr (Or.inl h))
    · exact hres (Or.inr (Or.inr h))
    · obtain ⟨delta, hd, _, hmem, hcnt⟩ := dw_effect d labels c c1 h henc
      intro a ha
      have hcond : ¬ (c.counter ≤ a ∧
          a < c.counter + (u32_of_int ((c.counter : Int) + delta) - c.counter)) := by
        rw [← hcnt, hcount, hc]
        omega
      rw [hmem, dw_fill_find, if_neg hcond, Option.or_none]
    · obtain ⟨str, times, ht, hmem, _⟩ := ds_effect d labels c c1 h henc
      obtain ⟨hmul, _⟩ := ds_times_exact d str times n (Or.inl h)
        (ds_size_exact_no_wrap d hex) ht (directive_size_ds d n h hsize) (by omega)
      intro a ha
      have hcond : ¬ (c.counter ≤ a ∧ a < c.counter + times * str.length) := by
        rw [hmul, hc]
        omega
      rw [hmem, ds_fill_find str times _ _ a (by rw [hmul, hc]; exact hlt), ds_cell,
        if_neg hcond, Option.or_none]
    · obtain ⟨str, times, ht, hmem, _⟩ := dsz_effect d labels c c1 h henc
      obtain ⟨m, hm, hnm⟩ := directive_size_dsz d n h hex hsize
      obtain ⟨hmul, _⟩ := ds_times_exact d str times m (Or.inr h)
        (ds_size_exact_no_wrap d hex) ht hm (by omega)
      intro a ha
      have hcond : ¬ (c.counter ≤ a ∧ a < c.counter + times * str.length) := by
        rw [hmul, hc]
        omega
      have hsnd : (ds_fill str times c.sys_mem c.counter).2 = d.address + m := by
        rw [ds_fill_snd str times _ _ (by rw [hc]; exact hA), hmul, hc]
        exact Nat.mod_eq_of_lt (by omega)
      have hne : ¬ (d.address + m = a) := by omega
      rw [hmem, map_find_insert_cell, hsnd, if_neg hne, Option.or_none,
        ds_fill_find str times _ _ a (by rw [hmul, hc]; omega), ds_cell, if_neg hcond,
        Option.or_none]
  · simp only [Prod.mk.injEq, and_true] at henc
    exact hemit M.new_cf henc.symm
  · obtain ⟨word, _, hw⟩ := emit_or_throw_ok c c1 _ henc
    exact hemit word hw
  · simp at henc
/-- The encoder loop in a program without wrap-around: cells below the
emission counter at the start of the loop keep their content to the end, and
every directive is reached with the counter at its address, with the cells at
and above that address as they were at the start of the loop; what the
directive leaves below the counter after it stays to the end. -/
theorem assemble_loop_no_wrap (M : metronome32) (labels : label_addr_map)
    (rs : parse_results) :
    ∀ (c cf : context_data), List.Chain' addr_step rs → no_wrap rs →
      (∀ d, rs.head? = some d → c.counter = d.address) →
      assemble_loop M labels rs c = (cf, none) →
      (∀ a, a < c.counter → map_find cf.sys_mem a = map_find c.sys_mem a) ∧
      (∀ (i : Nat) (d : directive), rs[i]? = some d →
        ∃ ci cj, assemble_loop M labels (rs.take i) c = (ci, none) ∧
          ci.counter = d.address ∧ c.counter ≤ ci.counter ∧
          (∀ a, ci.counter ≤ a → map_find ci.sys_mem a = map_find c.sys_mem a) ∧
          assemble_instruction M d labels ci = (cj, none) ∧
          (∀ a, a < cj.counter → map_find cf.sys_mem a = map_find cj.sys_mem a)) := by
  induction rs with
  | nil =>
    intro c cf _ _ _ hloop
    simp only [assemble_loop, Prod.mk.injEq, and_true] at hloop
    subst hloop
    exact ⟨fun a _ => rfl, fun i d hd => by simp at hd⟩
  | cons d0 rest ih =>
    intro c cf hchain hnw hhead hloop
    simp only [assemble_loop] at hloop
    cases hstep : assemble_instruction M d0 labels c with
    | mk c1 o =>
      cases o with
      | some e => simp [hstep] at hloop
      | none =>
        simp only [hstep] at hloop
        obtain ⟨hex, n, hsize, hlt⟩ := hnw d0 (List.mem_cons_self _ _)
        have hc0 : c.counter = d0.address := hhead d0 rfl
        obtain ⟨hcount, hframe⟩ :=
          encoder_step_no_wrap M d0 labels c c1 n hc0 hsize hlt hex hstep
        rw [List.chain'_cons'] at hchain
        have hhead1 : ∀ e, rest.head? = some e → c1.counter = e.address := by
          intro e he
          have hadv := hchain.1 e he
          unfold addr_step at hadv
          rw [resolve_advance_of_size d0 d0.address n hsize (by omega)] at hadv
          simp only [Except.ok.injEq] at hadv
          rw [hcount, ← hadv]
          unfold u32_of_int
          omega
        obtain ⟨ih1, ih2⟩ := ih c1 cf hchain.2
          (fun e he => hnw e (List.mem_cons_of_mem _ he)) hhead1 hloop
        constructor
        · intro a ha
          rw [ih1 a (by omega), hframe a (Or.inl (by omega))]
        · intro i d hd
          cases i with
          | zero =>
            simp only [List.getElem?_cons_zero, Option.some.injEq] at hd
            subst hd
            exact ⟨c, c1, rfl, hc0, Nat.le_refl _, fun a _ => rfl, hstep, ih1⟩
          | succ i =>
            simp only [List.getElem?_cons_succ] at hd
            obtain ⟨ci, cj, htake, hci, hle, hmem, hinstr, hfin⟩ := ih2 i d hd
            refine ⟨ci, cj, ?_, hci, by omega, ?_, hinstr, hfin⟩
            · simp only [List.take_succ_cons, assemble_loop, hstep]
              exact htake
            · intro a ha
              rw [hmem a ha, hframe a (Or.inr (by omega))]
theorem assemble_no_wrap_reach (M : metronome32) (pr : parse_results) (v : vm)
    (h : assemble M pr = .ok v) :
    ∃ (pr2 : parse_results) (labels : label_addr_map),
      resolve_labels (lowercase_instr_names pr) = (pr2, .ok labels) ∧
      (no_wrap pr2 → ∀ (i : Nat) (d : directive), pr2[i]? = some d →
        ∃ (n : Nat) (c c1 : context_data),
          directive_size d = some (n : Int) ∧ d.address + n < 2 ^ 32 ∧ ds_size_exact d ∧
          assemble_loop M labels (pr2.take i) { sys_mem := [], counter := 0 } = (c, none) ∧
          assemble_instruction M d labels c = (c1, none) ∧
          c.counter = d.address ∧ mem_below c.sys_mem d.address ∧
          c1.counter = d.address + n ∧
          (∀ a, (a < d.address ∨ d.address + n ≤ a) →
            map_find c1.sys_mem a = map_find c.sys_mem a) ∧
          (∀ a, a < d.address + n → map_find v.context.sys_mem a = map_find c1.sys_mem a)) := by
  obtain ⟨pr2, labels, context, hr, hloop, hv⟩ := assemble_ok M pr v h
  refine ⟨pr2, labels, hr, ?_⟩
  intro hnw i d hd
  obtain ⟨_, hres⟩ := resolve_labels_ok _ pr2 labels hr
  obtain ⟨_, hhead, hchain⟩ := resolve_loop_chain _ [] 0 pr2 labels hres
  obtain ⟨_, hreach⟩ := assemble_loop_no_wrap M labels pr2 { sys_mem := [], counter := 0 }
    context hchain hnw (fun e he => (hhead e he).symm) hloop
  obtain ⟨ci, cj, htake, hci, _, hmem, hinstr, hfin⟩ := hreach i d hd
  obtain ⟨hex, n, hsize, hlt⟩ := hnw d (List.getElem?_mem hd)
  obtain ⟨hcount, hframe⟩ := encoder_step_no_wrap M d labels ci cj n hci hsize hlt hex hinstr
  refine ⟨n, ci, cj, hsize, hlt, hex, htake, hinstr, hci, ?_, hcount, hframe, ?_⟩
  · intro a ha
    rw [hmem a (by omega)]
    rfl
  · intro a ha
    rw [hv]
    exact hfin a (by omega)

theorem get_dw_num_value (d : directive) (labels : label_addr_map) :
    (∀ x : Int, tonumber d.data.1 = (x, true) → 0 ≤ x → x < 2 ^ 32 →
      (((get_dw_num d labels d.data.1).1 % word_mod : Nat) : Int) = x) ∧
    ((tonumber d.data.1).2 = false → ∀ L : Nat, map_find labels d.data.1 = some L →
      (get_dw_num d labels d.data.1).1 % word_mod
        = u32_of_int ((L : Int) - (d.address : Int))) := by
  constructor
  · intro x hx h0 h1
    simp only [get_dw_num, hx, if_true, word_mod]
    unfold u64_of_ll
    omega
  · intro hf L hL
    have hlt := u32_of_int_lt ((L : Int) - (d.address : Int))
    simp only [get_dw_num, hf, get_label_addr, hL, Bool.false_eq_true, if_false, if_true,
      word_mod]
    exact Nat.mod_eq_of_lt hlt

theorem pseudop_addrdelta_dw_count (d : directive) (n : Nat)
    (h : pseudop_addrdelta_dw d = .ok (n : Int)) :
    (d.data.1 = "" ∨ d.data.2 = "" → n = 1) ∧
    (d.data.1 ≠ "" → d.data.2 ≠ "" → tonumber d.data.2 = ((n : Int), true)) := by
  unfold pseudop_addrdelta_dw at h
  simp only at h
  by_cases c0 : d.data.1 = "" ∨ d.data.2 = ""
  · simp only [c0, if_true, Except.ok.injEq] at h
    refine ⟨fun _ => by omega, fun h1 h2 => ?_⟩
    rcases c0 with c0 | c0
    · exact absurd c0 h1
    · exact absurd c0 h2
  · by_cases c2 : (tonumber d.data.2).2 = true
    · by_cases c3 : (tonumber d.data.2).1 < 0
      · simp [c0, c2, c3] at h
      · simp [c0, c2, c3] at h
        refine ⟨fun hc => absurd hc (by simpa using c0), fun _ _ => ?_⟩
        rw [← h, ← c2]
    · simp [c0, c2] at h

/-- C19: in a successfully assembled program whose addresses do not wrap
around, a `dw` directive at address `A` is reached by the encoder with the
emission counter at `A` and no cell at or above `A`; encoding it sets the
cells `A`, ..., `A + N - 1` to one value, changes no other cell and moves the
counter to `A + N`, and these cells hold the value in the returned image.
`N` is 1 when an operand is absent and otherwise the number that `tonumber`
reads from operand 2; the value is the first operand when `tonumber` reads it
as a number from 0 to 2^32 - 1, and the label address minus `A` modulo 2^32
when the operand is a label bound in the table. -/
theorem C19_define_words (M : metronome32) (pr : parse_results) (v : vm)
    (h : assemble M pr = .ok v) :
    ∃ (pr2 : parse_results) (labels : label_addr_map),
      resolve_labels (lowercase_instr_names pr) = (pr2, .ok labels) ∧
      (no_wrap pr2 → ∀ (i : Nat) (d : directive), pr2[i]? = some d → d.instr = "dw" →
        ∃ (c c1 : context_data) (N val : Nat),
          assemble_loop M labels (pr2.take i) { sys_mem := [], counter := 0 } = (c, none) ∧
          assemble_instruction M d labels c = (c1, none) ∧
          c.counter = d.address ∧ mem_below c.sys_mem d.address ∧
          (d.data.1 = "" ∨ d.data.2 = "" → N = 1) ∧
          (d.data.1 ≠ "" → d.data.2 ≠ "" → tonumber d.data.2 = ((N : Int), true)) ∧
          (∀ x : Int, tonumber d.data.1 = (x, true) → 0 ≤ x → x < 2 ^ 32 → (val : Int) = x) ∧
          ((tonumber d.data.1).2 = false → ∀ L : Nat, map_find labels d.data.1 = some L →
            val = u32_of_int ((L : Int) - (d.address : Int))) ∧
          c1.counter = d.address + N ∧
          (∀ k, k < N → map_find c1.sys_mem (d.address + k) = some val) ∧
          (∀ a, (a < d.address ∨ d.address + N ≤ a) →
            map_find c1.sys_mem a = map_find c.sys_mem a) ∧
          (∀ k, k < N → map_find v.context.sys_mem (d.address + k) = some val)) := by
  obtain ⟨pr2, labels, hr, hreach⟩ := assemble_no_wrap_reach M pr v h
  refine ⟨pr2, labels, hr, ?_⟩
  intro hnw i d hd hi
  obtain ⟨n, c, c1, hsize, hlt, _, htake, hinstr, hc, hbelow, hcount, hframe, hfin⟩ :=
    hreach hnw i d hd
  have hdelta := directive_size_dw d n hi hsize
  have hcreate := hinstr
  rw [dw_dispatch M d labels c hi] at hcreate
  obtain ⟨delta, hd2, _, hmem, _⟩ := dw_effect d labels c c1 hi hcreate
  rw [hdelta] at hd2
  simp only [Except.ok.injEq] at hd2
  subst hd2
  have hcnt : u32_of_int ((c.counter : Int) + (n : Int)) - c.counter = n := by
    rw [hc]
    unfold u32_of_int
    omega
  rw [hcnt, hc] at hmem
  obtain ⟨hn1, hn2⟩ := pseudop_addrdelta_dw_count d n hdelta
  obtain ⟨hv1, hv2⟩ := get_dw_num_value d labels
  have hcells : ∀ k, k < n →
      map_find c1.sys_mem (d.address + k)
        = some ((get_dw_num d labels d.data.1).1 % word_mod) := by
    intro k hk
    rw [hmem, dw_fill_find, hbelow (d.address + k) (by omega), Option.none_or,
      if_pos (by omega)]
  refine ⟨c, c1, n, (get_dw_num d labels d.data.1).1 % word_mod, htake, hinstr, hc, hbelow,
    hn1, hn2, hv1, hv2, hcount, hcells, hframe, ?_⟩
  intro k hk
  rw [hfin (d.address + k) (by omega)]
  exact hcells k hk
theorem dw_resolved_no_wrap : no_wrap dw_resolved := by
  intro d hd
  simp only [dw_resolved, List.mem_cons, List.mem_singleton, List.not_mem_nil, or_false] at hd
  rcases hd with hd | hd | hd | hd <;> subst hd
  · exact ⟨fun h => by revert h; decide, 1, by decide, by decide⟩
  · exact ⟨fun h => by revert h; decide, 3, by decide, by decide⟩
  · exact ⟨fun h => by revert h; decide, 1, by decide, by decide⟩
  · exact ⟨fun h => by revert h; decide, 1, by decide, by decide⟩

/-- C19, witness: in `dw_program` the directive `dw 7, 3` is at address 1 and
leaves the cells 1, 2 and 3 holding 7; the directive `dw top` at address 4
leaves the cell 4 holding the address of `top` minus 4 modulo 2^32. -/
theorem C19_define_words_witness :
    (assemble sample_encoders dw_program = .ok dw_image ∧
      resolve_labels (lowercase_instr_names dw_program) = (dw_resolved, .ok [("top", 0)]) ∧
      map_find dw_image.context.sys_mem 1 = some 7 ∧
      map_find dw_image.context.sys_mem 2 = some 7 ∧
      map_find dw_image.context.sys_mem 3 = some 7 ∧
      map_find dw_image.context.sys_mem 4 = some 4294967292 ∧
      u32_of_int ((0 : Int) - 4) = 4294967292) ∧
    no_wrap dw_resolved ∧
    ∃ (c c1 : context_data) (N val : Nat),
      assemble_loop sample_encoders [("top", 0)] (dw_resolved.take 1)
        { sys_mem := [], counter := 0 } = (c, none) ∧
      assemble_instruction sample_encoders { line2 "dw" "7" "3" with address := 1 }
        [("top", 0)] c = (c1, none) ∧
      c.counter = 1 ∧ mem_below c.sys_mem 1 ∧
      tonumber "3" = ((N : Int), true) ∧
      (val : Int) = 7 ∧
      c1.counter = 1 + N ∧
      (∀ k, k < N → map_find c1.sys_mem (1 + k) = some val) ∧
      (∀ a, (a < 1 ∨ 1 + N ≤ a) → map_find c1.sys_mem a = map_find c.sys_mem a) ∧
      (∀ k, k < N → map_find dw_image.context.sys_mem (1 + k) = some val) := by
  refine ⟨by decide, dw_resolved_no_wrap, ?_⟩
  obtain ⟨pr2, labels, hr, hall⟩ :=
    C19_define_words sample_encoders dw_program dw_image (by decide)
  have hres : resolve_labels (lowercase_instr_names dw_program)
      = (dw_resolved, .ok [("top", 0)]) := by decide
  rw [hres] at hr
  simp only [Prod.mk.injEq, Except.ok.injEq] at hr
  obtain ⟨hpr, hlab⟩ := hr
  subst hpr hlab
  obtain ⟨c, c1, N, val, h1, h2, h3, h4, _, h6, h7, _, h9, h10, h11, h12⟩ :=
    hall dw_resolved_no_wrap 1 { line2 "dw" "7" "3" with address := 1 } (by decide) (by decide)
  exact ⟨c, c1, N, val, h1, h2, h3, h4, h6 (by decide) (by decide),
    h7 7 (by decide) (by decide) (by decide), h9, h10, h11, h12⟩

/-! ## The cells that `ds` and `dsz` write -/

theorem ds_dispatch (M : metronome32) (dir : directive) (labels : label_addr_map)
    (c : context_data) (hm : dir.instr = "ds" ∨ dir.instr = "dsz") :
    assemble_instruction M dir labels c = pseudop_create_instr dir labels c := by
  unfold assemble_instruction
  rcases hm with hm | hm <;> rw [hm] <;> rfl

theorem ds_cell_inside (str : List Char) (start times k : Nat)
    (hk : k < times * str.length) :
    ds_cell str start times (start + k) = (str[k % str.length]?).map Char.toNat := by
  unfold ds_cell
  rw [if_pos (by omega), Nat.add_sub_cancel_left]

theorem ds_cell_outside (str : List Char) (start times a : Nat)
    (ha : a < start ∨ start + times * str.length ≤ a) :
    ds_cell str start times a = none := by
  unfold ds_cell
  rw [if_neg (by omega)]

/-- C20: in a successfully assembled program whose addresses do not wrap
around, a `ds` or `dsz` directive at address `A` is reached by the encoder
with the emission counter at `A` and no cell at or above `A`. Its string `S`,
the decoded operand without the quotes, is not empty and has length `L`; `N`
is 1 when operand 2 is absent and otherwise the number that `tonumber` reads
from it. Encoding the directive sets the cell `A + k` to the character code of
`S[k mod L]` for every `k < N * L`. For `ds` no other cell changes and the
counter moves to `A + N * L`; for `dsz` the cell `A + N * L` is set to 0, no
other cell changes and the counter moves to `A + N * L + 1`. These cells hold
the same values in the returned image. -/
theorem C20_define_string (M : metronome32) (pr : parse_results) (v : vm)
    (h : assemble M pr = .ok v) :
    ∃ (pr2 : parse_results) (labels : label_addr_map),
      resolve_labels (lowercase_instr_names pr) = (pr2, .ok labels) ∧
      (no_wrap pr2 → ∀ (i : Nat) (d : directive), pr2[i]? = some d →
        (d.instr = "ds" ∨ d.instr = "dsz") →
        ∃ (c c1 : context_data) (S : List Char) (N : Nat),
          assemble_loop M labels (pr2.take i) { sys_mem := [], counter := 0 } = (c, none) ∧
          assemble_instruction M d labels c = (c1, none) ∧
          c.counter = d.address ∧ mem_below c.sys_mem d.address ∧
          S = ((unescape_chars d.data.1).data.drop 1).take
            ((unescape_chars d.data.1).length - 2) ∧
          S.length ≠ 0 ∧
          (d.data.2 = "" → N = 1) ∧
          (d.data.2 ≠ "" → tonumber d.data.2 = ((N : Int), true)) ∧
          (∀ k, k < N * S.length →
            map_find c1.sys_mem (d.address + k) = (S[k % S.length]?).map Char.toNat) ∧
          (d.instr = "ds" → c1.counter = d.address + N * S.length ∧
            ∀ a, (a < d.address ∨ d.address + N * S.length ≤ a) →
              map_find c1.sys_mem a = map_find c.sys_mem a) ∧
          (d.instr = "dsz" → map_find c1.sys_mem (d.address + N * S.length) = some 0 ∧
            c1.counter = d.address + N * S.length + 1 ∧
            ∀ a, (a < d.address ∨ d.address + N * S.length + 1 ≤ a) →
              map_find c1.sys_mem a = map_find c.sys_mem a) ∧
          (∀ k, k < N * S.length →
            map_find v.context.sys_mem (d.address + k) = (S[k % S.length]?).map Char.toNat) ∧
          (d.instr = "dsz" →
            map_find v.context.sys_mem (d.address + N * S.length) = some 0)) := by
  obtain ⟨pr2, labels, hr, hreach⟩ := assemble_no_wrap_reach M pr v h
  refine ⟨pr2, labels, hr, ?_⟩
  intro hnw i d hd hi
  obtain ⟨n, c, c1, hsize, hlt, hex, htake, hinstr, hc, hbelow, hcount, hframe, hfin⟩ :=
    hreach hnw i d hd
  have hcreate := hinstr
  rw [ds_dispatch M d labels c hi] at hcreate
  have hA : d.address < 2 ^ 32 := by omega
  rcases hi with hi | hi
  · have hnz : d.instr ≠ "dsz" := by rw [hi]; decide
    obtain ⟨str, times, ht, hmem, _⟩ := ds_effect d labels c c1 hi hcreate
    obtain ⟨hmul, hlen0, hstr, hn1, hn2⟩ := ds_times_exact d str times n (Or.inl hi)
      (ds_size_exact_no_wrap d hex) ht (directive_size_ds d n hi hsize) (by omega)
    have hcells : ∀ k, k < times * str.length →
        map_find c1.sys_mem (d.address + k) = (str[k % str.length]?).map Char.toNat := by
      intro k hk
      rw [hmem, hc, ds_fill_find str times _ _ _ (by rw [hmul]; exact hlt),
        ← hc, hbelow (c.counter + k) (by omega), Option.none_or, ds_cell_inside _ _ _ _ hk]
    refine ⟨c, c1, str, times, htake, hinstr, hc, hbelow, hstr, hlen0, hn1, hn2, hcells,
      fun _ => ⟨by rw [hcount, hmul], fun a ha => hframe a (by rw [← hmul]; exact ha)⟩,
      fun hz => absurd hz hnz, ?_, fun hz => absurd hz hnz⟩
    intro k hk
    rw [hfin (d.address + k) (by omega)]
    exact hcells k hk
  · have hns : d.instr ≠ "ds" := by rw [hi]; decide
    obtain ⟨str, times, ht, hmem, _⟩ := dsz_effect d labels c c1 hi hcreate
    obtain ⟨m, hm, hnm⟩ := directive_size_dsz d n hi hex hsize
    obtain ⟨hmul, hlen0, hstr, hn1, hn2⟩ := ds_times_exact d str times m (Or.inr hi)
      (ds_size_exact_no_wrap d hex) ht hm (by omega)
    have hsnd : (ds_fill str times c.sys_mem c.counter).2 = d.address + m := by
      rw [ds_fill_snd str times _ _ (by rw [hc]; exact hA), hmul, hc]
      exact Nat.mod_eq_of_lt (by omega)
    have hfill : ∀ a, map_find c1.sys_mem a =
        ((map_find c.sys_mem a).or (ds_cell str d.address times a)).or
          (if d.address + m = a then some 0 else none) := by
      intro a
      rw [hmem, map_find_insert_cell, hsnd, hc,
        ds_fill_find str times _ _ a (by rw [hmul]; omega)]
    have hcells : ∀ k, k < times * str.length →
        map_find c1.sys_mem (d.address + k) = (str[k % str.length]?).map Char.toNat := by
      intro k hk
      rw [hfill, ← hc, hbelow (c.counter + k) (by omega), Option.none_or,
        ds_cell_inside _ _ _ _ hk, if_neg (by omega), Option.or_none]
    have hzero : map_find c1.sys_mem (d.address + times * str.length) = some 0 := by
      rw [hfill, hbelow _ (by omega), Option.none_or,
        ds_cell_outside _ _ _ _ (Or.inr (Nat.le_refl _)), Option.none_or, hmul, if_pos rfl]
    refine ⟨c, c1, str, times, htake, hinstr, hc, hbelow, hstr, hlen0, hn1, hn2, hcells,
      fun hz => absurd hz hns,
      fun _ => ⟨hzero, by rw [hcount, hmul, hnm, Nat.add_assoc], fun a ha => hframe a (by omega)⟩, ?_, ?_⟩
    · intro k hk
      rw [hfin (d.address + k) (by omega)]
      exact hcells k hk
    · intro _
      rw [hfin _ (by omega)]
      exact hzero

theorem ds_resolved_no_wrap : no_wrap ds_resolved := by
  intro d hd
  simp only [ds_resolved, List.mem_cons, List.mem_singleton, List.not_mem_nil, or_false] at hd
  rcases hd with hd | hd | hd <;> subst hd
  · exact ⟨fun h => by revert h; decide, 1, by decide, by decide⟩
  · exact ⟨fun _ => by decide, 4, by decide, by decide⟩
  · exact ⟨fun _ => by decide, 3, by decide, by decide⟩

/-- C20, witness: in `ds_program` the directive `ds "ab", 2` is at address 1
and leaves the cells 1 to 4 holding the codes of a, b, a, b; the directive
`dsz "ab"` at address 5 leaves the cells 5 and 6 holding the codes of a and b
and the cell 7 holding 0. -/
theorem C20_define_string_witness :
    (assemble sample_encoders ds_program = .ok ds_image ∧
      resolve_labels (lowercase_instr_names ds_program) = (ds_resolved, .ok []) ∧
      map_find ds_image.context.sys_mem 1 = some 97 ∧
      map_find ds_image.context.sys_mem 2 = some 98 ∧
      map_find ds_image.context.sys_mem 3 = some 97 ∧
      map_find ds_image.context.sys_mem 4 = some 98 ∧
      map_find ds_image.context.sys_mem 5 = some 97 ∧
      map_find ds_image.context.sys_mem 6 = some 98 ∧
      map_find ds_image.context.sys_mem 7 = some 0) ∧
    no_wrap ds_resolved ∧
    ∃ (c c1 : context_data) (S : List Char) (N : Nat),
      assemble_loop sample_encoders [] (ds_resolved.take 1)
        { sys_mem := [], counter := 0 } = (c, none) ∧
      assemble_instruction sample_encoders { line2 "ds" "\"ab\"" "2" with address := 1 }
        [] c = (c1, none) ∧
      c.counter = 1 ∧ mem_below c.sys_mem 1 ∧
      S = ['a', 'b'] ∧
      tonumber "2" = ((N : Int), true) ∧
      (∀ k, k < N * S.length →
        map_find c1.sys_mem (1 + k) = (S[k % S.length]?).map Char.toNat) ∧
      c1.counter = 1 + N * S.length ∧
      (∀ a, (a < 1 ∨ 1 + N * S.length ≤ a) → map_find c1.sys_mem a = map_find c.sys_mem a) ∧
      (∀ k, k < N * S.length →
        map_find ds_image.context.sys_mem (1 + k) = (S[k % S.length]?).map Char.toNat) := by
  refine ⟨by decide, ds_resolved_no_wrap, ?_⟩
  obtain ⟨pr2, labels, hr, hall⟩ :=
    C20_define_string sample_encoders ds_program ds_image (by decide)
  have hres : resolve_labels (lowercase_instr_names ds_program)
      = (ds_resolved, .ok []) := by decide
  rw [hres] at hr
  simp only [Prod.mk.injEq, Except.ok.injEq] at hr
  obtain ⟨hpr, hlab⟩ := hr
  subst hpr hlab
  obtain ⟨c, c1, S, N, h1, h2, h3, h4, h5, _, _, h8, h9, h10, _, h12, _⟩ :=
    hall ds_resolved_no_wrap 1 { line2 "ds" "\"ab\"" "2" with address := 1 } (by decide)
      (Or.inl (by decide))
  obtain ⟨h10a, h10b⟩ := h10 (by decide)
  exact ⟨c, c1, S, N, h1, h2, h3, h4, h5.trans (by decide), h8 (by decide), h9, h10a, h10b, h12⟩

/-! ## The reserve-string pseudo-ops `ress` and `ressz` -/

theorem u32_of_int_add_sz (s x : Nat) :
    u32_of_int ((s : Int) + ll_of_u64 (u64_of_ll (ll_of_u64 x + 1)))
      = (s + x + 1) % 2 ^ 32 := by
  unfold u32_of_int u64_of_ll ll_of_u64
  split <;> split <;> omega

theorem u32_of_int_add_mod (s x : Nat) :
    u32_of_int ((s : Int) + ll_of_u64 x) = (s + x) % 2 ^ 32 := by
  unfold u32_of_int ll_of_u64
  split <;> omega

/-- The size that `pseudop_addrdelta_s` computes for a string operand of
decoded length `L` and the repeat count `N`, as a 64-bit product. -/
theorem pseudop_addrdelta_s_value (dir : directive) (N : Nat)
    (hstr : regex_match_str dir.data.1 = true)
    (hN : (dir.data.2 = "" ∧ N = 1) ∨
      (dir.data.2 ≠ "" ∧ tonumber dir.data.2 = ((N : Int), true))) :
    pseudop_addrdelta_s dir
      = .ok (ll_of_u64 (((unescape_chars dir.data.1).length - 2) * N)) := by
  unfold pseudop_addrdelta_s
  rcases hN with ⟨h2, hn⟩ | ⟨h2, hn⟩
  · simp [hstr, h2, hn]
  · have hr := tonumber_range _ _ hn
    have hu : u64_of_ll (N : Int) = N := u64_of_ll_small N (by omega)
    simp [hstr, h2, hn, hu]

/-- C21, counterexample: `ressz "ab", 2` has a string of decoded length 2 and
the repeat count 2; the resolver and the encoder both advance the counter from
0 to 5, which is not (2 + 1) * 2. -/
theorem C21_ressz_terminator_once :
    (unescape_chars "\"ab\"").length - 2 = 2 ∧
    tonumber "2" = (2, true) ∧
    resolve_advance (line2 "ressz" "\"ab\"" "2") 0 = .ok 5 ∧
    assemble_instruction sample_encoders (line2 "ressz" "\"ab\"" "2") []
        { sys_mem := [], counter := 0 }
      = ({ sys_mem := [], counter := 5 }, none) ∧
    (5 : Nat) ≠ (2 + 1) * 2 := by
  decide

/-- C21, amended: for a directive `ress` or `ressz` whose operand 1 is a string
of decoded length `L` (the length of the decoded operand without its two
quotes) and whose repeat count is `N` (1 when operand 2 is absent, otherwise the
non-negative number that `tonumber` reads from it), the resolver and the
encoder both advance the counter by `L * N` modulo 2^32 for `ress` and by
`L * N + 1` modulo 2^32 for `ressz`; the encoder leaves the memory map as it
was. -/
theorem C21_reserve_string (M : metronome32) (dir : directive) (labels : label_addr_map)
    (c : context_data) (a N : Nat)
    (hstr : regex_match_str dir.data.1 = true)
    (hN : (dir.data.2 = "" ∧ N = 1) ∨
      (dir.data.2 ≠ "" ∧ tonumber dir.data.2 = ((N : Int), true))) :
    (dir.instr = "ress" →
      resolve_advance dir a
        = .ok ((a + ((unescape_chars dir.data.1).length - 2) * N) % 2 ^ 32) ∧
      assemble_instruction M dir labels c
        = ({ c with counter :=
              (c.counter + ((unescape_chars dir.data.1).length - 2) * N) % 2 ^ 32 }, none)) ∧
    (dir.instr = "ressz" →
      resolve_advance dir a
        = .ok ((a + ((unescape_chars dir.data.1).length - 2) * N + 1) % 2 ^ 32) ∧
      assemble_instruction M dir labels c
        = ({ c with counter :=
              (c.counter + ((unescape_chars dir.data.1).length - 2) * N + 1) % 2 ^ 32 },
            none)) := by
  have hs := pseudop_addrdelta_s_value dir N hstr hN
  constructor
  · intro hi
    constructor
    · unfold resolve_advance
      simp [hi, hs, u32_of_int_add_mod]
    · rw [reserve_dispatch M dir labels c (by simp [hi])]
      unfold pseudop_create_instr
      simp [hi, hs, u32_of_int_add_mod]
  · intro hi
    constructor
    · unfold resolve_advance pseudop_addrdelta_sz
      simp [hi, hs, u32_of_int_add_sz]
    · rw [reserve_dispatch M dir labels c (by simp [hi])]
      unfold pseudop_create_instr pseudop_addrdelta_sz
      simp [hi, hs, u32_of_int_add_sz]

/-- C21, witness: `ress "ab", 3` advances the counter from 4 to 10 and
`ressz "ab", 3` from 4 to 11, in the resolver and in the encoder. -/
theorem C21_reserve_string_witness :
    (resolve_advance (line2 "ress" "\"ab\"" "3") 4 = .ok 10 ∧
      resolve_advance (line2 "ressz" "\"ab\"" "3") 4 = .ok 11 ∧
      assemble_instruction sample_encoders (line2 "ressz" "\"ab\"" "3") []
          { sys_mem := [(3, 33)], counter := 4 }
        = ({ sys_mem := [(3, 33)], counter := 11 }, none)) ∧
    ((line2 "ress" "\"ab\"" "3").instr = "ress" →
      resolve_advance (line2 "ress" "\"ab\"" "3") 4
        = .ok ((4 + ((unescape_chars (line2 "ress" "\"ab\"" "3").data.1).length - 2) * 3)
            % 2 ^ 32) ∧
      assemble_instruction sample_encoders (line2 "ress" "\"ab\"" "3") []
          { sys_mem := [(3, 33)], counter := 4 }
        = ({ ({ sys_mem := [(3, 33)], counter := 4 } : context_data) with counter :=
              (4 + ((unescape_chars (line2 "ress" "\"ab\"" "3").data.1).length - 2) * 3)
                % 2 ^ 32 }, none)) :=
  ⟨by decide,
    (C21_reserve_string sample_encoders (line2 "ress" "\"ab\"" "3") []
      { sys_mem := [(3, 33)], counter := 4 } 4 3 (by decide)
      (Or.inr ⟨by decide, by decide⟩)).1⟩

/-! ## Negative and unreadable count operands -/

theorem resolve_loop_first_error (rs : parse_results) :
    ∀ (res : label_addr_map) (cur : Nat) (i : Nat) (d : directive) (e : asm_error),
      rs[i]? = some d →
      (∀ a, resolve_advance { d with address := a } a = .error e) →
      (∀ (k : Nat) (x : directive), k < i → rs[k]? = some x →
        ∀ a, ∃ n, resolve_advance { x with address := a } a = .ok n) →
      (resolve_loop rs res cur).2 = .error e := by
  induction rs with
  | nil => intro res cur i d e hd; simp at hd
  | cons x rest ih =>
    intro res cur i d e hd herr hok
    cases i with
    | zero =>
      simp only [List.getElem?_cons_zero, Option.some.injEq] at hd
      subst hd
      simp [resolve_loop, herr cur]
    | succ j =>
      obtain ⟨n, hn⟩ := hok 0 x (Nat.succ_pos j) (by simp) cur
      simp only [resolve_loop, hn]
      exact ih _ n j d e (by simpa using hd) herr
        (fun k y hk hy => hok (k + 1) y (Nat.succ_lt_succ hk) (by simpa using hy))

theorem resolve_advance_address (d : directive) (a b : Nat) :
    resolve_advance { d with address := b } a = resolve_advance d a := by
  rfl

/-- The resolver and `assemble` fail with the exception of the first directive
whose step throws, in a program without duplicate labels. -/
theorem assemble_first_error (M : metronome32) (pr : parse_results) (i : Nat) (d : directive)
    (e : asm_error)
    (hnodup : ∀ (i j : Nat) (x y : directive), i < j → pr[i]? = some x → pr[j]? = some y →
      x.label = "" ∨ x.label ≠ y.label)
    (hd : (lowercase_instr_names pr)[i]? = some d)
    (hbefore : ∀ (k : Nat) (x : directive), k < i → (lowercase_instr_names pr)[k]? = some x →
      ∀ a, ∃ n, resolve_advance x a = .ok n)
    (herr : ∀ a, resolve_advance d a = .error e) :
    (resolve_labels (lowercase_instr_names pr)).2 = .error e ∧ assemble M pr = .error e := by
  have hflag := no_duplicates_flag (lowercase_instr_names pr) {} {}
    (no_duplicates_lowercase pr hnodup)
  have hres : (resolve_labels (lowercase_instr_names pr)).2 = .error e := by
    unfold resolve_labels
    simp only [hflag, Bool.not_true, Bool.false_eq_true, if_false, not_true_eq_false]
    exact resolve_loop_first_error _ [] 0 i d e hd
      (fun a => by rw [resolve_advance_address]; exact herr a)
      (fun k x hk hx a => by rw [resolve_advance_address]; exact hbefore k x hk hx a)
  exact ⟨hres, assemble_of_resolve_error M pr e hres⟩

/-- The step of the resolver on a directive with a negative count operand. -/
theorem resolve_advance_negative_count (d : directive) (count : String) (v : Int)
    (hcount : (d.instr = "resw" ∧ count = d.data.1) ∨
      (d.instr = "dw" ∧ d.data.1 ≠ "" ∧ count = d.data.2) ∨
      (d.instr ∈ ["ress", "ressz", "ds", "dsz"] ∧ regex_match_str d.data.1 = true ∧
        count = d.data.2))
    (hv : tonumber count = (v, true)) (hneg : v < 0) :
    ∃ head why, ∀ a, resolve_advance d a = .error (.underflow_except head d.original why) := by
  have hne : count ≠ "" := by
    intro h0
    rw [h0] at hv
    have h1 : (tonumber "").2 = false := by decide
    rw [hv] at h1
    cases h1
  rcases hcount with ⟨hi, hc⟩ | ⟨hi, h1, hc⟩ | ⟨hi, hs, hc⟩
  · subst hc
    refine ⟨153, "Argument one must be at least 0.", fun a => ?_⟩
    unfold resolve_advance pseudop_addrdelta_resw
    simp [hi, hne, hv, hneg]
  · subst hc
    refine ⟨127, "Argument two must be at least 0.", fun a => ?_⟩
    unfold resolve_advance pseudop_addrdelta_dw
    simp [hi, hne, h1, hv, hneg]
  · subst hc
    refine ⟨199, "Argument two must be at least 0.", fun a => ?_⟩
    simp only [List.mem_cons, List.mem_singleton, List.not_mem_nil, or_false] at hi
    unfold resolve_advance pseudop_addrdelta_sz pseudop_addrdelta_s
    rcases hi with hi | hi | hi | hi <;> simp [hi, hne, hs, hv, hneg]

/-- The step of the resolver on a directive with a count operand that is
present and is no number. -/
theorem resolve_advance_unreadable_count (d : directive) (count : String)
    (hcount : (d.instr = "resw" ∧ count = d.data.1) ∨
      (d.instr = "dw" ∧ d.data.1 ≠ "" ∧ count = d.data.2) ∨
      (d.instr ∈ ["ress", "ressz", "ds", "dsz"] ∧ regex_match_str d.data.1 = true ∧
        count = d.data.2))
    (hne : count ≠ "") (hv : (tonumber count).2 = false) :
    ∃ head why, ∀ a, resolve_advance d a = .error (.invalid_argument head d.original why) := by
  rcases hcount with ⟨hi, hc⟩ | ⟨hi, h1, hc⟩ | ⟨hi, hs, hc⟩
  · subst hc
    refine ⟨147, "Argument one is not a number.", fun a => ?_⟩
    unfold resolve_advance pseudop_addrdelta_resw
    simp [hi, hne, hv]
  · subst hc
    refine ⟨121, "Argument two is not a number.", fun a => ?_⟩
    unfold resolve_advance pseudop_addrdelta_dw
    simp [hi, hne, h1, hv]
  · subst hc
    refine ⟨193, "Argument two is not a number.", fun a => ?_⟩
    simp only [List.mem_cons, List.mem_singleton, List.not_mem_nil, or_false] at hi
    unfold resolve_advance pseudop_addrdelta_sz pseudop_addrdelta_s
    rcases hi with hi | hi | hi | hi <;> simp [hi, hne, hs, hv]

/-- C22: in a program without duplicate labels in which every directive
before the directive `d` is resolved without an exception, let `count` be the
count operand of the pseudo-op `d` (operand 1 of `resw`; operand 2 of `dw`
with operand 1 present; operand 2 of `ress`, `ressz`, `ds` or `dsz` with a
string as operand 1), and let it be present. When `tonumber` reads it as a
negative number, the resolver and `assemble` fail with an `underflow_except`,
which a handler for `invalid_argument` catches; when `tonumber` cannot read
it, they fail with an `invalid_argument` that is no `underflow_except`. -/
theorem C22_count_operand (M : metronome32) (pr : parse_results) (i : Nat) (d : directive)
    (count : String)
    (hnodup : ∀ (i j : Nat) (x y : directive), i < j → pr[i]? = some x → pr[j]? = some y →
      x.label = "" ∨ x.label ≠ y.label)
    (hd : (lowercase_instr_names pr)[i]? = some d)
    (hbefore : ∀ (k : Nat) (x : directive), k < i → (lowercase_instr_names pr)[k]? = some x →
      ∀ a, ∃ n, resolve_advance x a = .ok n)
    (hcount : (d.instr = "resw" ∧ count = d.data.1) ∨
      (d.instr = "dw" ∧ d.data.1 ≠ "" ∧ count = d.data.2) ∨
      (d.instr ∈ ["ress", "ressz", "ds", "dsz"] ∧ regex_match_str d.data.1 = true ∧
        count = d.data.2))
    (hpresent : count ≠ "") :
    (∀ v : Int, tonumber count = (v, true) → v < 0 →
      ∃ e, (resolve_labels (lowercase_instr_names pr)).2 = .error e ∧
        assemble M pr = .error e ∧
        e.is_underflow_except = true ∧ e.is_invalid_argument = true) ∧
    ((tonumber count).2 = false →
      ∃ e, (resolve_labels (lowercase_instr_names pr)).2 = .error e ∧
        assemble M pr = .error e ∧
        e.is_underflow_except = false ∧ e.is_invalid_argument = true) := by
  constructor
  · intro v hv hneg
    obtain ⟨head, why, herr⟩ := resolve_advance_negative_count d count v hcount hv hneg
    obtain ⟨h1, h2⟩ := assemble_first_error M pr i d _ hnodup hd hbefore herr
    exact ⟨_, h1, h2, rfl, rfl⟩
  · intro hv
    obtain ⟨head, why, herr⟩ := resolve_advance_unreadable_count d count hcount hpresent hv
    obtain ⟨h1, h2⟩ := assemble_first_error M pr i d _ hnodup hd hbefore herr
    exact ⟨_, h1, h2, rfl, rfl⟩

theorem negative_count_program_labels :
    ∀ (i j : Nat) (x y : directive), i < j → negative_count_program[i]? = some x →
      negative_count_program[j]? = some y → x.label = "" ∨ x.label ≠ y.label := by
  intro i j x y _ hx _
  left
  have hmem := List.getElem?_mem hx
  simp only [negative_count_program, List.mem_cons, List.mem_singleton, List.not_mem_nil,
    or_false] at hmem
  rcases hmem with h | h | h | h <;> subst h <;> rfl

/-- C22, witness: in `negative_count_program` the directive `DS "ab", -3`
follows two directives that are resolved, and `assemble` fails with the
`underflow_except` of line 199; `resw x` alone fails with the
`invalid_argument` of line 147. -/
theorem C22_count_operand_witness :
    (assemble sample_encoders negative_count_program
        = .error (.underflow_except 199 "DS \"ab\", -3\n" "Argument two must be at least 0.") ∧
      tonumber "-3" = (-3, true) ∧
      assemble sample_encoders [line1 "resw" "x"]
        = .error (.invalid_argument 147 "resw x\n" "Argument one is not a number.")) ∧
    ((∀ v : Int, tonumber "-3" = (v, true) → v < 0 →
      ∃ e, (resolve_labels (lowercase_instr_names negative_count_program)).2 = .error e ∧
        assemble sample_encoders negative_count_program = .error e ∧
        e.is_underflow_except = true ∧ e.is_invalid_argument = true) ∧
    ((tonumber "-3").2 = false →
      ∃ e, (resolve_labels (lowercase_instr_names negative_count_program)).2 = .error e ∧
        assemble sample_encoders negative_count_program = .error e ∧
        e.is_underflow_except = false ∧ e.is_invalid_argument = true)) :=
  ⟨by decide,
    C22_count_operand sample_encoders negative_count_program 2
      (lowercase_instr (line2 "DS" "\"ab\"" "-3")) "-3" negative_count_program_labels
      (by decide)
      (by
        intro k x hk hx a
        have hk2 : k = 0 ∨ k = 1 := by omega
        rcases hk2 with h | h <;> subst h
        · have hx2 : x = { original := "cf\n", instr := "cf" } := by
            have : (lowercase_instr_names negative_count_program)[0]?
                = some { original := "cf\n", instr := "cf" } := by decide
            rw [this] at hx
            exact (Option.some.inj hx).symm
          subst hx2
          exact ⟨(a + 1) % word_mod, rfl⟩
        · have hx2 : x = line1 "resw" "2" := by
            have : (lowercase_instr_names negative_count_program)[1]?
                = some (line1 "resw" "2") := by decide
            rw [this] at hx
            exact (Option.some.inj hx).symm
          subst hx2
          exact ⟨u32_of_int ((a : Int) + 2), rfl⟩)
      (Or.inr (Or.inr ⟨by decide, by decide, by decide⟩)) (by decide)⟩

/-! ## The value operand of `dw` is not range-checked -/

theorem u64_mod_word (v : Int) : u64_of_ll v % word_mod = u32_of_int v := by
  unfold u64_of_ll u32_of_int word_mod
  omega

/-- C23, counterexample: the directives `dw -1` and `dw 4294967296` have a
numeric value operand outside 0..2^32-1, and `assemble` succeeds for both: the
cell 0 holds 4294967295 after the first and 0 after the second. -/
theorem C23_dw_literal_accepted :
    tonumber "-1" = (-1, true) ∧
    assemble sample_encoders [line1 "dw" "-1"]
      = .ok { context := { sys_mem := [(0, 4294967295)], counter := 0 } } ∧
    tonumber "4294967296" = (4294967296, true) ∧
    assemble sample_encoders [line1 "dw" "4294967296"]
      = .ok { context := { sys_mem := [(0, 0)], counter := 0 } } := by
  decide

/-- C23, amended: for a `dw` directive whose value operand is a numeric literal
that `tonumber` reads as `v`, the value is not range-checked: `get_dw_num`
accepts it, encoding the directive fails only with the exception of the count
operand, and when the count is accepted the word that the directive defines is
`v` modulo 2^32; encoded with the emission counter at `A`, no cell at or above
`A` and a count `n >= 1` with `A + n < 2^32`, the directive leaves the cell `A`
holding `v` modulo 2^32. -/
theorem C23_dw_value_truncated (M : metronome32) (dir : directive) (labels : label_addr_map)
    (c : context_data) (v : Int) (hi : dir.instr = "dw")
    (hv : tonumber dir.data.1 = (v, true)) :
    get_dw_num dir labels dir.data.1 = (u64_of_ll v, true) ∧
    (∀ e, pseudop_addrdelta_dw dir = .error e →
      assemble_instruction M dir labels c = (c, some e)) ∧
    (∀ n : Nat, pseudop_addrdelta_dw dir = .ok (n : Int) →
      assemble_instruction M dir labels c
        = ({ sys_mem := dw_fill (u32_of_int v)
              (u32_of_int ((c.counter : Int) + n) - c.counter) c.sys_mem c.counter,
             counter := u32_of_int ((c.counter : Int) + n) }, none) ∧
      (1 ≤ n → c.counter + n < 2 ^ 32 → mem_below c.sys_mem c.counter →
        map_find (assemble_instruction M dir labels c).1.sys_mem c.counter
          = some (u32_of_int v))) := by
  have hg : get_dw_num dir labels dir.data.1 = (u64_of_ll v, true) := by
    unfold get_dw_num
    simp [hv]
  refine ⟨hg, ?_, ?_⟩
  · intro e he
    rw [dw_dispatch M dir labels c hi]
    unfold pseudop_create_instr
    simp [hi, he]
  · intro n hn
    have henc : assemble_instruction M dir labels c
        = ({ sys_mem := dw_fill (u32_of_int v)
              (u32_of_int ((c.counter : Int) + n) - c.counter) c.sys_mem c.counter,
             counter := u32_of_int ((c.counter : Int) + n) }, none) := by
      rw [dw_dispatch M dir labels c hi]
      unfold pseudop_create_instr
      simp [hi, hn, hg, u64_mod_word]
    refine ⟨henc, ?_⟩
    intro h1 hlt hbelow
    have hcnt : u32_of_int ((c.counter : Int) + n) - c.counter = n := by
      unfold u32_of_int
      omega
    rw [henc]
    simp only
    rw [hcnt, dw_fill_find, hbelow c.counter (Nat.le_refl _), Option.none_or,
      if_pos ⟨Nat.le_refl _, by omega⟩]

/-- C23, witness: `dw -5, 2` encoded at emission counter 3 leaves the cell 3
holding 2^32 - 5. -/
theorem C23_dw_value_truncated_witness :
    (assemble_instruction sample_encoders (line2 "dw" "-5" "2") []
        { sys_mem := [(2, 33)], counter := 3 }
      = ({ sys_mem := [(2, 33), (3, 4294967291), (4, 4294967291)], counter := 5 }, none) ∧
      u32_of_int (-5) = 4294967291) ∧
    (get_dw_num (line2 "dw" "-5" "2") [] (line2 "dw" "-5" "2").data.1 = (u64_of_ll (-5), true) ∧
    (∀ e, pseudop_addrdelta_dw (line2 "dw" "-5" "2") = .error e →
      assemble_instruction sample_encoders (line2 "dw" "-5" "2") []
          { sys_mem := [(2, 33)], counter := 3 }
        = ({ sys_mem := [(2, 33)], counter := 3 }, some e)) ∧
    (∀ n : Nat, pseudop_addrdelta_dw (line2 "dw" "-5" "2") = .ok (n : Int) →
      assemble_instruction sample_encoders (line2 "dw" "-5" "2") []
          { sys_mem := [(2, 33)], counter := 3 }
        = ({ sys_mem := dw_fill (u32_of_int (-5))
              (u32_of_int (((3 : Nat) : Int) + n) - 3) [(2, 33)] 3,
             counter := u32_of_int (((3 : Nat) : Int) + n) }, none) ∧
      (1 ≤ n → 3 + n < 2 ^ 32 → mem_below [(2, 33)] 3 →
        map_find (assemble_instruction sample_encoders (line2 "dw" "-5" "2") []
            { sys_mem := [(2, 33)], counter := 3 }).1.sys_mem 3
          = some (u32_of_int (-5))))) :=
  ⟨by decide,
    C23_dw_value_truncated sample_encoders (line2 "dw" "-5" "2") []
      { sys_mem := [(2, 33)], counter := 3 } (-5) (by decide) (by decide)⟩

/-! ## `dw` without operands -/

theorem dw_empty_operand_fails (M : metronome32) (dir : directive) (labels : label_addr_map)
    (c : context_data) (hi : dir.instr = "dw") (h1 : dir.data.1 = "")
    (hl : map_find labels "" = none) :
    assemble_instruction M dir labels c
      = (c, some (.invalid_argument 749 dir.original "Argument one is not a label or number.")) := by
  have ht : tonumber "" = (0, false) := by decide
  have hne : ¬ ("" = "_HERE") := by decide
  rw [dw_dispatch M dir labels c hi]
  unfold pseudop_create_instr pseudop_addrdelta_dw get_dw_num get_label_addr
  simp [hi, h1, ht, hl, hne]

/-- C24, at the failing input `dw_bare_program`: the resolver accepts the
directive `dw` without operands with the size 1 (the directive after it gets
the address 1), the encoder finds no number and no label in the empty operand
1, and `assemble` fails with the `invalid_argument` of line 749 instead of
defining one word with the value 0. -/
theorem C24_dw_without_operands_fails (M : metronome32) :
    pseudop_addrdelta_dw { original := "dw\n", instr := "dw" } = .ok 1 ∧
    resolve_labels (lowercase_instr_names dw_bare_program)
      = ([{ original := "dw\n", instr := "dw", address := 0 },
          { original := "cf\n", instr := "cf", address := 1 }], .ok []) ∧
    get_dw_num { original := "dw\n", instr := "dw" } [] "" = (0, false) ∧
    assemble M dw_bare_program
      = .error (.invalid_argument 749 "dw\n" "Argument one is not a label or number.") :=
  ⟨by decide, by decide, by decide, rfl⟩

/-! ## The keys of the mnemonic tables -/

theorem map_find_isSome_iff {V : Type} (m : List (String × V)) (k : String) :
    (map_find m k).isSome = true ↔ k ∈ m.map Prod.fst := by
  constructor
  · exact map_find_isSome_keys m k
  · intro h
    induction m with
    | nil => simp at h
    | cons p m ih =>
      obtain ⟨k1, v1⟩ := p
      by_cases hk : k1 = k
      · simp [map_find, hk]
      · simp only [map_find, hk, if_false]
        apply ih
        simp only [List.map_cons, List.mem_cons] at h
        rcases h with h | h
        · exact absurd h.symm hk
        · exact h

theorem map_find_isSome_decide {V : Type} (m : List (String × V)) (k : String) :
    (map_find m k).isSome = decide (k ∈ m.map Prod.fst) :=
  Bool.eq_iff_iff.mpr ((map_find_isSome_iff m k).trans decide_eq_true_iff.symm)

theorem family_count_keys (M : metronome32) (s : String) :
    family_count M s = (family_keys.filter (fun ks => decide (s ∈ ks))).length := by
  have e1 : (r1_new_instr M).map Prod.fst = r1_mnemonics := rfl
  have e2 : (r2_new_instr M).map Prod.fst = ["rl", "rr", "sll", "slt", "sra", "srl"] := rfl
  have e3 : (i_new_instr M).map Prod.fst = ["addi", "andi", "ori", "slti", "xori"] := rfl
  have e4 : (b1_new_instr M).map Prod.fst = ["bgez", "bgtz", "blez", "bltz", "jal"] := rfl
  have e5 : (b2_new_instr M).map Prod.fst = ["beq", "bgezal", "bltzal", "blne"] := rfl
  unfold family_count family_keys
  rw [map_find_isSome_decide, map_find_isSome_decide, map_find_isSome_decide,
    map_find_isSome_decide, map_find_isSome_decide, e1, e2, e3, e4, e5]
  by_cases c1 : s ∈ r1_mnemonics <;>
  by_cases c2 : s ∈ ["rl", "rr", "sll", "slt", "sra", "srl"] <;>
  by_cases c3 : s ∈ ["addi", "andi", "ori", "slti", "xori"] <;>
  by_cases c4 : s ∈ ["bgez", "bgtz", "blez", "bltz", "jal"] <;>
  by_cases c5 : s ∈ ["beq", "bgezal", "bltzal", "blne"] <;>
  simp only [List.filter, c1, c2, c3, c4, c5, decide_True, decide_False, if_true,
    Bool.false_eq_true, if_false, List.length_cons, List.length_nil]

/-- Every mnemonic other than `slt` is a key of at most one of the five tables. -/
theorem family_count_other (M : metronome32) (s : String) (h : s ≠ "slt") :
    family_count M s ≤ 1 := by
  rw [family_count_keys]
  by_cases hm : s ∈ family_keys.flatten
  · have hall : ∀ t ∈ family_keys.flatten, t ≠ "slt" →
        (family_keys.filter (fun ks => decide (t ∈ ks))).length ≤ 1 := by decide
    exact hall s hm h
  · have hnone : family_keys.filter (fun ks => decide (s ∈ ks)) = [] := by
      rw [List.filter_eq_nil_iff]
      intro ks hks
      simp only [decide_eq_true_eq]
      intro hs
      exact hm (List.mem_flatten.mpr ⟨ks, hks, hs⟩)
    rw [hnone]
    exact Nat.zero_le 1

/-- C25, at the mnemonic `slt`: it is a key of the table `r1_new_instr` and of
the table `r2_new_instr`, so the two tables are not disjoint and `slt` belongs
to two of the five tables; `assemble_instruction` looks at `r1_new_instr`
first, so that `slt %r1, 5` fails for want of a second register. -/
theorem C25_slt_in_two_tables (M : metronome32) :
    (map_find (r1_new_instr M) "slt").isSome = true ∧
    (map_find (r2_new_instr M) "slt").isSome = true ∧
    family_count M "slt" = 2 ∧
    assemble_instruction M (line2 "slt" "%r1" "5") [] {}
      = ({}, some (.invalid_argument 547 "slt %r1, 5\n" "Expected '5' to be a register.")) :=
  ⟨rfl, rfl, rfl, rfl⟩

/-! ## Escape decoding -/

theorem unescape_list_decodes : ∀ (n : Nat) (s : List Char), s.length ≤ n →
    decodes s (unescape_list s) := by
  intro n
  induction n with
  | zero =>
    intro s hs
    have : s = [] := List.length_eq_zero.mp (Nat.le_zero.mp hs)
    subst this
    exact decodes.done
  | succ n ih =>
    intro s hs
    match s, hs with
    | [], _ => exact decodes.done
    | [c], _ =>
      exact decodes.single c [] [] (fun d rest1 h => by cases h) decodes.done
    | c :: d :: rest, hs =>
      simp only [List.length_cons] at hs
      cases hu : unescape c d with
      | some r =>
        simp only [unescape_list, hu]
        exact decodes.pair c d r rest _ hu (ih rest (by omega))
      | none =>
        simp only [unescape_list, hu]
        refine decodes.single c (d :: rest) _ ?_ (ih (d :: rest) (by simp only [List.length_cons]; omega))
        intro d1 rest1 h
        cases h
        exact hu

theorem decodes_unique (s out : List Char) (h : decodes s out) : out = unescape_list s := by
  induction h with
  | done => rfl
  | pair c d r rest out hu _ ih =>
    simp only [unescape_list, hu, ih]
  | single c rest out hn _ ih =>
    cases rest with
    | nil =>
      cases ‹decodes [] out›
      rfl
    | cons d rest1 =>
      simp only [unescape_list, hn d rest1 rfl, ih]

theorem unescape_table (c d : Char) :
    (∃ r, unescape c d = some r) ↔
      c = Char.ofNat 92 ∧ d ∈ ['a', 'b', '?', 'f', 'n', 'r', 't', 'v', Char.ofNat 92] := by
  unfold unescape
  by_cases hc : c = Char.ofNat 92
  · simp only [hc, ne_eq, not_true_eq_false, if_false, true_and, List.mem_cons,
      List.mem_singleton, List.not_mem_nil, or_false]
    split_ifs <;> simp_all
  · simp [hc]

theorem unescape_list_plain (s : List Char) (h : Char.ofNat 92 ∉ s) : unescape_list s = s := by
  induction s with
  | nil => rfl
  | cons c rest ih =>
    have hc : c ≠ Char.ofNat 92 := fun e => h (by simp [e])
    have hr : Char.ofNat 92 ∉ rest := fun e => h (List.mem_cons_of_mem _ e)
    cases rest with
    | nil => rfl
    | cons d rest1 =>
      have hu : unescape c d = none := by simp [unescape, hc]
      simp only [unescape_list, hu, ih hr]

/-- C28: `unescape_chars` produces exactly what the left-to-right decoding
produces: each recognised pair is replaced by its character and the scan goes
on behind the pair, so that the character produced is not read again, and a
character that starts no recognised pair where it stands (a backslash before
another character or at the end as well) is kept. The recognised pairs are a
backslash followed by one of a, b, ?, f, n, r, t, v and backslash, with the
characters BEL, BS, ?, FF, LF, CR, HT, VT and backslash. A string without
backslash is returned unchanged, and backslash backslash n is decoded to
backslash n. -/
theorem C28_unescape_chars (s : String) :
    (∀ out : List Char, decodes s.data out ↔ out = (unescape_chars s).data) ∧
    (∀ c d : Char, (∃ r, unescape c d = some r) ↔
      c = Char.ofNat 92 ∧ d ∈ ['a', 'b', '?', 'f', 'n', 'r', 't', 'v', Char.ofNat 92]) ∧
    [unescape (Char.ofNat 92) 'a', unescape (Char.ofNat 92) 'b', unescape (Char.ofNat 92) '?',
      unescape (Char.ofNat 92) 'f', unescape (Char.ofNat 92) 'n', unescape (Char.ofNat 92) 'r',
      unescape (Char.ofNat 92) 't', unescape (Char.ofNat 92) 'v',
      unescape (Char.ofNat 92) (Char.ofNat 92)]
      = [some (Char.ofNat 7), some (Char.ofNat 8), some '?', some (Char.ofNat 12),
          some (Char.ofNat 10), some (Char.ofNat 13), some (Char.ofNat 9), some (Char.ofNat 11),
          some (Char.ofNat 92)] ∧
    (Char.ofNat 92 ∉ s.data → unescape_chars s = s) ∧
    unescape_chars "\\\\n" = "\\n" ∧
    unescape_chars "a\\qb\\" = "a\\qb\\" ∧
    unescape_chars "x\\ty\\\\" = "x\ty\\" := by
  refine ⟨fun out => ⟨fun h => ?_, fun h => ?_⟩, unescape_table, by decide, fun h => ?_,
    by decide, by decide, by decide⟩
  · exact decodes_unique s.data out h
  · rw [h]
    exact unescape_list_decodes s.data.length s.data (Nat.le_refl _)
  · unfold unescape_chars
    rw [unescape_list_plain s.data h]

/-! ## Letter case of mnemonics -/

theorem lowercase_instr_names_case (pr pr1 : parse_results)
    (h : List.Forall₂ same_up_to_case pr pr1) :
    lowercase_instr_names pr1 = lowercase_instr_names pr := by
  induction h with
  | nil => rfl
  | cons hab _ ih =>
    obtain ⟨h1, h2⟩ := hab
    unfold lowercase_instr_names at ih ⊢
    rw [List.map_cons, List.map_cons, ih]
    congr 1
    unfold lowercase_instr
    rw [h1]
    simp only [h2]

/-- C29: when the mnemonics of a directive list are replaced by spellings that
differ from them only in letter case, `assemble` returns the same result: the
same image, with its memory map and entry point, or the same exception. -/
theorem C29_mnemonic_case (M : metronome32) (pr pr1 : parse_results)
    (h : List.Forall₂ same_up_to_case pr pr1) :
    assemble M pr1 = assemble M pr := by
  unfold assemble
  rw [lowercase_instr_names_case pr pr1 h]

/-- C29, witness: `sample_program` with the mnemonics `RESW`, `Ds`, `dW`, `cf`
and `J` is assembled to the image of `sample_program`. -/
theorem C29_mnemonic_case_witness :
    assemble sample_encoders
      [{ original := "buf: resw 3\n", label := "buf", instr := "RESW", data := ("3", "") },
       { original := "msg:\n", label := "msg" },
       { original := "ds \"abc\", 2\n", instr := "Ds", data := ("\"abc\"", "2") },
       { original := "dw 7, 3\n", instr := "dW", data := ("7", "3") },
       { original := "_ENTRY: CF\n", label := "_ENTRY", instr := "cf" },
       { original := "j buf\n", instr := "J", data := ("buf", "") }]
      = assemble sample_encoders sample_program ∧
    assemble sample_encoders sample_program = .ok sample_image :=
  ⟨C29_mnemonic_case sample_encoders sample_program _
    (.cons ⟨rfl, by decide⟩ (.cons ⟨rfl, by decide⟩ (.cons ⟨rfl, by decide⟩
      (.cons ⟨rfl, by decide⟩ (.cons ⟨rfl, by decide⟩ (.cons ⟨rfl, by decide⟩ .nil)))))),
    by decide⟩
/-! ## The directive vector after a failed resolution -/

/-- C30, at the failing input `half_resolved_program`: `resolve_labels` throws
`unknown_instruction` at the third directive, and the directive vector it was
given by reference is changed: the second directive has the address 3 and the
third the address 3 + 1, where both had the address 0 before the call. -/
theorem C30_addresses_changed_on_failure :
    resolve_labels half_resolved_program
      = ([line1 "resw" "3", { original := "cf\n", instr := "cf", address := 3 },
          { line1 "frob" "%r1" with address := 4 }],
         .error (.unknown_instruction 255 "frob %r1\n")) ∧
    (resolve_labels half_resolved_program).1 ≠ half_resolved_program ∧
    half_resolved_program.map directive.address = [0, 0, 0] ∧
    (resolve_labels half_resolved_program).1.map directive.address = [0, 3, 4] := by
  decide

/-! ## The matcher -/

theorem star_loop_trace {R : Type} (P : Char → Prop)
    (step : List Char → captures → regex_cont R → Option R)
    (hstep : ∀ (s : List Char) (c : captures) (k : regex_cont R) (x : R),
      step s c k = some x →
      ∃ pre s1 c1, s = pre ++ s1 ∧ (∀ ch ∈ pre, P ch) ∧ k s1 c1 = some x)
    (g : Bool) :
    ∀ (n : Nat) (s : List Char) (c : captures) (k : regex_cont R) (x : R),
      star_loop step g n s c k = some x →
      ∃ pre s1 c1, s = pre ++ s1 ∧ (∀ ch ∈ pre, P ch) ∧ k s1 c1 = some x := by
  intro n
  induction n with
  | zero =>
    intro s c k x h
    exact ⟨[], s, c, rfl, fun ch hch => absurd hch (List.not_mem_nil ch), h⟩
  | succ n ih =>
    intro s c k x h
    have hmore : ∀ y, step s c (fun s1 c1 =>
        if s1.length < s.length then star_loop step g n s1 c1 k else none) = some y →
        ∃ pre s1 c1, s = pre ++ s1 ∧ (∀ ch ∈ pre, P ch) ∧ k s1 c1 = some y := by
      intro y hy
      obtain ⟨pre, s1, c1, hs, hp, hk⟩ := hstep _ _ _ _ hy
      by_cases hlt : s1.length < s.length
      · simp only [hlt, if_true] at hk
        obtain ⟨pre2, s2, c2, hs2, hp2, hk2⟩ := ih s1 c1 k y hk
        refine ⟨pre ++ pre2, s2, c2, by rw [hs, hs2, List.append_assoc], ?_, hk2⟩
        intro ch hch
        rcases List.mem_append.mp hch with h1 | h1
        · exact hp ch h1
        · exact hp2 ch h1
      · simp [hlt] at hk
    have hstop : ∀ y, k s c = some y →
        ∃ pre s1 c1, s = pre ++ s1 ∧ (∀ ch ∈ pre, P ch) ∧ k s1 c1 = some y :=
      fun y hy => ⟨[], s, c, rfl, fun ch hch => absurd hch (List.not_mem_nil ch), hy⟩
    unfold star_loop at h
    cases g with
    | true =>
      simp only [if_true] at h
      split at h
      · next r hr =>
        cases h
        exact hmore _ hr
      · exact hstop _ h
    | false =>
      simp only [Bool.false_eq_true, if_false] at h
      split at h
      · next r hr =>
        cases h
        exact hstop _ hr
      · exact hmore _ h

theorem run_trace {R : Type} (P : Char → Prop) (r : regex) :
    r.within P →
    ∀ (s : List Char) (c : captures) (k : regex_cont R) (x : R),
      r.run s c k = some x →
      ∃ pre s1 c1, s = pre ++ s1 ∧ (∀ ch ∈ pre, P ch) ∧ k s1 c1 = some x := by
  induction r generalizing R with
  | eps =>
    intro _ s c k x h
    exact ⟨[], s, c, rfl, fun ch hch => absurd hch (List.not_mem_nil ch), h⟩
  | chr p =>
    intro hp s c k x h
    cases s with
    | nil => simp [regex.run] at h
    | cons y ys =>
      simp only [regex.run] at h
      by_cases hy : p y = true
      · simp only [hy, if_true] at h
        refine ⟨[y], ys, c, rfl, ?_, h⟩
        intro ch hch
        simp only [List.mem_singleton] at hch
        subst hch
        exact hp _ hy
      · simp [hy] at h
  | seq a b iha ihb =>
    intro hw s c k x h
    simp only [regex.run] at h
    obtain ⟨pre, s1, c1, hs, hp, hk⟩ := iha hw.1 _ _ _ _ h
    obtain ⟨pre2, s2, c2, hs2, hp2, hk2⟩ := ihb hw.2 _ _ _ _ hk
    refine ⟨pre ++ pre2, s2, c2, by rw [hs, hs2, List.append_assoc], ?_, hk2⟩
    intro ch hch
    rcases List.mem_append.mp hch with h1 | h1
    · exact hp ch h1
    · exact hp2 ch h1
  | alt a b iha ihb =>
    intro hw s c k x h
    simp only [regex.run] at h
    split at h
    · next r hr =>
      cases h
      exact iha hw.1 _ _ _ _ hr
    · exact ihb hw.2 _ _ _ _ h
  | star g a iha =>
    intro hw s c k x h
    simp only [regex.run] at h
    exact star_loop_trace P _ (fun s c k x hx => iha hw s c k x hx) g _ _ _ _ _ h
  | group i a iha =>
    intro hw s c k x h
    simp only [regex.run] at h
    obtain ⟨pre, s1, c1, hs, hp, hk⟩ := iha hw _ _ _ _ h
    exact ⟨pre, s1, _, hs, hp, hk⟩
theorem regex_within_true (r : regex) : r.within (fun _ => True) := by
  induction r with
  | eps => trivial
  | chr p => intro _ _; trivial
  | seq a b iha ihb => exact ⟨iha, ihb⟩
  | alt a b iha ihb => exact ⟨iha, ihb⟩
  | star g a iha => exact iha
  | group i a iha => exact iha

/-- The continuation is called on a rest of the input only. -/
theorem run_suffix {R : Type} (r : regex) (s : List Char) (c : captures) (k : regex_cont R)
    (x : R) (h : r.run s c k = some x) :
    ∃ pre s1 c1, s = pre ++ s1 ∧ k s1 c1 = some x := by
  obtain ⟨pre, s1, c1, hs, _, hk⟩ := run_trace (fun _ => True) r (regex_within_true r) s c k x h
  exact ⟨pre, s1, c1, hs, hk⟩

theorem run_fail {R : Type} (r : regex) (s : List Char) (c : captures) :
    r.run s c (fun _ _ => (none : Option R)) = none := by
  cases h : r.run s c (fun _ _ => (none : Option R)) with
  | none => rfl
  | some x =>
    obtain ⟨_, _, _, _, hk⟩ := run_suffix r s c _ x h
    cases hk

theorem star_loop_mono {R T : Type}
    (step : List Char → captures → regex_cont R → Option R)
    (step1 : List Char → captures → regex_cont T → Option T)
    (hstep : ∀ (s : List Char) (c d : captures) (k : regex_cont R) (k1 : regex_cont T),
      (∀ s1 c1 d1, (k s1 c1).isSome = true → (k1 s1 d1).isSome = true) →
      (step s c k).isSome = true → (step1 s d k1).isSome = true)
    (g : Bool) :
    ∀ (n : Nat) (s : List Char) (c d : captures) (k : regex_cont R) (k1 : regex_cont T),
      (∀ s1 c1 d1, (k s1 c1).isSome = true → (k1 s1 d1).isSome = true) →
      (star_loop step g n s c k).isSome = true → (star_loop step1 g n s d k1).isSome = true := by
  intro n
  induction n with
  | zero =>
    intro s c d k k1 hk h
    exact hk s c d h
  | succ n ih =>
    intro s c d k k1 hk h
    have hmore : (step s c (fun s1 c1 =>
          if s1.length < s.length then star_loop step g n s1 c1 k else none)).isSome = true →
        (step1 s d (fun s1 c1 =>
          if s1.length < s.length then star_loop step1 g n s1 c1 k1 else none)).isSome = true := by
      apply hstep
      intro s1 c1 d1 h1
      by_cases hlt : s1.length < s.length
      · simp only [hlt, if_true] at h1 ⊢
        exact ih s1 c1 d1 k k1 hk h1
      · simp [hlt] at h1
    unfold star_loop at h ⊢
    cases g with
    | true =>
      simp only [if_true] at h ⊢
      split at h
      · next r hr =>
        have h2 := hmore (by rw [hr]; rfl)
        split
        · rfl
        · next hn => rw [hn] at h2; cases h2
      · have h2 := hk s c d h
        split
        · rfl
        · exact h2
    | false =>
      simp only [Bool.false_eq_true, if_false] at h ⊢
      split at h
      · next r hr =>
        have h2 := hk s c d (by rw [hr]; rfl)
        split
        · rfl
        · next hn => rw [hn] at h2; cases h2
      · have h2 := hmore h
        split
        · rfl
        · exact h2

/-- Whether the matcher succeeds depends on where the continuation succeeds,
not on the captures. -/
theorem run_mono (r : regex) : ∀ {R T : Type} (s : List Char) (c d : captures)
    (k : regex_cont R) (k1 : regex_cont T),
    (∀ s1 c1 d1, (k s1 c1).isSome = true → (k1 s1 d1).isSome = true) →
    (r.run s c k).isSome = true → (r.run s d k1).isSome = true := by
  induction r with
  | eps =>
    intro R T s c d k k1 hk h
    exact hk s c d h
  | chr p =>
    intro R T s c d k k1 hk h
    cases s with
    | nil => simp [regex.run] at h
    | cons y ys =>
      simp only [regex.run] at h ⊢
      by_cases hy : p y = true
      · simp only [hy, if_true] at h ⊢
        exact hk ys c d h
      · simp [hy] at h
  | seq a b iha ihb =>
    intro R T s c d k k1 hk h
    simp only [regex.run] at h ⊢
    exact iha s c d _ _ (fun s1 c1 d1 h1 => ihb s1 c1 d1 k k1 hk h1) h
  | alt a b iha ihb =>
    intro R T s c d k k1 hk h
    simp only [regex.run] at h ⊢
    split at h
    · next r hr =>
      have h2 := iha s c d k k1 hk (by rw [hr]; rfl)
      split
      · rfl
      · next hn => rw [hn] at h2; cases h2
    · have h2 := ihb s c d k k1 hk h
      split
      · rfl
      · exact h2
  | star g a iha =>
    intro R T s c d k k1 hk h
    simp only [regex.run] at h ⊢
    exact star_loop_mono _ _ (fun s c d k k1 hk h => iha s c d k k1 hk h) g _ s c d k k1 hk h
  | group i a iha =>
    intro R T s c d k k1 hk h
    simp only [regex.run] at h ⊢
    exact iha s c d _ _ (fun s1 c1 d1 h1 => hk s1 _ _ h1) h

/-- The bound on the iterations of a quantifier is never reached: any bound
from the length of the input on gives the same result. -/
theorem star_loop_fuel {R : Type} (step : List Char → captures → regex_cont R → Option R)
    (hfail : ∀ s c, step s c (fun _ _ => none) = none) (g : Bool) :
    ∀ (L : Nat) (s : List Char) (c : captures) (k : regex_cont R) (n m : Nat),
      s.length ≤ L → s.length ≤ n → s.length ≤ m →
      star_loop step g n s c k = star_loop step g m s c k := by
  intro L
  induction L with
  | zero =>
    intro s c k n m hL _ _
    have hs : s = [] := List.length_eq_zero.mp (Nat.le_zero.mp hL)
    subst hs
    have hstop : ∀ j, star_loop step g j [] c k = k [] c := by
      intro j
      cases j with
      | zero => rfl
      | succ j =>
        unfold star_loop
        have hK : (fun (s1 : List Char) (c1 : captures) =>
            if s1.length < ([] : List Char).length then star_loop step g j s1 c1 k else none)
            = fun _ _ => none := by
          funext s1 c1
          simp
        rw [hK, hfail]
        cases g
        · simp only [Bool.false_eq_true, if_false]
          cases k [] c <;> rfl
        · rfl
    rw [hstop n, hstop m]
  | succ L ih =>
    intro s c k n m hL hn hm
    by_cases hs : s.length ≤ L
    · exact ih s c k n m hs hn hm
    · have hlen : s.length = L + 1 := by omega
      cases n with
      | zero => omega
      | succ n =>
        cases m with
        | zero => omega
        | succ m =>
          have hK : (fun (s1 : List Char) (c1 : captures) =>
              if s1.length < s.length then star_loop step g n s1 c1 k else none)
              = fun s1 c1 =>
                if s1.length < s.length then star_loop step g m s1 c1 k else none := by
            funext s1 c1
            by_cases hlt : s1.length < s.length
            · simp only [hlt, if_true]
              exact ih s1 c1 k n m (by omega) (by omega) (by omega)
            · simp [hlt]
          unfold star_loop
          rw [hK]
/-! ## The shape of a directive line -/

theorem newline_run (y : Char) (ys : List Char) (c : captures) {R : Type} (k : regex_cont R) :
    (regex.lit '\n').run (y :: ys) c k = if y = '\n' then k ys c else none := by
  simp [regex.lit, regex.run]

theorem newline_star_all (c : captures) :
    ∀ (n : Nat) (s : List Char), s.length ≤ n →
      star_loop (fun s1 c1 k1 => (regex.lit '\n').run s1 c1 k1) true n s c
          (fun s1 c1 => some (s1, c1))
        = some (s.dropWhile (fun ch => decide (ch = '\n')), c) := by
  intro n
  induction n with
  | zero =>
    intro s hs
    have : s = [] := List.length_eq_zero.mp (Nat.le_zero.mp hs)
    subst this
    rfl
  | succ n ih =>
    intro s hs
    unfold star_loop
    cases s with
    | nil => rfl
    | cons x xs =>
      simp only [List.length_cons] at hs
      simp only [if_true]
      rw [newline_run]
      by_cases hx : x = '\n'
      · simp only [hx, if_true, List.length_cons, Nat.lt_succ_self, ih xs (by omega),
          List.dropWhile_cons, decide_True]
      · simp only [hx, if_false, List.dropWhile_cons, decide_False, Bool.false_eq_true]

theorem newline_plus_all (s : List Char) (c : captures) :
    (regex.plus (regex.lit '\n')).run s c (fun s1 c1 => some (s1, c1))
      = match s with
        | [] => none
        | x :: t =>
          if x = '\n' then some (t.dropWhile (fun ch => decide (ch = '\n')), c) else none := by
  cases s with
  | nil => rfl
  | cons x t =>
    by_cases hx : x = '\n'
    · simp only [regex.plus, regex.run, regex.lit, hx, decide_True, if_true]
      exact newline_star_all c t.length t (Nat.le_refl _)
    · simp [regex.plus, regex.run, regex.lit, hx]

theorem newline_plus_trace {R : Type} (s : List Char) (c : captures) (k : regex_cont R) (x : R)
    (h : (regex.plus (regex.lit '\n')).run s c k = some x) :
    ∃ t nls s2 c2, s = '\n' :: t ∧ t = nls ++ s2 ∧ (∀ ch ∈ nls, ch = '\n') ∧
      k s2 c2 = some x := by
  cases s with
  | nil => simp [regex.plus, regex.run, regex.lit] at h
  | cons y t =>
    by_cases hy : y = '\n'
    · simp only [regex.plus, regex.run, regex.lit, hy, decide_True, if_true] at h
      have hw : (regex.chr (fun ch => decide (ch = '\n'))).within (fun ch => ch = '\n') := by
        intro ch hch
        simpa using hch
      obtain ⟨nls, s2, c2, hs, hp, hk⟩ :=
        star_loop_trace (fun ch => ch = '\n') _
          (fun s c k x hx => run_trace (fun ch => ch = '\n') _ hw s c k x hx)
          true _ _ _ _ _ h
      exact ⟨t, nls, s2, c2, by rw [hy], hs, hp, hk⟩
    · simp [regex.plus, regex.run, regex.lit, hy] at h

theorem pat_line_within : pat_line.within (fun ch => ch ≠ '\n') := by
  simp only [pat_line, pat_hws, pat_label, pat_instr, pat_comment, pat_name, pat_data,
    pat_datum, pat_anynum, pat_hexnum, pat_octnum, pat_decnum, pat_sign, pat_str, pat_str_of,
    pat_reg, pat_rhws, regex.opt, regex.plus, regex.lit, regex.letter, regex.within,
    and_self, and_true, true_and]
  repeat' apply And.intro
  all_goals (intro ch h e; subst e; exact absurd h (by decide))

theorem first_newline_unique : ∀ (pre pre1 t t1 : List Char),
    pre ++ '\n' :: t = pre1 ++ '\n' :: t1 → (∀ ch ∈ pre, ch ≠ '\n') →
    (∀ ch ∈ pre1, ch ≠ '\n') → pre = pre1 ∧ t = t1 := by
  intro pre
  induction pre with
  | nil =>
    intro pre1 t t1 h _ h1
    cases pre1 with
    | nil =>
      simp only [List.nil_append, List.cons.injEq, true_and] at h
      exact ⟨rfl, h⟩
    | cons y ys =>
      simp only [List.nil_append, List.cons_append, List.cons.injEq] at h
      exact absurd h.1.symm (h1 y (by simp))
  | cons z zs ih =>
    intro pre1 t t1 h h0 h1
    cases pre1 with
    | nil =>
      simp only [List.nil_append, List.cons_append, List.cons.injEq] at h
      exact absurd h.1 (h0 z (by simp))
    | cons y ys =>
      simp only [List.cons_append, List.cons.injEq] at h
      obtain ⟨e1, e2⟩ := ih ys t t1 h.2 (fun ch hch => h0 ch (List.mem_cons_of_mem _ hch))
        (fun ch hch => h1 ch (List.mem_cons_of_mem _ hch))
      exact ⟨by rw [h.1, e1], e2⟩

/-- A match of `patterns::directive` takes a text without newline, a newline
and further newlines off the input. -/
theorem directive_trace {R : Type} (s : List Char) (c : captures) (k : regex_cont R) (x : R)
    (h : pat_directive.run s c k = some x) :
    ∃ pre t nls s2 c2, s = pre ++ '\n' :: t ∧ (∀ ch ∈ pre, ch ≠ '\n') ∧ t = nls ++ s2 ∧
      (∀ ch ∈ nls, ch = '\n') ∧ k s2 c2 = some x := by
  unfold pat_directive at h
  rw [regex.run] at h
  obtain ⟨pre, s1, c1, hs, hp, hk⟩ := run_trace _ pat_line pat_line_within _ _ _ _ h
  obtain ⟨t, nls, s2, c2, hs1, ht, hn, hk2⟩ := newline_plus_trace s1 c1 k x hk
  exact ⟨pre, t, nls, s2, c2, by rw [hs, hs1], hp, ht, hn, hk2⟩

/-- The match of `patterns::directive` that `regex_search` finds at a position
ends behind all the newlines of the line. -/
theorem directive_match_shape (s a : List Char) (c cm : captures)
    (h : pat_directive.run s c (fun s1 c1 => some (s1, c1)) = some (a, cm)) :
    ∃ pre t, s = pre ++ '\n' :: t ∧ (∀ ch ∈ pre, ch ≠ '\n') ∧
      a = t.dropWhile (fun ch => decide (ch = '\n')) := by
  unfold pat_directive at h
  rw [regex.run] at h
  obtain ⟨pre, s1, c1, hs, hp, hk⟩ := run_trace _ pat_line pat_line_within _ _ _ _ h
  rw [newline_plus_all] at hk
  cases s1 with
  | nil => cases hk
  | cons y t =>
    by_cases hy : y = '\n'
    · simp only [hy, if_true, Option.some.injEq, Prod.mk.injEq] at hk
      exact ⟨pre, t, by rw [hs, hy], hp, hk.1.symm⟩
    · simp [hy] at hk
/-! ## `regex_search` and the gate `consists_of_directives` -/

theorem take_of_append (pre a s : List Char) (h : s = pre ++ a) :
    s.take (s.length - a.length) = pre := by
  subst h
  simp

/-- What `regex_search` returns: the text is `prefix()`, `results[0]` and
`suffix()` one after the other, and the expression matches at the start of
`results[0]`, leaving `suffix()`. -/
theorem regex_search_from_sound (r : regex) :
    ∀ (s skipped : List Char) (m : smatch), regex_search_from r skipped s = some m →
      skipped ++ s = m.before ++ (m.whole ++ m.after) ∧
      r.run (m.whole ++ m.after) [] (fun s1 c1 => some (s1, c1)) = some (m.after, m.groups) := by
  intro s
  induction s with
  | nil =>
    intro skipped m h
    unfold regex_search_from at h
    split at h
    · next s1 c1 hr =>
      obtain ⟨pre, s2, c2, hs, hk⟩ := run_suffix r [] [] _ _ hr
      simp only [Option.some.injEq, Prod.mk.injEq] at hk
      have hs2 : s1 = [] := by
        rw [← hk.1]
        exact (List.append_eq_nil.mp hs.symm).2
      subst hs2
      cases h
      exact ⟨rfl, hr⟩
    · cases h
  | cons x xs ih =>
    intro skipped m h
    unfold regex_search_from at h
    split at h
    · next s1 c1 hr =>
      obtain ⟨pre, s2, c2, hs, hk⟩ := run_suffix r (x :: xs) [] _ _ hr
      simp only [Option.some.injEq, Prod.mk.injEq] at hk
      have hs1 : x :: xs = pre ++ s1 := by rw [hs, hk.1]
      have ht := take_of_append pre s1 (x :: xs) hs1
      cases h
      simp only
      rw [ht, ← hs1]
      exact ⟨rfl, hr⟩
    · obtain ⟨h1, h2⟩ := ih (skipped ++ [x]) m h
      refine ⟨?_, h2⟩
      rw [← h1]
      simp

theorem regex_search_at_start (r : regex) (s a : List Char) (cm : captures)
    (h : r.run s [] (fun s1 c1 => some (s1, c1)) = some (a, cm)) :
    regex_search r s
      = some { before := [], whole := s.take (s.length - a.length), groups := cm, after := a } := by
  unfold regex_search
  cases s with
  | nil =>
    unfold regex_search_from
    rw [h]
    obtain ⟨pre, s2, c2, hs, hk⟩ := run_suffix r [] [] _ _ h
    simp only [Option.some.injEq, Prod.mk.injEq] at hk
    have hs2 : a = [] := by
      rw [← hk.1]
      exact (List.append_eq_nil.mp hs.symm).2
    subst hs2
    rfl
  | cons x xs =>
    unfold regex_search_from
    rw [h]

/-- A match of `directive_pat` is never empty. -/
theorem directive_search_nonempty (s : List Char) (m : smatch)
    (h : regex_search pat_directive s = some m) :
    s = m.before ++ (m.whole ++ m.after) ∧ m.whole ≠ [] ∧ m.after.length < s.length := by
  obtain ⟨h1, h2⟩ := regex_search_from_sound pat_directive s [] m h
  simp only [List.nil_append] at h1
  obtain ⟨pre, t, hs, _, ha⟩ := directive_match_shape _ _ _ _ h2
  have hlen : m.after.length < (m.whole ++ m.after).length := by
    rw [hs, ha]
    have := (List.dropWhile_suffix (l := t) (fun ch => decide (ch = '\n'))).length_le
    simp only [List.length_append, List.length_cons]
    omega
  have hw : m.whole ≠ [] := by
    intro e
    rw [e] at hlen
    simp at hlen
  refine ⟨h1, hw, ?_⟩
  rw [h1]
  simp only [List.length_append] at hlen ⊢
  omega

theorem dropWhile_append_all (p : Char → Bool) : ∀ (nls s : List Char),
    (∀ ch ∈ nls, p ch = true) → (nls ++ s).dropWhile p = s.dropWhile p := by
  intro nls
  induction nls with
  | nil => intro s _; rfl
  | cons y ys ih =>
    intro s h
    have hy : p y = true := h y (by simp)
    simp only [List.cons_append, List.dropWhile_cons, hy, if_true]
    exact ih s (fun ch hch => h ch (List.mem_cons_of_mem _ hch))

theorem consists_unfold (s : List Char) :
    regex_match pat_directive_consists s
      = (star_loop (fun s1 c1 k1 => pat_directive.run s1 c1 k1) true s.length s []
          (fun s1 _ => if s1 = [] then some () else none)).isSome := by
  rfl

theorem consists_of_loop (s : List Char) (c : captures) (n : Nat) (hn : s.length ≤ n)
    (h : (star_loop (fun s1 c1 k1 => pat_directive.run s1 c1 k1) true n s c
      (fun s1 _ => if s1 = [] then some () else none)).isSome = true) :
    regex_match pat_directive_consists s = true := by
  rw [consists_unfold]
  rw [star_loop_fuel _ (fun s c => run_fail pat_directive s c) true s.length s c _ n s.length
    (Nat.le_refl _) hn (Nat.le_refl _)] at h
  exact star_loop_mono _ _ (fun s c d k k1 hk h => run_mono pat_directive s c d k k1 hk h)
    true _ s c [] _ _ (fun s1 c1 d1 h1 => h1) h

/-- One iteration of the gate: the first line is matched, and the gate goes on
behind one or more of its newlines. -/
theorem consists_loop_step (s : List Char) (c : captures) (n : Nat) (hne : s ≠ [])
    (h : (star_loop (fun s1 c1 k1 => pat_directive.run s1 c1 k1) true (n + 1) s c
      (fun s1 _ => if s1 = [] then some () else none)).isSome = true) :
    ∃ (r : Unit) (pre t nls s2 : List Char) (c2 : captures),
      pat_directive.run s c (fun s1 c1 =>
        if s1.length < s.length then
          star_loop (fun s1 c1 k1 => pat_directive.run s1 c1 k1) true n s1 c1
            (fun s1 _ => if s1 = [] then some () else none)
        else none) = some r ∧
      s = pre ++ '\n' :: t ∧ (∀ ch ∈ pre, ch ≠ '\n') ∧ t = nls ++ s2 ∧
      (∀ ch ∈ nls, ch = '\n') ∧ s2.length < s.length ∧
      (star_loop (fun s1 c1 k1 => pat_directive.run s1 c1 k1) true n s2 c2
        (fun s1 _ => if s1 = [] then some () else none)).isSome = true := by
  unfold star_loop at h
  simp only [if_true] at h
  split at h
  · next r hr =>
    obtain ⟨pre, t, nls, s2, c2, hs, hp, ht, hn, hk⟩ := directive_trace _ _ _ _ hr
    by_cases hlt : s2.length < s.length
    · simp only [hlt, if_true] at hk
      exact ⟨r, pre, t, nls, s2, c2, hr, hs, hp, ht, hn, hlt, by rw [hk]; rfl⟩
    · simp [hlt] at hk
  · simp [hne] at h

theorem consists_skip_newlines : ∀ (L : Nat) (s2 : List Char) (c2 : captures) (n : Nat),
    s2.length ≤ L → s2.length ≤ n →
    (star_loop (fun s1 c1 k1 => pat_directive.run s1 c1 k1) true n s2 c2
      (fun s1 _ => if s1 = [] then some () else none)).isSome = true →
    regex_match pat_directive_consists (s2.dropWhile (fun ch => decide (ch = '\n'))) = true := by
  intro L
  induction L with
  | zero =>
    intro s2 c2 n hL hn h
    have hs : s2 = [] := List.length_eq_zero.mp (Nat.le_zero.mp hL)
    subst hs
    rfl
  | succ L ih =>
    intro s2 c2 n hL hn h
    cases s2 with
    | nil => rfl
    | cons y u =>
      by_cases hy : y = '\n'
      · subst hy
        cases n with
        | zero => simp at hn
        | succ n =>
          obtain ⟨_, pre, t, nls, s4, c4, _, hs, hp, ht, hnl, hlt, hloop⟩ :=
            consists_loop_step ('\n' :: u) c2 n (by simp) h
          obtain ⟨e1, e2⟩ := first_newline_unique [] pre u t hs
            (fun ch hch => absurd hch (List.not_mem_nil ch)) hp
          simp only [List.length_cons] at hlt hL hn
          have := ih s4 c4 n (by omega) (by omega) hloop
          rw [List.dropWhile_cons]
          simp only [decide_True, if_true]
          rw [e2, ht, dropWhile_append_all _ nls s4 (fun ch hch => by simp [hnl ch hch])]
          exact this
      · rw [List.dropWhile_cons]
        simp only [hy, decide_False, Bool.false_eq_true, if_false]
        exact consists_of_loop _ c2 n hn h

/-- Under the gate, `regex_search` finds its match at the start of a text that
is not empty, and the text behind the match passes the gate again. -/
theorem consists_step (s : List Char) (hc : regex_match pat_directive_consists s = true)
    (hne : s ≠ []) :
    ∃ m, regex_search pat_directive s = some m ∧ m.before = [] ∧ m.whole ≠ [] ∧
      s = m.whole ++ m.after ∧ regex_match pat_directive_consists m.after = true := by
  rw [consists_unfold] at hc
  obtain ⟨n, hn⟩ : ∃ n, s.length = n + 1 := by
    cases s with
    | nil => exact absurd rfl hne
    | cons y ys => exact ⟨ys.length, rfl⟩
  rw [hn] at hc
  obtain ⟨r, pre, t, nls, s2, c2, hr, hs, hp, ht, hnl, hlt, hloop⟩ :=
    consists_loop_step s [] n hne hc
  have hall : (pat_directive.run s [] (fun s1 c1 => some (s1, c1))).isSome = true :=
    run_mono pat_directive s [] [] _ _ (fun _ _ _ _ => rfl) (by rw [hr]; rfl)
  obtain ⟨⟨a, cm⟩, hrun⟩ := Option.isSome_iff_exists.mp hall
  have hsearch := regex_search_at_start pat_directive s a cm hrun
  obtain ⟨hdec, hw, _⟩ := directive_search_nonempty s _ hsearch
  simp only [List.nil_append] at hdec
  obtain ⟨pre1, t1, hs1, hp1, ha⟩ := directive_match_shape _ _ _ _ hrun
  obtain ⟨_, e2⟩ := first_newline_unique pre pre1 t t1 (hs.symm.trans hs1) hp hp1
  refine ⟨_, hsearch, rfl, hw, hdec, ?_⟩
  simp only
  rw [ha, ← e2, ht, dropWhile_append_all _ nls s2 (fun ch hch => by simp [hnl ch hch])]
  exact consists_skip_newlines s2.length s2 c2 n (Nat.le_refl _) (by omega) hloop
/-! ## `parse_source` -/

theorem directive_lines_exist : ∀ (L : Nat) (s : List Char), s.length ≤ L →
    regex_match pat_directive_consists s = true → ∃ ms, directive_lines s ms := by
  intro L
  induction L with
  | zero =>
    intro s hL _
    have hs : s = [] := List.length_eq_zero.mp (Nat.le_zero.mp hL)
    subst hs
    exact ⟨[], directive_lines.done⟩
  | succ L ih =>
    intro s hL hc
    by_cases hne : s = []
    · subst hne
      exact ⟨[], directive_lines.done⟩
    · obtain ⟨m, hm, hb, hw, hs, hafter⟩ := consists_step s hc hne
      have hlen : m.after.length ≤ L := by
        have h1 : s.length = m.whole.length + m.after.length := by
          rw [hs]
          simp
        have h2 : 0 < m.whole.length := List.length_pos.mpr hw
        omega
      obtain ⟨rest, hrest⟩ := ih m.after hlen hafter
      exact ⟨m :: rest, directive_lines.line s m rest hm hb hw hs hrest⟩

theorem directive_lines_cover (s : List Char) (ms : List smatch) (h : directive_lines s ms) :
    (ms.map smatch.whole).flatten = s := by
  induction h with
  | done => rfl
  | line s m rest _ _ _ hs _ ih =>
    rw [List.map_cons, List.flatten_cons, ih]
    exact hs.symm

theorem directive_lines_loop (s : List Char) (ms : List smatch) (h : directive_lines s ms) :
    ∀ (n : Nat) (parsed : parse_results), s.length < n →
      parse_loop n (regex_search pat_directive s) parsed
        = parsed ++ (ms.map directive_of_match).filter (fun d => !is_empty_directive d) := by
  induction h with
  | done =>
    intro n parsed hn
    cases n with
    | zero => simp at hn
    | succ n =>
      have h0 : regex_search pat_directive [] = none := by decide
      rw [h0]
      simp [parse_loop]
  | line s m rest hm _ hw hs _ ih =>
    intro n parsed hn
    cases n with
    | zero => simp at hn
    | succ n =>
      have hlen : m.after.length < n := by
        have h1 : s.length = m.whole.length + m.after.length := by
          rw [hs]
          simp
        have h2 : 0 < m.whole.length := List.length_pos.mpr hw
        omega
      rw [hm]
      simp only [parse_loop, hw, if_false]
      rw [ih n _ hlen, List.map_cons, List.filter_cons]
      by_cases he : is_empty_directive (directive_of_match m) = true
      · simp [he]
      · simp [he]

/-- C26: `parse_source` returns the empty sequence for a text that does not
pass `consists_of_directives`. For a text that passes, the directive lines
that `regex_search` finds one behind the other cover the whole text, and
`parse_source` returns the directives built from them, in this order, without
those whose label and mnemonic are both empty. Every directive it returns has
a label or a mnemonic that is not empty. -/
theorem C26_parse_source (str : String) :
    (consists_of_directives str = false → parse_source str = []) ∧
    (consists_of_directives str = true →
      ∃ ms : List smatch, directive_lines str.data ms ∧
        (ms.map smatch.whole).flatten = str.data ∧
        parse_source str
          = (ms.map directive_of_match).filter (fun d => !is_empty_directive d)) ∧
    (∀ d ∈ parse_source str, d.label ≠ "" ∨ d.instr ≠ "") := by
  have hyes : consists_of_directives str = true →
      ∃ ms : List smatch, directive_lines str.data ms ∧
        (ms.map smatch.whole).flatten = str.data ∧
        parse_source str
          = (ms.map directive_of_match).filter (fun d => !is_empty_directive d) := by
    intro hc
    obtain ⟨ms, hms⟩ := directive_lines_exist str.data.length str.data (Nat.le_refl _) hc
    refine ⟨ms, hms, directive_lines_cover _ _ hms, ?_⟩
    unfold parse_source
    simp only [hc, not_true_eq_false, if_false]
    have hl := directive_lines_loop _ _ hms (str.length + 1) [] (Nat.lt_succ_self _)
    rw [hl]
    rfl
  have hno : consists_of_directives str = false → parse_source str = [] := by
    intro hc
    unfold parse_source
    simp [hc]
  refine ⟨hno, hyes, ?_⟩
  intro d hd
  cases hc : consists_of_directives str with
  | false =>
    rw [hno hc] at hd
    cases hd
  | true =>
    obtain ⟨ms, _, _, hp⟩ := hyes hc
    rw [hp] at hd
    have he := (List.mem_filter.mp hd).2
    simp only [is_empty_directive, Bool.not_eq_true', Bool.and_eq_false_iff,
      decide_eq_false_iff_not] at he
    exact he

/-- C26, witness: a text with a label, an instruction with a comment, an
empty line, a line with a comment only and a line with blanks only, and a
text that does not pass the gate. -/
theorem C26_parse_source_witness :
    parse_source "x: ADDI %r1, 5 ; c\n\n ; note\n  \ncf\n"
      = [{ original := "x: ADDI %r1, 5 ; c\n\n", label := "x", instr := "ADDI",
           data := ("%r1", "5") },
         { original := "cf\n", instr := "cf" }] ∧
    parse_source "cf\n???\n" = [] ∧
    (∀ d ∈ parse_source "x: ADDI %r1, 5 ; c\n\n ; note\n  \ncf\n", d.label ≠ "" ∨ d.instr ≠ "") :=
  ⟨by decide, by decide, (C26_parse_source "x: ADDI %r1, 5 ; c\n\n ; note\n  \ncf\n").2.2⟩
/-! ## `find_first_nondirective` -/

theorem star_loop_path {R T : Type}
    (step : List Char → captures → regex_cont R → Option R)
    (step1 : List Char → captures → regex_cont T → Option T)
    (hstep : ∀ (s : List Char) (c : captures) (k : regex_cont R) (k1 : regex_cont T) (x : R),
      step s c k = some x →
      ∃ s1 c1, k s1 c1 = some x ∧
        ((k1 s1 c1).isSome = true → (step1 s c k1).isSome = true))
    (g : Bool) :
    ∀ (n : Nat) (s : List Char) (c : captures) (k : regex_cont R) (k1 : regex_cont T) (x : R),
      star_loop step g n s c k = some x →
      ∃ s1 c1, k s1 c1 = some x ∧
        ((k1 s1 c1).isSome = true → (star_loop step1 g n s c k1).isSome = true) := by
  intro n
  induction n with
  | zero =>
    intro s c k k1 x h
    exact ⟨s, c, h, fun h1 => h1⟩
  | succ n ih =>
    intro s c k k1 x h
    have hmore : step s c (fun s1 c1 =>
          if s1.length < s.length then star_loop step g n s1 c1 k else none) = some x →
        ∃ s1 c1, k s1 c1 = some x ∧ ((k1 s1 c1).isSome = true →
          (step1 s c (fun s1 c1 =>
            if s1.length < s.length then star_loop step1 g n s1 c1 k1 else none)).isSome
              = true) := by
      intro hx
      obtain ⟨s1, c1, hk, hnext⟩ := hstep s c _ (fun s1 c1 =>
        if s1.length < s.length then star_loop step1 g n s1 c1 k1 else none) x hx
      by_cases hlt : s1.length < s.length
      · simp only [hlt, if_true] at hk hnext
        obtain ⟨s2, c2, hk2, hnext2⟩ := ih s1 c1 k k1 x hk
        exact ⟨s2, c2, hk2, fun h2 => hnext (hnext2 h2)⟩
      · simp [hlt] at hk
    unfold star_loop at h
    cases g with
    | true =>
      simp only [if_true] at h
      split at h
      · next r hr =>
        cases h
        obtain ⟨s1, c1, hk, hnext⟩ := hmore hr
        refine ⟨s1, c1, hk, fun h1 => ?_⟩
        have h2 := hnext h1
        unfold star_loop
        simp only [if_true]
        split
        · rfl
        · next hn => rw [hn] at h2; cases h2
      · refine ⟨s, c, h, fun h1 => ?_⟩
        unfold star_loop
        simp only [if_true]
        split
        · rfl
        · exact h1
    | false =>
      simp only [Bool.false_eq_true, if_false] at h
      split at h
      · next r hr =>
        cases h
        refine ⟨s, c, hr, fun h1 => ?_⟩
        unfold star_loop
        simp only [Bool.false_eq_true, if_false]
        split
        · rfl
        · next hn => rw [hn] at h1; cases h1
      · obtain ⟨s1, c1, hk, hnext⟩ := hmore h
        refine ⟨s1, c1, hk, fun h1 => ?_⟩
        have h2 := hnext h1
        unfold star_loop
        simp only [Bool.false_eq_true, if_false]
        split
        · rfl
        · exact h2

/-- A path through the expression that a continuation accepted is open to every
other continuation that accepts at its end. -/
theorem run_path (r : regex) : ∀ {R T : Type} (s : List Char) (c : captures)
    (k : regex_cont R) (k1 : regex_cont T) (x : R),
    r.run s c k = some x →
    ∃ s1 c1, k s1 c1 = some x ∧ ((k1 s1 c1).isSome = true → (r.run s c k1).isSome = true) := by
  induction r with
  | eps =>
    intro R T s c k k1 x h
    exact ⟨s, c, h, fun h1 => h1⟩
  | chr p =>
    intro R T s c k k1 x h
    cases s with
    | nil => simp [regex.run] at h
    | cons y ys =>
      simp only [regex.run] at h
      by_cases hy : p y = true
      · simp only [hy, if_true] at h
        refine ⟨ys, c, h, fun h1 => ?_⟩
        simp only [regex.run, hy, if_true]
        exact h1
      · simp [hy] at h
  | seq a b iha ihb =>
    intro R T s c k k1 x h
    simp only [regex.run] at h
    obtain ⟨s1, c1, hk, hnext⟩ := iha s c _ (fun s1 c1 => b.run s1 c1 k1) x h
    obtain ⟨s2, c2, hk2, hnext2⟩ := ihb s1 c1 k k1 x hk
    refine ⟨s2, c2, hk2, fun h2 => ?_⟩
    simp only [regex.run]
    exact hnext (hnext2 h2)
  | alt a b iha ihb =>
    intro R T s c k k1 x h
    simp only [regex.run] at h
    split at h
    · next r hr =>
      cases h
      obtain ⟨s1, c1, hk, hnext⟩ := iha s c k k1 _ hr
      refine ⟨s1, c1, hk, fun h1 => ?_⟩
      have h2 := hnext h1
      simp only [regex.run]
      split
      · rfl
      · next hn => rw [hn] at h2; cases h2
    · obtain ⟨s1, c1, hk, hnext⟩ := ihb s c k k1 _ h
      refine ⟨s1, c1, hk, fun h1 => ?_⟩
      have h2 := hnext h1
      simp only [regex.run]
      split
      · rfl
      · exact h2
  | star g a iha =>
    intro R T s c k k1 x h
    simp only [regex.run] at h ⊢
    exact star_loop_path _ _ (fun s c k k1 x hx => iha s c k k1 x hx) g _ s c k k1 x h
  | group i a iha =>
    intro R T s c k k1 x h
    simp only [regex.run] at h
    obtain ⟨s1, c1, hk, hnext⟩ := iha s c _
      (fun s1 c1 => k1 s1 ((i, s.take (s.length - s1.length)) :: c1)) x h
    refine ⟨s1, _, hk, fun h1 => ?_⟩
    simp only [regex.run]
    exact hnext h1

/-- A text that starts with a match of `directive_pat` and passes the gate
behind the match passes the gate. -/
theorem consists_of_match (s : List Char) (m : smatch)
    (hm : regex_search pat_directive s = some m) (hb : m.before = [])
    (hafter : regex_match pat_directive_consists m.after = true) :
    regex_match pat_directive_consists s = true := by
  obtain ⟨hdec, hw, hlt⟩ := directive_search_nonempty s m hm
  obtain ⟨_, hrun⟩ := regex_search_from_sound pat_directive s [] m hm
  rw [hb, List.nil_append] at hdec
  rw [← hdec] at hrun
  obtain ⟨n, hn⟩ : ∃ n, s.length = n + 1 := ⟨s.length - 1, by omega⟩
  obtain ⟨s1, c1, hk, hnext⟩ := run_path pat_directive s [] _
    (fun s1 c1 =>
      if s1.length < s.length then
        star_loop (fun s1 c1 k1 => pat_directive.run s1 c1 k1) true n s1 c1
          (fun s1 _ => if s1 = [] then some () else none)
      else none) _ hrun
  simp only [Option.some.injEq, Prod.mk.injEq] at hk
  rw [hk.1, hk.2] at hnext
  have hloop : (star_loop (fun s1 c1 k1 => pat_directive.run s1 c1 k1) true n m.after m.groups
      (fun s1 _ => if s1 = [] then some () else none)).isSome = true := by
    rw [consists_unfold] at hafter
    rw [star_loop_fuel _ (fun s c => run_fail pat_directive s c) true m.after.length m.after
      m.groups _ n m.after.length (Nat.le_refl _) (by omega) (Nat.le_refl _)]
    exact star_loop_mono _ _ (fun s c d k k1 hk h => run_mono pat_directive s c d k k1 hk h)
      true _ m.after [] m.groups _ _ (fun s1 c1 d1 h1 => h1) hafter
  have hstep := hnext (by simp only [hlt, if_true]; exact hloop)
  rw [consists_unfold, hn]
  unfold star_loop
  simp only [if_true]
  split
  · rfl
  · next hnone => rw [hnone] at hstep; cases hstep

/-- The recursion of `find_first_nondirective` ends: with a depth above the
length of the text the function returns an iterator. -/
theorem find_first_nondirective_returns : ∀ (n : Nat) (s : List Char), s.length < n →
    ∃ it, find_first_nondirective_depth n s = some it := by
  intro n
  induction n with
  | zero => intro s h; simp at h
  | succ n ih =>
    intro s hs
    unfold find_first_nondirective_depth
    cases hm : regex_search pat_directive s with
    | none => exact ⟨_, rfl⟩
    | some m =>
      simp only
      by_cases hb : m.before ≠ []
      · rw [if_pos hb]
        exact ⟨_, rfl⟩
      · rw [if_neg hb]
        obtain ⟨_, _, hlt⟩ := directive_search_nonempty s m hm
        obtain ⟨it, hit⟩ := ih m.after (by omega)
        rw [hit]
        simp only
        by_cases he : it ≠ { depth := 0, offset := m.after.length }
        · rw [if_pos he]
          exact ⟨_, rfl⟩
        · rw [if_neg he]
          exact ⟨_, rfl⟩

/-- The iterator that `find_first_nondirective` returns is `str.cend()` exactly
for the texts that pass `consists_of_directives`. -/
theorem find_first_nondirective_end : ∀ (n : Nat) (s : List Char), s.length < n →
    (find_first_nondirective_depth n s = some { depth := 0, offset := s.length } ↔
      regex_match pat_directive_consists s = true) := by
  intro n
  induction n with
  | zero => intro s h; simp at h
  | succ n ih =>
    intro s hs
    unfold find_first_nondirective_depth
    cases hm : regex_search pat_directive s with
    | none =>
      simp only
      by_cases hne : s = []
      · subst hne
        exact ⟨fun _ => rfl, fun _ => rfl⟩
      · constructor
        · intro h
          simp only [Option.some.injEq, const_iterator.mk.injEq, true_and] at h
          exact absurd (List.length_eq_zero.mp h.symm) hne
        · intro hc
          obtain ⟨m, hm2, _⟩ := consists_step s hc hne
          rw [hm] at hm2
          cases hm2
    | some m =>
      simp only
      obtain ⟨hdec, hw, hlt⟩ := directive_search_nonempty s m hm
      have hpos : 0 < s.length := by omega
      have hne : s ≠ [] := by
        intro e
        rw [e] at hpos
        simp at hpos
      by_cases hb : m.before ≠ []
      · rw [if_pos hb]
        constructor
        · intro h
          simp only [Option.some.injEq, const_iterator.mk.injEq, true_and] at h
          omega
        · intro hc
          obtain ⟨m2, hm2, hb2, _⟩ := consists_step s hc hne
          rw [hm] at hm2
          cases hm2
          exact absurd hb2 hb
      · rw [if_neg hb]
        have hb1 : m.before = [] := by simpa using hb
        obtain ⟨it, hit⟩ := find_first_nondirective_returns n m.after (by omega)
        have hiff := ih m.after (by omega)
        rw [hit] at hiff ⊢
        simp only
        by_cases he : it ≠ { depth := 0, offset := m.after.length }
        · rw [if_pos he]
          constructor
          · intro h
            simp at h
          · intro hc
            obtain ⟨m2, hm2, _, _, _, hafter⟩ := consists_step s hc hne
            rw [hm] at hm2
            cases hm2
            have := hiff.mpr hafter
            simp only [Option.some.injEq] at this
            exact absurd this he
        · rw [if_neg he]
          have he1 : it = { depth := 0, offset := m.after.length } := by simpa using he
          exact ⟨fun _ => consists_of_match s m hm hb1 (hiff.mp (by rw [he1])), fun _ => rfl⟩

/-- When the first line of a text is a directive line and the text behind it
does not pass the gate, the iterator returned is the one of the recursive
call, which points into a local string. -/
theorem find_first_nondirective_into_local (s : List Char) (m : smatch)
    (hm : regex_search pat_directive s = some m) (hb : m.before = [])
    (hc : regex_match pat_directive_consists m.after = false) :
    ∃ d off, find_first_nondirective_depth (s.length + 1) s
      = some { depth := d + 1, offset := off } := by
  obtain ⟨_, _, hlt⟩ := directive_search_nonempty s m hm
  obtain ⟨it, hit⟩ := find_first_nondirective_returns s.length m.after hlt
  have he : it ≠ { depth := 0, offset := m.after.length } := by
    intro e
    have := (find_first_nondirective_end s.length m.after hlt).mp (by rw [hit, e])
    rw [hc] at this
    cases this
  refine ⟨it.depth, it.offset, ?_⟩
  unfold find_first_nondirective_depth
  rw [hm]
  simp only
  rw [if_neg (by simpa using hb), hit]
  simp only
  rw [if_pos he]

/-- The function `find_first_nondirective` returns `str.cend()` exactly for
the texts that pass `consists_of_directives`. -/
theorem find_first_nondirective_cend (str : String) :
    find_first_nondirective str = some { depth := 0, offset := str.length } ↔
      consists_of_directives str = true :=
  find_first_nondirective_end (str.length + 1) str.data (Nat.lt_succ_self _)

/-- C27, at the failing input `cf`, newline, `???`, newline: the text does not
pass `consists_of_directives`, its first line is a directive line and the
character at position 3 is the first that breaks the matching; the call
returns the iterator `scit` of the recursive call, which points to the start
of the local string `leftovers` (depth 1, offset 0) and not into the text. -/
theorem C27_iterator_into_local_copy :
    consists_of_directives "cf\n???\n" = false ∧
    regex_search pat_directive "cf\n???\n".data
      = some { before := [], whole := "cf\n".data, groups := [(2, "cf".data)],
               after := "???\n".data } ∧
    regex_match pat_directive_consists "cf\n".data = true ∧
    (regex_search pat_directive "???\n".data).map smatch.before = some "???".data ∧
    find_first_nondirective "cf\n???\n" = some { depth := 1, offset := 0 } ∧
    find_first_nondirective "cf\n???\n" ≠ some { depth := 0, offset := 3 } := by
  decide

/-! ## The operands that `parse_directive` records -/

/-- C31, at the failing input `dw 08`: the line passes the gate and the
directive pattern captures the operand text `08` (groups 3 and 5), but
`parse_directive` searches `data_pat` in that text again, where `octnum` is
tried before `decnum` and the match need not reach the end: it records `0` as
operand 1 and finds `8` behind it as operand 2, so that the line assembles to
eight words of value 0. In the same way `dw 019, 2` is recorded with the
operands `01` and `9`, and the string operand of `ds "a\"b"` is cut at its
escaped quote into `"a\"` and `b`. -/
theorem C31_operand_text_split :
    consists_of_directives "dw 08\n" = true ∧
    (regex_search pat_directive "dw 08\n".data).map
        (fun m => (capture m.groups 3, capture m.groups 5))
      = some ("08".data, "08".data) ∧
    parse_source "dw 08\n" = [{ original := "dw 08\n", instr := "dw", data := ("0", "8") }] ∧
    parse_source "dw 019, 2\n"
      = [{ original := "dw 019, 2\n", instr := "dw", data := ("01", "9") }] ∧
    parse_source "ds \"a\\\"b\"\n"
      = [{ original := "ds \"a\\\"b\"\n", instr := "ds", data := ("\"a\\\"", "b") }] ∧
    parse_source "dw 8\n" = [{ original := "dw 8\n", instr := "dw", data := ("8", "") }] ∧
    assemble sample_encoders (parse_source "dw 08\n")
      = .ok { context :=
          { sys_mem := [(0, 0), (1, 0), (2, 0), (3, 0), (4, 0), (5, 0), (6, 0), (7, 0)],
            counter := 0 } } := by
  decide

/-! ## The divisor of the repeat count of `ds` and `dsz` -/

theorem ds_empty_string_divides (M : metronome32) (d : directive) (labels : label_addr_map)
    (c : context_data) (n : Int) (hi : d.instr = "ds" ∨ d.instr = "dsz")
    (hlen : (unescape_chars d.data.1).length = 2)
    (hsize : pseudop_addrdelta_s d = .ok n) :
    assemble_instruction M d labels c = (c, some .division_by_zero) := by
  have ht : ds_times d = .error .division_by_zero := by
    unfold ds_times
    simp [hlen, hsize]
  rw [ds_dispatch M d labels c hi]
  unfold pseudop_create_instr
  rcases hi with hi | hi <;> simp [hi, ht]

/-- C32, at the failing input `ds ""`: the parser records the operand `""`,
which matches the string pattern, and the resolver accepts the directive with
the size 0; in the encoder the string without its quotes is empty, so the
repeat count is computed by a division by `str.size() = 0`. The same holds
for `dsz ""`. -/
theorem C32_empty_string_divides_by_zero (M : metronome32) :
    parse_source "ds \"\"\n" = [line1 "ds" "\"\""] ∧
    regex_match_str "\"\"" = true ∧
    pseudop_addrdelta_s (line1 "ds" "\"\"") = .ok 0 ∧
    resolve_labels (lowercase_instr_names [line1 "ds" "\"\""])
      = ([line1 "ds" "\"\""], .ok []) ∧
    ((unescape_chars "\"\"").data.drop 1).take ((unescape_chars "\"\"").length - 2) = [] ∧
    ds_times (line1 "ds" "\"\"") = .error .division_by_zero ∧
    assemble M [line1 "ds" "\"\""] = .error .division_by_zero ∧
    assemble M [line1 "dsz" "\"\""] = .error .division_by_zero :=
  ⟨by decide, by decide, by decide, by decide, by decide, by decide, rfl, rfl⟩

end metroaag32
